import Mathlib

/-!
# Query compiler core (`core/internal/qcode/qcode.go`)

A shallow embedding of the filter combinator, the cursor seek predicate, the
constraint directive compiler, the order keywords, the mutation type, the
directives, the selector loop, the selector arguments and the relationship
filters of the query compiler, followed by theorems about them.

Two views of an expression are used.

* `Exp` is the expression tree a `*Exp` pointer denotes (`Exp.nil` is the nil
  pointer).  Functions that only build or reshape trees are embedded on it.
* `Mem` is an explicit store of expression cells addressed by `Nat`; it is the
  view in which "the same node" and "a fresh node" can be told apart, and in
  which an update through a pointer is visible through every other pointer to
  the same cell.
-/

namespace Qcode

/-! ## Data model (qcode.go lines 24-322) -/

/-- The operator tag of an expression node (`ExpOp`, lines 245-285). -/
inductive ExpOp where
  | OpNop
  | OpAnd
  | OpOr
  | OpNot
  | OpEquals
  | OpNotEquals
  | OpGreaterOrEquals
  | OpLesserOrEquals
  | OpGreaterThan
  | OpLesserThan
  | OpIn
  | OpNotIn
  | OpLike
  | OpNotLike
  | OpILike
  | OpNotILike
  | OpSimilar
  | OpNotSimilar
  | OpRegex
  | OpNotRegex
  | OpIRegex
  | OpNotIRegex
  | OpContains
  | OpContainedIn
  | OpHasInCommon
  | OpHasKey
  | OpHasKeyAny
  | OpHasKeyAll
  | OpIsNull
  | OpIsNotNull
  | OpTsQuery
  | OpFalse
  | OpNotDistinct
  | OpDistinct
  | OpEqualsTrue
  | OpNotEqualsTrue
  | OpSelectExists
deriving DecidableEq, Repr

/-- The kind of a right-hand value (`ValType`, lines 287-296).  The constants
start at 1 in the source; `ValZero` is the zero value of the type. -/
inductive ValType where
  | ValZero
  | ValStr
  | ValNum
  | ValBool
  | ValList
  | ValObj
  | ValVar
deriving DecidableEq, Repr

/-- Sort direction (`Order`, lines 308-318). -/
inductive Order where
  | OrderNone
  | OrderAsc
  | OrderDesc
  | OrderAscNullsFirst
  | OrderAscNullsLast
  | OrderDescNullsFirst
  | OrderDescNullsLast
deriving DecidableEq, Repr

/-- Paging kind (`PagingType`, lines 220-226). -/
inductive PagingType where
  | PTOffset
  | PTForward
  | PTBackward
deriving DecidableEq, Repr

/-- Modelled from the spec: `sdata.DBColumn` is declared in the schema package,
outside this file.  Only the fields the compiler core reads are kept: the
column name, its table, whether it is an array, and the foreign-key column. -/
structure DBColumn where
  Name : String := ""
  Table : String := ""
  Array : Bool := false
  FKeyCol : String := ""
deriving DecidableEq, Repr

/-- The left operand slot of an expression (`Exp.Left`, lines 171-175). -/
structure ExpLeft where
  ID : Int := 0
  Table : String := ""
  Col : DBColumn := {}
deriving DecidableEq, Repr

/-- The right operand slot of an expression (`Exp.Right`, lines 176-185). -/
structure ExpRight where
  ValType : ValType := .ValZero
  Val : String := ""
  ID : Int := 0
  Table : String := ""
  Col : DBColumn := {}
  ListType : Qcode.ValType := .ValZero
  ListVal : List String := []
  Path : List String := []
deriving DecidableEq, Repr

/-- The scalar fields of an expression node (`Exp`, lines 165-188) without its
child list.  `Joins` is written only by the where-argument compiler, which is
not part of this file, and is left out. -/
structure ExpNode where
  Op : ExpOp := .OpNop
  Order : Order := .OrderNone
  OrderBy : Bool := false
  Left : ExpLeft := {}
  Right : ExpRight := {}
deriving DecidableEq, Repr

/-- The tree denoted by a `*Exp`: `nil` for the nil pointer, otherwise a node
with its child list. -/
inductive Exp where
  | nil : Exp
  | node (n : ExpNode) (Children : List Exp) : Exp
deriving Repr

/-- A filter holds the root of an expression tree (`Filter`, lines 161-163). -/
structure Filter where
  Exp : Exp := .nil

/-- One order-by entry (`OrderBy`, lines 212-218). -/
structure OrderBy where
  KeyVar : String := ""
  Key : String := ""
  Col : DBColumn := {}
  Var : String := ""
  Order : Order := .OrderNone
deriving DecidableEq, Repr

/-- The paging descriptor (`Paging`, lines 228-236). -/
structure Paging where
  Type_ : PagingType := .PTOffset
  LimitVar : String := ""
  Limit : Int := 0
  OffsetVar : String := ""
  Offset : Int := 0
  Cursor : Bool := false
  NoLimit : Bool := false
deriving DecidableEq, Repr

/-- The kind of an operation (`QType`, lines 24-35). -/
inductive QType where
  | QTUnknown
  | QTQuery
  | QTSubscription
  | QTMutation
  | QTInsert
  | QTUpdate
  | QTDelete
  | QTUpsert
deriving DecidableEq, Repr

/-- Method `QType.String`.  It is generated by the `stringer -linecomment`
command of line 1, which names each constant by its line comment
(lines 27-34). -/
def QType.String : QType → String
  | .QTUnknown => "Unknown"
  | .QTQuery => "Query"
  | .QTSubscription => "Subcription"
  | .QTMutation => "Mutation"
  | .QTInsert => "Insert"
  | .QTUpdate => "Update"
  | .QTDelete => "Delete"
  | .QTUpsert => "Upsert"

/-- The kind of a selector (`SelType`, lines 37-43). -/
inductive SelType where
  | SelTypeNone
  | SelTypeUnion
  | SelTypeMember
deriving DecidableEq, Repr

/-- The render-skip reason (`SkipType`, lines 45-53). -/
inductive SkipType where
  | SkipTypeNone
  | SkipTypeDrop
  | SkipTypeUserNeeded
  | SkipTypeBlocked
  | SkipTypeRemote
deriving DecidableEq, Repr

/-- Modelled from the spec: one declared input of a database function
(`sdata.DBFuncParam`, declared in the schema package): its name and its type. -/
structure DBFuncParam where
  Name : String := ""
  Type_ : String := ""
deriving DecidableEq, Repr

/-- Modelled from the spec: `sdata.DBFunction` is declared in the schema
package; the compiler core reads its list of declared inputs. -/
structure DBFunction where
  Name : String := ""
  Inputs : List DBFuncParam := []
deriving DecidableEq, Repr

/-- Modelled from the spec: `sdata.DBTable` is declared in the schema package.
Only the fields the compiler core reads are kept. -/
structure DBTable where
  Schema : String := ""
  Name : String := ""
  Type_ : String := ""
  PrimaryCol : DBColumn := {}
  Blocked : Bool := false
  FullText : List DBColumn := []
  Func : DBFunction := {}
deriving DecidableEq, Repr

/-- Modelled from the spec: the relationship kinds of `sdata` (spec section 9:
none, one-to-one, one-to-many, embedded, polymorphic, recursive, remote,
skip). -/
inductive RelType where
  | RelNone
  | RelOneToOne
  | RelOneToMany
  | RelEmbedded
  | RelPolymorphic
  | RelRecursive
  | RelRemote
  | RelSkip
deriving DecidableEq, Repr

/-- Modelled from the spec: one side of a relationship (`sdata.DBRel.Left`,
`sdata.DBRel.Right`): a table and a column. -/
structure RelSide where
  Ti : DBTable := {}
  Col : DBColumn := {}
deriving DecidableEq, Repr

/-- Modelled from the spec: `sdata.DBRel` is declared in the schema package:
the relationship kind and its two sides. -/
structure DBRel where
  Type_ : RelType := .RelNone
  Left : RelSide := {}
  Right : RelSide := {}
deriving DecidableEq, Repr

/-- The kind of a selector argument (`ArgType`, lines 196-202). -/
inductive ArgType where
  | ArgTypeVal
  | ArgTypeVar
  | ArgTypeCol
deriving DecidableEq, Repr

/-- A selector argument (`Arg`, lines 204-210).  The name `Arg` is used below
for the argument type of the parser package, so this one is `QArg`. -/
structure QArg where
  Type_ : ArgType := .ArgTypeVal
  DType : String := ""
  Name : String := ""
  Val : String := ""
  Col : DBColumn := {}
deriving DecidableEq, Repr

/-- One join of a selector (`Join`, lines 190-194). -/
structure Join where
  Filter : Exp := .nil
  Rel : DBRel := {}
  Local : Bool := false

/-- Modelled from the spec: `TConfig` is declared in the configuration file of
the package.  The compiler core reads its map `OrderBy` from the name of a
preconfigured ordering to a list of (column, order keyword) pairs; the map is
held as its list of entries, with distinct keys. -/
structure TConfig where
  OrderBy : List (String × List (String × String)) := []
deriving DecidableEq, Repr

/-- The fields of a selector (`Select`, lines 81-108) that the embedded
functions read or write. -/
structure Select where
  ID : Int := 0
  ParentID : Int := 0
  Singular : Bool := false
  Table : String := ""
  Where : Filter := {}
  OrderBy : List OrderBy := []
  Paging : Paging := {}
  order : Order := .OrderNone
  Type_ : SelType := .SelTypeNone
  Schema : String := ""
  FieldName : String := ""
  IArgs : List QArg := []
  Children : List Int := []
  SkipRender : SkipType := .SkipTypeNone
  Ti : DBTable := {}
  Rel : DBRel := {}
  through : String := ""
  Args : List QArg := []
  DistinctOn : List DBColumn := []
  Joins : List Join := []
  tc : TConfig := {}

/-! ## Expression constructors -/

/-- Modelled from the spec: `newExp` is declared in a sibling file of the
package.  It returns a new node with no children; the initial values of the
operand slots are not visible here and are taken as the parameter `z`. -/
def newExp (z : ExpNode) : Exp := .node z []

/-- Modelled from the spec: `newExpOp` is declared in a sibling file of the
package; it is `newExp` followed by setting the operator. -/
def newExpOp (z : ExpNode) (op : ExpOp) : Exp := .node { z with Op := op } []

/-- The operator at the root of a tree, if the pointer is not nil. -/
def Exp.op? : Exp → Option ExpOp
  | .nil => none
  | .node n _ => some n.Op

/-- The child list at the root of a tree (empty for nil). -/
def Exp.children : Exp → List Exp
  | .nil => []
  | .node _ cs => cs

/-- The effect of appending through `e.Children = append(e.Children, c)` on the
tree that `e` denotes. -/
def Exp.appendChild : Exp → Exp → Exp
  | .nil, _ => .nil
  | .node n cs, c => .node n (cs ++ [c])

/-- The test `ow.Op != OpAnd && ow.Op != OpOr && ow.Op != OpNot` of line 1979. -/
def notBoolOp (op : ExpOp) : Bool :=
  op != .OpAnd && op != .OpOr && op != .OpNot

/-! ## Filter merge (lines 1969-1987) on trees -/

/-- Tree view of `setFilter` (lines 1969-1987): the new filter root. -/
def setFilter (z : ExpNode) (fil : Filter) (ex : Exp) : Filter :=
  match fil.Exp with
  | .nil => { Exp := ex }
  | .node ow cs =>
    if notBoolOp ow.Op then
      { Exp := .node { z with Op := .OpAnd } [ex, .node ow cs] }
    else
      { Exp := .node ow (cs ++ [ex]) }

/-- Tree view of `addFilters` (lines 903-916).  The pair `trv` stands for the
result of `trv.filter(qc.SType)`, whose type is declared outside this file:
the role filter template and the user-needed flag. -/
def addFilters (z : ExpNode) (where_ : Filter) (trv : Exp × Bool) : Filter × Bool :=
  match trv.1 with
  | .nil => (where_, false)
  | .node fil cs =>
    match fil.Op with
    | .OpNop => (where_, trv.2)
    | .OpFalse => ({ Exp := .node fil cs }, trv.2)
    | _ => (setFilter z where_ (.node fil cs), trv.2)

/-! ## Filter merge on an explicit store -/

namespace Mem

/-- A `*Exp`: nil or the address of a cell. -/
abbrev Ptr := Option Nat

/-- One expression cell: the scalar fields and the child pointers. -/
structure Cell where
  n : ExpNode
  Children : List Ptr
deriving DecidableEq, Repr

/-- The store: the cell at address `a` is the `a`-th element. -/
abbrev Heap := List Cell

/-- Allocation of `newExpOp(op)`: a cell added at the next free address. -/
def newExpOp (z : ExpNode) (h : Heap) (op : ExpOp) : Heap × Nat :=
  (h ++ [{ n := { z with Op := op }, Children := [] }], h.length)

/-- Overwrite of the child list of the cell at address `a`. -/
def setChildren (h : Heap) (a : Nat) (cs : List Ptr) : Heap :=
  match h[a]? with
  | none => h
  | some c => h.set a { c with Children := cs }

/-- Store view of `setFilter` (lines 1969-1987): the store after the call and
the new value of `fil.Exp`.  An address outside the store cannot be held by a
Go pointer; the model leaves the state as it is there. -/
def setFilter (z : ExpNode) (h : Heap) (fil : Ptr) (ex : Ptr) : Heap × Ptr :=
  match fil with
  | none => (h, ex)
  | some a =>
    match h[a]? with
    | none => (h, fil)
    | some ow =>
      if notBoolOp ow.n.Op then
        let r := newExpOp z h .OpAnd
        (setChildren r.1 r.2 [ex, some a], some r.2)
      else
        (setChildren h a (ow.Children ++ [ex]), some a)

/-- Store view of `addFilters` (lines 903-916); `fil` and `userNeeded` stand
for the result of `trv.filter(qc.SType)`. -/
def addFilters (z : ExpNode) (h : Heap) (where_ : Ptr) (fil : Ptr) (userNeeded : Bool) :
    Heap × Ptr × Bool :=
  match fil with
  | none => (h, where_, false)
  | some t =>
    match h[t]? with
    | none => (h, where_, false)
    | some c =>
      match c.n.Op with
      | .OpNop => (h, where_, userNeeded)
      | .OpFalse => (h, some t, userNeeded)
      | _ =>
        let r := setFilter z h where_ (some t)
        (r.1, r.2, userNeeded)

end Mem

/-! ## Cursor seek predicate (lines 850-901) -/

/-- The last two cases of the switch at lines 879-886: the operator of the
comparison that is not an equality. -/
def seekOp (o : Order) : ExpOp :=
  if o = .OrderDesc then .OpLesserThan else .OpGreaterThan

/-- A node comparing column `ob.Col` with the same column of table `__cur`
(lines 874-877) under operator `op`. -/
def seekNode (z : ExpNode) (op : ExpOp) (ob : OrderBy) : Exp :=
  .node
    { z with
      Op := op
      Left := { z.Left with Col := ob.Col }
      Right := { z.Right with Table := "__cur", Col := ob.Col } }
    []

/-- The node `f` built in the inner loop (lines 874-886) for order-by entry
`ob` at position `n` of pass `i`. -/
def seekField (z : ExpNode) (i n : Nat) (ob : OrderBy) : Exp :=
  seekNode z (if i > 0 ∧ n ≠ i then .OpEquals else seekOp ob.Order) ob

/-- The inner loop `for n, ob := range sel.OrderBy` (lines 869-893) from
position `n` on, acting on the pair (`or`, `and`). -/
def seekInner (z : ExpNode) (i : Nat) : Nat → List OrderBy → Exp × Exp → Exp × Exp
  | _, [], st => st
  | n, ob :: rest, st =>
    if n > i then st
    else
      match st.2 with
      | .nil => seekInner z i (n + 1) rest (st.1.appendChild (seekField z i n ob), st.2)
      | .node a cs =>
        seekInner z i (n + 1) rest (st.1, (Exp.node a cs).appendChild (seekField z i n ob))

/-- One pass of the outer loop (lines 864-898) acting on (`or`, `and`). -/
def seekOuter (z : ExpNode) (obs : List OrderBy) (st : Exp × Exp) (i : Nat) : Exp × Exp :=
  let and0 := if i ≠ 0 then newExpOp z .OpAnd else st.2
  let st1 := seekInner z i 0 obs (st.1, and0)
  match st1.2 with
  | .nil => st1
  | .node a cs => (st1.1.appendChild (.node a cs), st1.2)

/-- The `is_null` child of the seek predicate (lines 857-859). -/
def seekIsNull (z : ExpNode) (ob : OrderBy) : Exp :=
  .node { z with Op := .OpIsNull, Left := { z.Left with Table := "__cur", Col := ob.Col } } []

/-- The initial `or` node with its `is_null` child (lines 854-862); nil when
the order-by list is empty. -/
def seekInit (z : ExpNode) : List OrderBy → Exp
  | [] => .nil
  | ob :: _ =>
    .node { z with Op := .OpOr } [seekIsNull z ob]

/-- The `or` pointer that `addSeekPredicate` hands to `setFilter` (line 900). -/
def seekOr (z : ExpNode) (obs : List OrderBy) : Exp :=
  ((List.range obs.length).foldl (seekOuter z obs) (seekInit z obs, .nil)).1

/-- Tree view of `addSeekPredicate` (lines 850-901). -/
def addSeekPredicate (z : ExpNode) (sel : Select) : Select :=
  { sel with Where := setFilter z sel.Where (seekOr z sel.OrderBy) }

/-! ### The shape the seek predicate is said to have -/

/-- The equality `c = __cur.c` for an order-by entry. -/
def seekEquals (z : ExpNode) (ob : OrderBy) : Exp := seekNode z .OpEquals ob

/-- The comparison of `c` against `__cur.c` for an order-by entry. -/
def seekCompare (z : ExpNode) (ob : OrderBy) : Exp := seekNode z (seekOp ob.Order) ob

/-- The `and` node for position `i` (counted from 1): the equalities of the
entries before position `i`, in order, followed by the comparison of entry
`i`. -/
def seekConj (z : ExpNode) (obs : List OrderBy) (i : Nat) : Exp :=
  .node { z with Op := .OpAnd }
    ((obs.take (i - 1)).map (seekEquals z) ++ (obs[i - 1]?.toList.map (seekCompare z)))

/-- The `and` nodes for the entries `obs` that follow the entries `pre`. -/
def seekConjs (z : ExpNode) : List OrderBy → List OrderBy → List Exp
  | _, [] => []
  | pre, ob :: rest =>
    .node { z with Op := .OpAnd } (pre.map (seekEquals z) ++ [seekCompare z ob]) ::
      seekConjs z (pre ++ [ob]) rest

/-- A descending order keyword. -/
def Order.isDesc : Order → Bool
  | .OrderDesc => true
  | .OrderDescNullsFirst => true
  | .OrderDescNullsLast => true
  | _ => false

/-- The cursor step of `compileQuery` (lines 481-493).  `orderByIDCol` is
declared outside this file; the spec says it appends the primary-key column to
the order-by list as tie-breaker, so it is taken as a parameter that yields the
new order-by list or an error. -/
def cursorStep (z : ExpNode) (orderByIDCol : Select → Except String (List OrderBy))
    (sel : Select) : Except String Select :=
  if sel.Paging.Cursor then
    match orderByIDCol sel with
    | .error e => .error e
    | .ok obs =>
      let sel1 := { sel with OrderBy := obs }
      if sel1.Paging.Type_ ≠ .PTOffset then .ok (addSeekPredicate z sel1) else .ok sel1
  else .ok sel

/-! ## Reading of an expression tree as a predicate -/

mutual
/-- The boolean reading of a tree: `and` holds when every child holds, `or`
when some child holds, `not` negates its first child, `false` never holds;
every other operator is read by `atom` and a nil pointer by `nilv`. -/
def Exp.eval (atom : ExpNode → Bool) (nilv : Bool) : Exp → Bool
  | .nil => nilv
  | .node n cs =>
    match n.Op with
    | .OpAnd => Exp.evalAll atom nilv cs
    | .OpOr => Exp.evalAny atom nilv cs
    | .OpNot => !(Exp.evalHead atom nilv cs)
    | .OpFalse => false
    | _ => atom n
/-- Every tree of the list holds. -/
def Exp.evalAll (atom : ExpNode → Bool) (nilv : Bool) : List Exp → Bool
  | [] => true
  | c :: cs => Exp.eval atom nilv c && Exp.evalAll atom nilv cs
/-- Some tree of the list holds. -/
def Exp.evalAny (atom : ExpNode → Bool) (nilv : Bool) : List Exp → Bool
  | [] => false
  | c :: cs => Exp.eval atom nilv c || Exp.evalAny atom nilv cs
/-- The first tree of the list holds. -/
def Exp.evalHead (atom : ExpNode → Bool) (nilv : Bool) : List Exp → Bool
  | [] => false
  | c :: _ => Exp.eval atom nilv c
end

/-- A row: the value of each column, `none` for SQL null. -/
abbrev Row := String → Option Int

/-- The value of a left operand: the cursor row for table `__cur`, the
current row otherwise. -/
def leftVal (row cur : Row) (l : ExpLeft) : Option Int :=
  if l.Table = "__cur" then cur l.Col.Name else row l.Col.Name

/-- The value of a right column operand: the cursor row for table `__cur`,
the current row otherwise. -/
def rightVal (row cur : Row) (r : ExpRight) : Option Int :=
  if r.Table = "__cur" then cur r.Col.Name else row r.Col.Name

/-- The SQL reading of the comparison and null-test operators the seek
predicate uses; a comparison with a null operand does not hold. -/
def atomSQL (row cur : Row) (n : ExpNode) : Bool :=
  match n.Op with
  | .OpIsNull => (leftVal row cur n.Left).isNone
  | .OpEquals =>
    match leftVal row cur n.Left, rightVal row cur n.Right with
    | some a, some b => decide (a = b)
    | _, _ => false
  | .OpGreaterThan =>
    match leftVal row cur n.Left, rightVal row cur n.Right with
    | some a, some b => decide (a > b)
    | _, _ => false
  | .OpLesserThan =>
    match leftVal row cur n.Left, rightVal row cur n.Right with
    | some a, some b => decide (a < b)
    | _, _ => false
  | _ => false

/-- The row sorts strictly after the cursor row in the order-by ordering: at
the first order-by column where the two differ the row is greater (or, for a
descending column, smaller).  Null values are outside the ordering. -/
def sortsAfter (row cur : Row) : List OrderBy → Bool
  | [] => false
  | ob :: rest =>
    match row ob.Col.Name, cur ob.Col.Name with
    | some a, some b =>
      if a = b then sortsAfter row cur rest
      else if ob.Order.isDesc then decide (a < b) else decide (a > b)
    | _, _ => false

/-- The tree `sub` occurs in the tree `e`: it is `e` itself or occurs in a
child of `e`. -/
inductive Exp.Contains : Exp → Exp → Prop where
  | root (e : Exp) : Exp.Contains e e
  | child (n : ExpNode) (cs : List Exp) (c sub : Exp) :
      c ∈ cs → Exp.Contains c sub → Exp.Contains (.node n cs) sub

/-! ## Parsed GraphQL values (package `graph`, outside this file) -/

/-- Modelled from the spec: `graph.ParserType` is declared in the parser
package; these are the node kinds the compiler core tests for. -/
inductive ParserType where
  | NodeStr
  | NodeNum
  | NodeBool
  | NodeObj
  | NodeList
  | NodeVar
  | NodeLabel
deriving DecidableEq, Repr

/-- Modelled from the spec: `graph.Node` is declared in the parser package: a
value node with its kind, name, text and children. -/
inductive Node where
  | mk (Type_ : ParserType) (Name : String) (Val : String) (Children : List Node) : Node
deriving Repr

/-- Field `Type` of a node. -/
def Node.Type_ : Node → ParserType
  | .mk t _ _ _ => t

/-- Field `Name` of a node. -/
def Node.Name : Node → String
  | .mk _ n _ _ => n

/-- Field `Val` of a node. -/
def Node.Val : Node → String
  | .mk _ _ v _ => v

/-- Field `Children` of a node. -/
def Node.Children : Node → List Node
  | .mk _ _ _ cs => cs

/-- Modelled from the spec: `graph.Arg` is declared in the parser package: an
argument name with its value node. -/
structure Arg where
  Name : String
  Val : Node

/-- Modelled from the spec: `graph.Directive` is declared in the parser
package: a directive name with its arguments. -/
structure Directive where
  Name : String
  Args : List Arg

/-- Helper `ifArgList` (lines 2061-2065). -/
def ifArgList (arg : Arg) (lty : ParserType) : Bool :=
  arg.Val.Type_ == .NodeList &&
    (arg.Val.Children.length != 0 &&
      match arg.Val.Children with
      | [] => false
      | c :: _ => c.Type_ == lty)

/-- Helper `ifArg` (lines 2067-2069). -/
def ifArg (arg : Arg) (ty : ParserType) : Bool :=
  arg.Val.Type_ == ty

/-- Helper `ifNotArgVal` (lines 2079-2081). -/
def ifNotArgVal (arg : Arg) (val : String) : Bool :=
  arg.Val.Val != val

/-! ## Constraint directive (lines 1324-1467) -/

/-- One row of the validator table (`validator`, lines 1324-1328). -/
structure validator where
  name : String
  types : List ParserType
  single : Bool := false
deriving DecidableEq, Repr

/-- The validator table (`validators`, lines 1330-1358) as a lookup. -/
def validators (key : String) : Option validator :=
  if key = "variable" then some { name := "variable", types := [.NodeStr] }
  else if key = "error" then some { name := "error", types := [.NodeStr] }
  else if key = "unique" then some { name := "unique", types := [.NodeBool], single := true }
  else if key = "format" then some { name := "format", types := [.NodeStr], single := true }
  else if key = "required" then some { name := "required", types := [.NodeBool], single := true }
  else if key = "requiredIf" then some { name := "required_if", types := [.NodeObj] }
  else if key = "requiredUnless" then some { name := "required_unless", types := [.NodeObj] }
  else if key = "requiredWith" then
    some { name := "required_with", types := [.NodeList, .NodeStr] }
  else if key = "requiredWithAll" then
    some { name := "required_with_all", types := [.NodeList, .NodeStr] }
  else if key = "requiredWithout" then
    some { name := "required_without", types := [.NodeList, .NodeStr] }
  else if key = "requiredWithoutAll" then
    some { name := "required_without_all", types := [.NodeList, .NodeStr] }
  else if key = "length" then some { name := "len", types := [.NodeStr, .NodeNum] }
  else if key = "max" then some { name := "max", types := [.NodeStr, .NodeNum] }
  else if key = "min" then some { name := "min", types := [.NodeStr, .NodeNum] }
  else if key = "equals" then some { name := "eq", types := [.NodeStr, .NodeNum] }
  else if key = "notEquals" then some { name := "neq", types := [.NodeStr, .NodeNum] }
  else if key = "oneOf" then
    some { name := "oneof", types := [.NodeList, .NodeNum, .NodeList, .NodeStr] }
  else if key = "greaterThan" then some { name := "gt", types := [.NodeStr, .NodeNum] }
  else if key = "greaterThanOrEquals" then some { name := "gte", types := [.NodeStr, .NodeNum] }
  else if key = "lessThan" then some { name := "lt", types := [.NodeStr, .NodeNum] }
  else if key = "lessThanOrEquals" then some { name := "lte", types := [.NodeStr, .NodeNum] }
  else if key = "equalsField" then some { name := "eqfield", types := [.NodeStr] }
  else if key = "notEqualsField" then some { name := "nefield", types := [.NodeStr] }
  else if key = "greaterThanField" then some { name := "gtfield", types := [.NodeStr] }
  else if key = "greaterThanOrEqualsField" then some { name := "gtefield", types := [.NodeStr] }
  else if key = "lessThanField" then some { name := "ltfield", types := [.NodeStr] }
  else if key = "lessThanOrEqualsField" then some { name := "ltefield", types := [.NodeStr] }
  else none

/-- The first loop of `validateConstraint` (lines 1441-1451): whether some
declared type accepts the argument, with the running `list` flag. -/
def validateTypes (a : Arg) : Bool → List ParserType → Bool
  | _, [] => false
  | list, t :: ts =>
    if t = .NodeList then validateTypes a true ts
    else if list && ifArgList a t then true
    else if ifArg a t then true
    else validateTypes a list ts

/-- The second loop of `validateConstraint` (lines 1453-1465): the error text.
`tyName` stands for `ParserType.String`, generated outside this file. -/
def validateErrText (tyName : ParserType → String) :
    Nat → Bool → List ParserType → String → String
  | _, _, [], err => err
  | i, list, t :: ts, err =>
    let err1 := if i ≠ 0 then err ++ ", " else err
    let mark := !list && t == .NodeList
    let err2 := if mark then err1 ++ "a list of " else err1
    validateErrText tyName (i + 1) (list || mark) ts (err2 ++ tyName t)

/-- Function `validateConstraint` (lines 1440-1467). -/
def validateConstraint (tyName : ParserType → String) (a : Arg) (v : validator) :
    Except String Unit :=
  if validateTypes a false v.types then .ok ()
  else .error (validateErrText tyName 0 false v.types "value must be of type: ")

/-- The running state of the argument loop of `compileDirectiveConstraint`:
the local variables `varName`, `errMsg` and `vals`. -/
structure ConstraintState where
  varName : String := ""
  errMsg : String := ""
  vals : List String := []
deriving DecidableEq, Repr

/-- The flattened value of a rule argument (lines 1398-1418). -/
def constraintValue (a : Arg) : String :=
  match a.Val.Type_ with
  | .NodeStr => if ifNotArgVal a "" then a.Val.Val else ""
  | .NodeNum => if ifNotArgVal a "" then a.Val.Val else ""
  | .NodeBool => if ifNotArgVal a "" then a.Val.Val else ""
  | .NodeObj => " ".intercalate (a.Val.Children.flatMap fun v => [v.Name, v.Val])
  | .NodeList => " ".intercalate (a.Val.Children.map fun v => v.Val)
  | _ => ""

/-- One pass of the argument loop of `compileDirectiveConstraint`
(lines 1365-1421). -/
def constraintArg (tyName : ParserType → String) (st : ConstraintState) (a : Arg) :
    Except String ConstraintState :=
  if a.Name = "variable" ∧ ifNotArgVal a "" = true then
    if a.Val.Val.data.head? = some '$' then
      .ok { st with varName := String.mk (a.Val.Val.data.drop 1) }
    else .ok { st with varName := a.Val.Val }
  else
    let st1 : ConstraintState :=
      if a.Name = "error" ∧ ifNotArgVal a "" = true then { st with errMsg := a.Val.Val } else st
    if a.Name = "format" ∧ ifNotArgVal a "" = true then
      .ok { st1 with vals := st1.vals ++ [a.Val.Val] }
    else
      match validators a.Name with
      | none => .ok st1
      | some v =>
        match validateConstraint tyName a v with
        | .error e => .error e
        | .ok _ =>
          if v.single then .ok { st1 with vals := st1.vals ++ [v.name] }
          else .ok { st1 with vals := st1.vals ++ [v.name ++ "=" ++ constraintValue a] }

/-- The argument loop of `compileDirectiveConstraint` (lines 1365-1421). -/
def constraintArgs (tyName : ParserType → String) :
    ConstraintState → List Arg → Except String ConstraintState
  | st, [] => .ok st
  | st, a :: rest =>
    match constraintArg tyName st a with
    | .error e => .error e
    | .ok st1 => constraintArgs tyName st1 rest

/-- The constraint map (`Constraints`, line 243); the stored values are the
packed strings. -/
abbrev Constraints := List (String × String)

/-- Map assignment `m[k] = v`. -/
def Constraints.set (m : Constraints) (k v : String) : Constraints :=
  (k, v) :: m.filter fun kv => kv.1 != k

/-- Map lookup `m[k]`. -/
def Constraints.get (m : Constraints) (k : String) : Option String :=
  (m.find? fun kv => kv.1 == k).map fun kv => kv.2

/-- The cache directive (`Cache`, lines 238-240). -/
structure Cache where
  Header : String := ""
deriving DecidableEq, Repr

/-- The script descriptor (`Script`, lines 117-122) without the executor. -/
structure Script where
  Exists : Bool := false
  Source : String := ""
  Name : String := ""
deriving DecidableEq, Repr

/-- The validation descriptor (`Validation`, lines 110-115) without the
executor. -/
structure Validation where
  Exists : Bool := false
  Source : String := ""
  Type_ : String := ""
deriving DecidableEq, Repr

/-- The fields of `QCode` (lines 60-79) that the embedded functions read or
write.  `ActionArg` is `none` for the zero value. -/
structure QCode where
  Name : String := ""
  ActionVar : String := ""
  Consts : Constraints := []
  Type_ : QType := .QTUnknown
  SType : QType := .QTUnknown
  ActionArg : Option Arg := none
  Selects : List Select := []
  Roots : List Int := []
  Remotes : Int := 0
  Cache : Cache := {}
  Script : Script := {}
  Validation : Validation := {}
  Typename : Bool := false

/-- Function `compileDirectiveConstraint` (lines 1360-1438). -/
def compileDirectiveConstraint (tyName : ParserType → String) (qc : QCode) (d : Directive) :
    Except String QCode :=
  match constraintArgs tyName {} d.Args with
  | .error e => .error e
  | .ok st =>
    if st.varName = "" then .error "invalid @constraint no variable name specified"
    else
      let opt := ",".intercalate st.vals
      let opt1 := if st.errMsg ≠ "" then opt ++ "~" ++ st.errMsg else opt
      .ok { qc with Consts := qc.Consts.set st.varName opt1 }

/-! ## Order keywords (lines 320-322 and 1808-1825) -/

/-- Method `Order.String` (lines 320-322). -/
def Order.String : Order → String
  | .OrderNone => "None"
  | .OrderAsc => "ASC"
  | .OrderDesc => "DESC"
  | .OrderAscNullsFirst => "ASC NULLS FIRST"
  | .OrderAscNullsLast => "ASC NULLS LAST"
  | .OrderDescNullsFirst => "DESC NULLLS FIRST"
  | .OrderDescNullsLast => "DESC NULLS LAST"

/-- Function `toOrder` (lines 1808-1825): the order and the error, if any. -/
def toOrder (val : String) : Order × Option String :=
  if val = "asc" then (.OrderAsc, none)
  else if val = "desc" then (.OrderDesc, none)
  else if val = "asc_nulls_first" then (.OrderAscNullsFirst, none)
  else if val = "desc_nulls_first" then (.OrderDescNullsFirst, none)
  else if val = "asc_nulls_last" then (.OrderAscNullsLast, none)
  else if val = "desc_nulls_last" then (.OrderDescNullsLast, none)
  else (.OrderAsc, some "valid values include asc, desc, asc_nulls_first and desc_nulls_first")

/-- The spelling the round trip expects for keyword `x`: upper case, each
underscore replaced by a space. -/
def orderKeywordUpper (x : String) : String :=
  String.mk (x.data.map fun c => if c = '_' then ' ' else c.toUpper)

/-- The six order keywords. -/
def orderKeywords : List String :=
  ["asc", "desc", "asc_nulls_first", "asc_nulls_last", "desc_nulls_first", "desc_nulls_last"]

/-! ## Paging arguments (lines 1863-1936) -/

/-- The value of a run of decimal digits, or `none` if a character is not a
digit. -/
def digitsVal : List Char → Nat → Option Nat
  | [], acc => some acc
  | c :: cs, acc =>
    if c.isDigit then digitsVal cs (acc * 10 + (c.toNat - 48)) else none

/-- Modelled from the spec: `strconv.ParseInt(s, 10, 32)` of the Go standard
library: an optional sign followed by one or more decimal digits, whose value
fits a signed 32-bit integer. -/
def parseInt32 (s : String) : Option Int :=
  let body : Bool × List Char :=
    match s.data with
    | '-' :: cs => (true, cs)
    | '+' :: cs => (false, cs)
    | cs => (false, cs)
  match body.2 with
  | [] => none
  | cs =>
    match digitsVal cs 0 with
    | none => none
    | some n =>
      let v : Int := if body.1 then -(n : Int) else (n : Int)
      if -2147483648 ≤ v ∧ v ≤ 2147483647 then some v else none

/-- Method `compileArgLimit` (lines 1863-1885).  `dbType` stands for
`co.s.DBType()`; the text of the library parse error is not reproduced. -/
def compileArgLimit (dbType : String) (sel : Select) (arg : Arg) : Except String Select :=
  let node := arg.Val
  if node.Type_ ≠ .NodeNum ∧ node.Type_ ≠ .NodeVar then
    .error "value must be a number or variable"
  else
    match node.Type_ with
    | .NodeNum =>
      match parseInt32 node.Val with
      | none => .error "strconv.ParseInt: parsing failed"
      | some n => .ok { sel with Paging := { sel.Paging with Limit := n } }
    | .NodeVar =>
      if dbType = "mysql" then .error "mysql: value for argument 'limit' must be a number"
      else .ok { sel with Paging := { sel.Paging with LimitVar := node.Val } }
    | _ => .ok sel

/-- Method `compileArgFirstLast` (lines 1911-1922). -/
def compileArgFirstLast (dbType : String) (sel : Select) (arg : Arg) (order : Order) :
    Except String Select :=
  match compileArgLimit dbType sel arg with
  | .error e => .error e
  | .ok sel1 =>
    let sel2 : Select :=
      if !sel1.Singular then { sel1 with Paging := { sel1.Paging with Cursor := true } } else sel1
    .ok { sel2 with order := order }

/-- Method `compileArgAfterBefore` (lines 1924-1936). -/
def compileArgAfterBefore (sel : Select) (arg : Arg) (pt : PagingType) : Except String Select :=
  let node := arg.Val
  if node.Type_ ≠ .NodeVar ∨ node.Val ≠ "cursor" then
    .error ("value for argument '" ++ arg.Name ++ "' must be a variable named $cursor")
  else
    let sel1 : Select := { sel with Paging := { sel.Paging with Type_ := pt } }
    if !sel1.Singular then .ok { sel1 with Paging := { sel1.Paging with Cursor := true } }
    else .ok sel1

/-! ## Concrete inputs used by the evaluation theorems -/

/-- A role template with an `and` root, as `compileFilter` builds for a role
with two filters: cells 0 and 1 are its two conditions, cell 2 is the template
root, cell 3 is a relationship filter built during a compilation. -/
def sharedStore : Mem.Heap :=
  [ { n := { Op := .OpEquals, Left := { Col := { Name := "owner_id" } } }, Children := [] },
    { n := { Op := .OpEquals, Left := { Col := { Name := "deleted" } } }, Children := [] },
    { n := { Op := .OpAnd }, Children := [some 0, some 1] },
    { n := { Op := .OpEquals, Left := { Col := { Name := "user_id" } } }, Children := [] } ]

/-- A selector paged by cursor on the single order-by column `id`, with no
filter of its own. -/
def pagedSelect : Select :=
  { Table := "posts"
    OrderBy := [{ Col := { Name := "id" }, Order := .OrderAsc }]
    Paging := { Type_ := .PTForward, Cursor := true } }

/-- A relationship filter `user_id = owner`, reading both columns from the
current row. -/
def relFilter : Exp :=
  .node { Op := .OpEquals
          Left := { Col := { Name := "user_id" } }
          Right := { Col := { Name := "owner" } } } []

/-- A row with `id = 5`, `user_id = 1`, `owner = 2`. -/
def sampleRow : Row := fun c =>
  if c = "id" then some 5 else if c = "user_id" then some 1 else if c = "owner" then some 2
  else none

/-- A cursor row with `id = 3`. -/
def sampleCur : Row := fun c => if c = "id" then some 3 else none

/-- The where tree is the `false` template itself or an `and` node that has
the template among its children. -/
def HoldsFalse (t : Exp) (w : Filter) : Prop :=
  w.Exp = t ∨ ∃ n cs, w.Exp = .node n cs ∧ n.Op = .OpAnd ∧ t ∈ cs

/-- The nodes the inner loop of pass `i` appends from position `n` on. -/
def innerNodes (z : ExpNode) (i : Nat) : Nat → List OrderBy → List Exp
  | _, [] => []
  | n, ob :: rest => if n > i then [] else seekField z i n ob :: innerNodes z i (n + 1) rest

/-- An order-by entry on column `a`, ascending. -/
def keyA : OrderBy := { Col := { Name := "a" }, Order := .OrderAsc }

/-- An order-by entry on column `b`, descending. -/
def keyB : OrderBy := { Col := { Name := "b" }, Order := .OrderDesc }

/-- A selector ordered by `a` ascending, then `b` descending. -/
def twoKeySelect : Select := { Table := "t", OrderBy := [keyA, keyB] }

/-- A row with `a = 1`, `b = 2`. -/
def rowAB : Row := fun c => if c = "a" then some 1 else if c = "b" then some 2 else none

/-- A cursor row with `a = 1`, `b = 5`. -/
def curAB : Row := fun c => if c = "a" then some 1 else if c = "b" then some 5 else none

/-- The argument `first: 2`. -/
def firstTwo : Arg := { Name := "first", Val := .mk .NodeNum "" "2" [] }

/-- A tie-breaker step that appends the column `id` in the recorded scan
direction. -/
def idTieBreak (sel : Select) : Except String (List OrderBy) :=
  .ok (sel.OrderBy ++ [{ Col := { Name := "id" }, Order := sel.order }])

/-- The selector `users(first: 2)` after its arguments are compiled. -/
def firstOnlySelect : Select :=
  { Table := "users", Paging := { Limit := 2, Cursor := true }, order := .OrderAsc }

/-- The directive
`@constraint(variable: "x", min: 3, max: 10, required: true, error: "nope")`. -/
def constraintExample : Directive :=
  { Name := "constraint"
    Args :=
      [ { Name := "variable", Val := .mk .NodeStr "" "x" [] },
        { Name := "min", Val := .mk .NodeNum "" "3" [] },
        { Name := "max", Val := .mk .NodeNum "" "10" [] },
        { Name := "required", Val := .mk .NodeBool "" "true" [] },
        { Name := "error", Val := .mk .NodeStr "" "nope" [] } ] }

/-- The directive `@constraint(variable: "name", required: true, min: 3,
max: 50, format: "email", error: "bad email")`. -/
def constraintExampleEmail : Directive :=
  { Name := "constraint"
    Args :=
      [ { Name := "variable", Val := .mk .NodeStr "" "name" [] },
        { Name := "required", Val := .mk .NodeBool "" "true" [] },
        { Name := "min", Val := .mk .NodeNum "" "3" [] },
        { Name := "max", Val := .mk .NodeNum "" "50" [] },
        { Name := "format", Val := .mk .NodeStr "" "email" [] },
        { Name := "error", Val := .mk .NodeStr "" "bad email" [] } ] }

/-- The packed string stored under variable `v` by a directive, if the
directive compiles. -/
def packedFor (tyName : ParserType → String) (d : Directive) (v : String) : Option String :=
  match compileDirectiveConstraint tyName {} d with
  | .error _ => none
  | .ok qc => qc.Consts.get v

/-! ## Trees read out of the store -/

/-- All entries of a list of optional values, if none is missing. -/
def allSome {α : Type} : List (Option α) → Option (List α)
  | [] => some []
  | none :: _ => none
  | some x :: rest =>
    match allSome rest with
    | none => none
    | some xs => some (x :: xs)

/-- The tree a pointer denotes in store `h`, followed to depth `fuel`; `none`
when an address is outside the store or the depth is exceeded. -/
def Mem.read (h : Mem.Heap) : Nat → Mem.Ptr → Option Exp
  | 0, _ => none
  | _ + 1, none => some .nil
  | fuel + 1, some a =>
    match h[a]? with
    | none => none
    | some c =>
      match allSome (c.Children.map (Mem.read h fuel)) with
      | none => none
      | some ts => some (.node c.n ts)

/-- Cell `a` is met when following pointer `p` to depth `fuel`. -/
def Mem.reaches (h : Mem.Heap) (a : Nat) : Nat → Mem.Ptr → Bool
  | 0, _ => false
  | _ + 1, none => false
  | fuel + 1, some b =>
    b == a ||
      match h[b]? with
      | none => false
      | some c => c.Children.any (Mem.reaches h a fuel)

/-! ## Parsed operations (package `graph`, outside this file) -/

/-- Modelled from the spec: the kind of a parsed field (spec section 6:
keyword, union, member, normal). -/
inductive GFieldType where
  | FieldNormal
  | FieldUnion
  | FieldMember
  | FieldKeyword
deriving DecidableEq, Repr

/-- Modelled from the spec: `graph.Field` is declared in the parser package
(spec section 6): a field with its id, the id of its parent (`-1` for a root),
name, alias, arguments, directives and kind.  `Children` lists the ids of the
fields selected under it.  The name `Field` is kept for the field type of this
package. -/
structure GField where
  ID : Int := 0
  ParentID : Int := -1
  Type_ : GFieldType := .FieldNormal
  Name : String := ""
  Alias : String := ""
  Args : List Arg := []
  Directives : List Directive := []
  Children : List Int := []

/-- Modelled from the spec: the kind of a parsed operation (spec section 6:
query, mutation, subscription). -/
inductive OpType where
  | OpQuery
  | OpMutate
  | OpSub
deriving DecidableEq, Repr

/-- Modelled from the spec: `graph.Operation` is declared in the parser
package (spec section 6): the operation kind and name, the flat sequence of
fields and the operation directives. -/
structure Operation where
  Type_ : OpType := .OpQuery
  Name : String := ""
  Fields : List GField := []
  Directives : List Directive := []

/-- How a call fails: with an error value handed back to the caller, or with a
run-time fault of the Go program (an index outside a slice). -/
inductive Fault where
  | error (msg : String)
  | crash (what : String)
deriving DecidableEq, Repr

/-- Helper `ifNotArg` (lines 2071-2073). -/
def ifNotArg (arg : Arg) (ty : ParserType) : Bool :=
  arg.Val.Type_ != ty

/-- Helper `argErr` (lines 2083-2085): the error text. -/
def argErr (name ty : String) : String :=
  "value for argument '" ++ name ++ "' must be a " ++ ty

/-- Helper `argTypeErr` (lines 2087-2089): the error text. -/
def argTypeErr (ty : String) : String :=
  "value must be a " ++ ty

/-! ## Mutation type (lines 1102-1147) -/

/-- The parenthesised part of the condition at line 1109,
`v.Type != NodeList || len(v.Children) == 0 && v.Children[0].Type != NodeObj`,
evaluated left to right as Go does: `&&` binds tighter than `||`, and
`v.Children[0]` is read only when the list is empty. -/
def actionListCheck (v : Node) : Except Fault Bool :=
  if v.Type_ != .NodeList then .ok true
  else if v.Children.length == 0 then
    match v.Children with
    | [] => .error (.crash "index out of range [0] with length 0")
    | c :: _ => .ok (c.Type_ != .NodeObj)
  else .ok false

/-- The closure `setActionVar` (lines 1105-1115). -/
def setActionVar (qc : QCode) (arg : Arg) : Except Fault QCode :=
  let v := arg.Val
  if v.Type_ != .NodeVar && v.Type_ != .NodeObj then
    match actionListCheck v with
    | .error f => .error f
    | .ok true =>
      .error (.error (argErr arg.Name "variable, an object or a list of objects"))
    | .ok false => .ok { qc with ActionVar := arg.Val.Val, ActionArg := some arg }
  else .ok { qc with ActionVar := arg.Val.Val, ActionArg := some arg }

/-- One pass of the argument loop of `setMutationType` (lines 1119-1140). -/
def setMutationArg (qc : QCode) (arg : Arg) : Except Fault QCode :=
  if arg.Name = "insert" then setActionVar { qc with SType := .QTInsert } arg
  else if arg.Name = "update" then setActionVar { qc with SType := .QTUpdate } arg
  else if arg.Name = "upsert" then setActionVar { qc with SType := .QTUpsert } arg
  else if arg.Name = "delete" then
    if ifNotArg arg .NodeBool || ifNotArgVal arg "true" then
      .error (.error "value for 'delete' must be 'true'")
    else .ok { qc with SType := .QTDelete }
  else .ok qc

/-- The argument loop of `setMutationType` (lines 1119-1140). -/
def setMutationArgs : QCode → List Arg → Except Fault QCode
  | qc, [] => .ok qc
  | qc, arg :: rest =>
    match setMutationArg qc arg with
    | .error e => .error e
    | .ok qc1 => setMutationArgs qc1 rest

/-- Method `setMutationType` (lines 1102-1147).  The `role` parameter is not
used by the body and is left out. -/
def setMutationType (qc : QCode) (op : Operation) : Except Fault QCode :=
  match op.Fields with
  | [] => .error (.crash "index out of range [0] with length 0")
  | f :: _ =>
    match setMutationArgs qc f.Args with
    | .error e => .error e
    | .ok qc1 =>
      if qc1.SType = .QTUnknown then
        .error (.error
          "mutations must contains one of the following arguments (insert, update, upsert or delete)")
      else .ok qc1

/-- The `QCode` value that `Compile` builds before calling `compileQuery`
(lines 353-355).  `getQType` stands for `GetQType`, declared outside this
file. -/
def compileInit (getQType : OpType → QType) (op : Operation) : QCode :=
  { Name := op.Name, SType := .QTQuery, Roots := [], Type_ := getQType op.Type_ }

/-- An action argument name. -/
def isActionName (name : String) : Bool :=
  name == "insert" || name == "update" || name == "upsert" || name == "delete"

/-- The sub-type an action argument name stands for. -/
def actionType (name : String) : QType :=
  if name = "insert" then .QTInsert
  else if name = "update" then .QTUpdate
  else if name = "upsert" then .QTUpsert
  else if name = "delete" then .QTDelete
  else .QTUnknown

/-- The rule the spec states for an action value: a variable, an object, or a
non-empty list whose first child is an object; for `delete`, the literal
`true`. -/
def validAction (arg : Arg) : Bool :=
  if arg.Name = "delete" then arg.Val.Type_ == .NodeBool && arg.Val.Val == "true"
  else
    arg.Val.Type_ == .NodeVar || arg.Val.Type_ == .NodeObj ||
      (arg.Val.Type_ == .NodeList &&
        match arg.Val.Children with
        | [] => false
        | c :: _ => c.Type_ == .NodeObj)

/-- The sub-type of the last action argument of a list, if there is one. -/
def lastAction : List Arg → Option QType
  | [] => none
  | arg :: rest =>
    match lastAction rest with
    | some t => some t
    | none => if isActionName arg.Name then some (actionType arg.Name) else none

/-- A mutation `users(where: $w)` with no action argument. -/
def mutationNoAction : Operation :=
  { Type_ := .OpMutate
    Fields := [{ ID := 0, Name := "users", Args := [{ Name := "where", Val := .mk .NodeVar "" "w" [] }] }] }

/-- The argument `insert: [1, 2]`: a list whose first child is a number. -/
def insertNumbers : Arg :=
  { Name := "insert"
    Val := .mk .NodeList "" "" [.mk .NodeNum "" "1" [], .mk .NodeNum "" "2" []] }

/-- The argument `insert: []`: an empty list. -/
def insertEmpty : Arg := { Name := "insert", Val := .mk .NodeList "" "" [] }

/-- The argument `insert: "x"`: a string. -/
def insertString : Arg := { Name := "insert", Val := .mk .NodeStr "" "x" [] }

/-- A mutation `users(insert: $a, update: $b)` with two action arguments. -/
def mutationTwoActions : Operation :=
  { Type_ := .OpMutate
    Fields :=
      [{ ID := 0, Name := "users"
         Args := [{ Name := "insert", Val := .mk .NodeVar "" "a" [] },
                  { Name := "update", Val := .mk .NodeVar "" "b" [] }] }] }

/-! ## Role configuration (lines 811-839 and 476-479) -/

/-- Modelled from the spec: `trval` is declared in the configuration file of
the package (spec section 4.2: per operation kind a block flag, a default
limit and a row-level filter template with a user-needed signal).  Its three
methods `isBlocked`, `limit` and `filter` are the fields. -/
structure trval where
  isBlocked : QType → Bool := fun _ => false
  limit : QType → Int := fun _ => 0
  filter : QType → Exp × Bool := fun _ => (.nil, false)

/-- Method `setSelectorRoleConfig` (lines 811-821).  `tr` stands for the
result of `co.getRole(role, sel.Ti.Schema, sel.Ti.Name, fieldName)`, which is
also the first result of the method. -/
def setSelectorRoleConfig (tr : trval) (role fieldName : String) (qc : QCode) (sel : Select) :
    Except String Select :=
  if tr.isBlocked qc.SType then
    if qc.SType ≠ .QTQuery then
      .error (qc.SType.String ++ " blocked: " ++ fieldName ++ " (role: " ++ role ++ ")")
    else .ok { sel with SkipRender := .SkipTypeBlocked }
  else .ok sel

/-- The conversion `int32(x)` of a Go `int`: the low 32 bits of `x` read as a
signed integer. -/
def toInt32 (x : Int) : Int := (x + 2147483648) % 4294967296 - 2147483648

/-- Method `setLimit` (lines 823-839).  `defaultLimit` stands for
`co.c.DefaultLimit`, which line 833 converts with `int32(...)`. -/
def setLimit (defaultLimit : Int) (tr : trval) (qc : QCode) (sel : Select) : Select :=
  if sel.Paging.Limit ≠ 0 then sel
  else if tr.limit qc.Type_ ≠ 0 then
    { sel with Paging := { sel.Paging with Limit := tr.limit qc.Type_ } }
  else if defaultLimit ≠ 0 then
    { sel with Paging := { sel.Paging with Limit := toInt32 defaultLimit } }
  else { sel with Paging := { sel.Paging with Limit := 20 } }

/-- The role-filter step of `compileQuery` (lines 476-479). -/
def roleFilterStep (z : ExpNode) (qc : QCode) (sel : Select) (tr : trval) (role : String) :
    Select :=
  let r := addFilters z sel.Where (tr.filter qc.SType)
  let sel1 : Select := { sel with Where := r.1 }
  if r.2 && role == "anon" then { sel1 with SkipRender := .SkipTypeUserNeeded } else sel1

/-! ## Filter arguments and skip/include directives (lines 1163-1260, 1955-1967) -/

/-- The type of `compileArgObj`, declared outside this file: from the table
name, the table, the argument and the selector id it yields the compiled
expression and the user-needed flag, or an error. -/
abbrev ArgObjCompiler := String → DBTable → Arg → Int → Except String (Exp × Bool)

/-- Method `compileAndSetFilter` (lines 1955-1967): the selector and the
target filter after the call. -/
def compileAndSetFilter (z : ExpNode) (compileArgObj : ArgObjCompiler) (sel : Select)
    (selID : Int) (fil : Filter) (arg : Arg) (role : String) : Except String (Select × Filter) :=
  match compileArgObj sel.Table sel.Ti arg selID with
  | .error e => .error e
  | .ok r =>
    let sel1 : Select :=
      if r.2 && role == "anon" then { sel with SkipRender := .SkipTypeUserNeeded } else sel
    .ok (sel1, setFilter z fil r.1)

/-- Method `compileArgWhere` (lines 1594-1596): the target filter is the
where of the selector itself. -/
def compileArgWhere (z : ExpNode) (compileArgObj : ArgObjCompiler) (sel : Select) (arg : Arg)
    (role : String) : Except String Select :=
  match compileAndSetFilter z compileArgObj sel (-1) sel.Where arg role with
  | .error e => .error e
  | .ok r => .ok { r.1 with Where := r.2 }

/-- Method `compileSkipIncludeFilter` (lines 1232-1260). -/
def compileSkipIncludeFilter (z : ExpNode) (compileArgObj : ArgObjCompiler) (skip : Bool)
    (sel : Select) (selID : Int) (fil : Filter) (arg : Arg) (role : String) :
    Except String (Select × Filter) :=
  if ifArg arg .NodeVar then
    let ex : Exp :=
      .node
        { z with
          Op := if skip then .OpNotEqualsTrue else .OpEqualsTrue
          Right := { z.Right with ValType := .ValVar, Val := arg.Val.Val } }
        []
    .ok (sel, setFilter z fil ex)
  else if ifArg arg .NodeObj then
    let fil1 := if skip then setFilter z fil (newExpOp z .OpNot) else fil
    compileAndSetFilter z compileArgObj sel selID fil1 arg role
  else .error (argErr "if" "variable or filter expression")

/-- The argument loop of `compileSkipInclude` (lines 1203-1229): the selector,
the target filter and the drop flag. -/
def compileSkipIncludeArgs (z : ExpNode) (compileArgObj : ArgObjCompiler) (skip : Bool)
    (selID : Int) (role : String) :
    Select → Filter → List Arg → Except String (Select × Filter × Bool)
  | sel, fil, [] => .ok (sel, fil, false)
  | sel, fil, arg :: rest =>
    if arg.Name = "if" then
      match compileSkipIncludeFilter z compileArgObj skip sel selID fil arg role with
      | .error e => .error e
      | .ok r => compileSkipIncludeArgs z compileArgObj skip selID role r.1 r.2 rest
    else if arg.Name = "if_role" ∨ arg.Name = "ifRole" then
      if ifArg arg .NodeStr then
        .ok (sel, fil, (skip && arg.Val.Val == role) || (!skip && arg.Val.Val != role))
      else .error (argErr arg.Name "string")
    else .error ("invalid argument: " ++ arg.Name)

/-- Method `compileSkipInclude` (lines 1190-1230). -/
def compileSkipInclude (z : ExpNode) (compileArgObj : ArgObjCompiler) (skip : Bool)
    (sel : Select) (selID : Int) (fil : Filter) (d : Directive) (role : String) :
    Except String (Select × Filter × Bool) :=
  if d.Args.length = 0 then .error "arguments 'if' or 'if_role' expected"
  else compileSkipIncludeArgs z compileArgObj skip selID role sel fil d.Args

/-- Method `compileSelectDirectiveSkipInclude` (lines 1163-1172): the target
filter is the where of the selector. -/
def compileSelectDirectiveSkipInclude (z : ExpNode) (compileArgObj : ArgObjCompiler)
    (skip : Bool) (sel : Select) (d : Directive) (role : String) : Except String Select :=
  match compileSkipInclude z compileArgObj skip sel (-1) sel.Where d role with
  | .error e => .error e
  | .ok r =>
    let sel1 : Select := { r.1 with Where := r.2.1 }
    if r.2.2 then .ok { sel1 with SkipRender := .SkipTypeDrop } else .ok sel1

/-- The kind of a selected field (`FieldType`, lines 128-133). -/
inductive FieldType where
  | FieldTypeCol
  | FieldTypeFunc
deriving DecidableEq, Repr

/-- A selected field (`Field`, lines 135-143) without its database function. -/
structure Field where
  Type_ : FieldType := .FieldTypeCol
  Col : DBColumn := {}
  FieldName : String := ""
  FieldFilter : Filter := {}
  Args : List QArg := []
  SkipRender : SkipType := .SkipTypeNone

/-- Method `compileFieldDirectiveSkipInclude` (lines 1174-1188): the target
filter is the filter of the field. -/
def compileFieldDirectiveSkipInclude (z : ExpNode) (compileArgObj : ArgObjCompiler)
    (skip : Bool) (sel : Select) (f : Field) (d : Directive) (role : String) :
    Except String (Select × Field) :=
  let selID : Int := if f.Type_ = .FieldTypeFunc then -1 else sel.ID
  match compileSkipInclude z compileArgObj skip sel selID f.FieldFilter d role with
  | .error e => .error e
  | .ok r =>
    let f1 : Field := { f with FieldFilter := r.2.1 }
    if r.2.2 then .ok (r.1, { f1 with SkipRender := .SkipTypeDrop }) else .ok (r.1, f1)

/-! ## The `id` argument (lines 1528-1569) -/

/-- The value kind recorded for an `id` value of a given node kind
(lines 1548-1564). -/
def idValType : ParserType → ValType
  | .NodeNum => .ValNum
  | .NodeStr => .ValStr
  | .NodeVar => .ValVar
  | _ => .ValZero

/-- Method `compileArgID` (lines 1528-1569).  The text of the library parse
error is not reproduced. -/
def compileArgID (z : ExpNode) (sel : Select) (arg : Arg) : Except String Select :=
  let node := arg.Val
  if sel.ParentID ≠ -1 then .error "can only be specified at the query root"
  else if node.Type_ ≠ .NodeNum ∧ node.Type_ ≠ .NodeStr ∧ node.Type_ ≠ .NodeVar then
    .error (argTypeErr "number, string or variable")
  else if sel.Ti.PrimaryCol.Name = "" then
    .error ("no primary key column defined for '" ++ sel.Table ++ "'")
  else
    let ex : ExpNode := { z with Op := .OpEquals, Left := { z.Left with Col := sel.Ti.PrimaryCol } }
    match node.Type_ with
    | .NodeNum =>
      match parseInt32 node.Val with
      | none => .error "strconv.ParseInt: parsing failed"
      | some _ =>
        .ok { sel with
              Where := { Exp := .node { ex with Right := { ex.Right with ValType := .ValNum, Val := node.Val } } [] }
              Singular := true }
    | .NodeStr =>
      .ok { sel with
            Where := { Exp := .node { ex with Right := { ex.Right with ValType := .ValStr, Val := node.Val } } [] }
            Singular := true }
    | .NodeVar =>
      .ok { sel with
            Where := { Exp := .node { ex with Right := { ex.Right with ValType := .ValVar, Val := node.Val } } [] }
            Singular := true }
    | _ => .ok { sel with Where := { Exp := .node ex [] }, Singular := true }

/-- A role configuration that blocks every operation kind. -/
def blockedRole : trval := { isBlocked := fun _ => true }

/-- A stand-in for `compileArgObj` that compiles every filter object to the
equality `id = 1` and reports that no user identifier is needed. -/
def idEqualsOne : ArgObjCompiler := fun _ _ _ _ =>
  .ok (.node { Op := .OpEquals
               Left := { Col := { Name := "id" } }
               Right := { ValType := .ValNum, Val := "1" } } [], false)

/-- The argument `if: $a` of `@include(if: $a)`. -/
def ifVarArg : Arg := { Name := "if", Val := .mk .NodeVar "" "a" [] }

/-- The argument `if: { id: { eq: 1 } }` of `@skip(if: { id: { eq: 1 } })`. -/
def ifObjArg : Arg :=
  { Name := "if"
    Val := .mk .NodeObj "" "" [.mk .NodeObj "id" "" [.mk .NodeNum "eq" "1" []]] }

/-- The filter left by `@include(if: $a)` on an empty filter. -/
def afterInclude : Filter :=
  match compileSkipIncludeFilter {} idEqualsOne false {} (-1) {} ifVarArg "user" with
  | .ok r => r.2
  | .error _ => {}

/-- The operators of the children of the root of a filter. -/
def Filter.childOps (f : Filter) : List (Option ExpOp) :=
  f.Exp.children.map Exp.op?

/-- The number of children of each child of the root of a filter. -/
def Filter.childSizes (f : Filter) : List Nat :=
  f.Exp.children.map fun c => c.children.length

/-- The root selector `users` of table `users` with primary key `id`. -/
def usersSelect : Select :=
  { ID := 0, ParentID := -1, Table := "users"
    Ti := { Name := "users", PrimaryCol := { Name := "id", Table := "users" } } }

/-- The argument `id: 5`. -/
def idFive : Arg := { Name := "id", Val := .mk .NodeNum "" "5" [] }

/-- The directive `@skip(if_role: "anon")`. -/
def skipAnon : Directive :=
  { Name := "skip", Args := [{ Name := "if_role", Val := .mk .NodeStr "" "anon" [] }] }

/-! ## Operation directives (lines 918-946, 1262-1322, 1489-1514) -/

/-- The argument loop of `compileDirectiveCacheControl` (lines 1266-1281)
acting on the pair (`maxAge`, `scope`). -/
def cacheControlArgs : String × String → List Arg → Except String (String × String)
  | s, [] => .ok s
  | s, arg :: rest =>
    if arg.Name = "maxAge" then
      if ifNotArg arg .NodeNum then .error (argErr "maxAge" "number")
      else cacheControlArgs (arg.Val.Val, s.2) rest
    else if arg.Name = "scope" then
      if ifNotArg arg .NodeStr then .error (argErr "scope" "string")
      else cacheControlArgs (s.1, arg.Val.Val) rest
    else .error ("invalid argument: " ++ arg.Name)

/-- Method `compileDirectiveCacheControl` (lines 1262-1295). -/
def compileDirectiveCacheControl (qc : QCode) (d : Directive) : Except String QCode :=
  match cacheControlArgs ("", "") d.Args with
  | .error e => .error e
  | .ok s =>
    if d.Args.length = 0 ∨ s.1 = "" then .error "required argument 'maxAge' missing"
    else
      let hdr := ["max-age=" ++ s.1] ++ (if s.2 ≠ "" then [s.2] else [])
      .ok { qc with Cache := { Header := " ".intercalate hdr } }

/-- Modelled from the spec: `path.Ext` of the Go standard library on the
characters of a name read from the end: the suffix from the last dot of the
last slash-separated element, empty when that element has no dot. -/
def pathExtRev : List Char → List Char → List Char
  | [], _ => []
  | c :: rest, acc =>
    if c = '/' then []
    else if c = '.' then c :: acc
    else pathExtRev rest (c :: acc)

/-- Modelled from the spec: `path.Ext` of the Go standard library. -/
def pathExt (name : String) : String :=
  String.mk (pathExtRev name.data.reverse [])

/-- Method `compileDirectiveScript` (lines 1297-1322). -/
def compileDirectiveScript (qc : QCode) (d : Directive) : Except String QCode :=
  match d.Args with
  | [] => .error (argErr "name" "string")
  | a0 :: _ =>
    if a0.Name = "name" ∧ ifNotArg a0 .NodeStr = true then .error (argErr "name" "string")
    else
      let n1 := if a0.Name = "name" then a0.Val.Val else qc.Script.Name
      let n2 := if n1 = "" then qc.Name else n1
      if n2 = "" then .error "required argument 'name' missing"
      else
        let n3 := if pathExt n2 = "" then n2 ++ ".js" else n2
        .ok { qc with Script := { qc.Script with Name := n3 } }

/-- The argument loop of `compileDirectiveValidation` (lines 1494-1503). -/
def validationArgs : Validation → List Arg → Except String Validation
  | v, [] => .ok v
  | v, arg :: rest =>
    if arg.Name = "src" ∨ arg.Name = "source" then
      validationArgs { v with Source := arg.Val.Val } rest
    else if arg.Name = "type" ∨ arg.Name = "lang" then
      validationArgs { v with Type_ := arg.Val.Val } rest
    else .error ("invalid argument '" ++ arg.Name ++ "'")

/-- Method `compileDirectiveValidation` (lines 1489-1514). -/
def compileDirectiveValidation (qc : QCode) (d : Directive) : Except String QCode :=
  if d.Args.length = 0 then .error "required arguments 'src' and 'type'"
  else
    match validationArgs qc.Validation d.Args with
    | .error e => .error e
    | .ok v =>
      if v.Source = "" then .error "validation script not set"
      else if v.Type_ = "" then .error "validation type not set"
      else .ok { qc with Validation := v }

/-- Method `compileOpDirectives` (lines 918-946). -/
def compileOpDirectives (tyName : ParserType → String) : QCode → List Directive →
    Except String QCode
  | qc, [] => .ok qc
  | qc, d :: rest =>
    let r : Except String QCode :=
      if d.Name = "cacheControl" then compileDirectiveCacheControl qc d
      else if d.Name = "script" then compileDirectiveScript qc d
      else if d.Name = "constraint" ∨ d.Name = "validate" then
        compileDirectiveConstraint tyName qc d
      else if d.Name = "validation" then compileDirectiveValidation qc d
      else .error ("unknown operation level directive: " ++ d.Name)
    match r with
    | .error e => .error e
    | .ok qc1 => compileOpDirectives tyName qc1 rest

/-! ## Selector directives (lines 972-1027, 1149-1161, 1469-1488) -/

/-- Method `compileDirectiveSchema` (lines 1149-1161). -/
def compileDirectiveSchema (sel : Select) (d : Directive) : Except String Select :=
  match d.Args with
  | [] => .error "required argument 'name' missing"
  | arg :: _ =>
    if ifNotArg arg .NodeStr then .error (argTypeErr "string")
    else .ok { sel with Schema := arg.Val.Val }

/-- Method `compileDirectiveNotRelated` (lines 1469-1472). -/
def compileDirectiveNotRelated (sel : Select) (_d : Directive) : Except String Select :=
  .ok { sel with Rel := { sel.Rel with Type_ := .RelSkip } }

/-- Method `compileDirectiveThrough` (lines 1474-1488). -/
def compileDirectiveThrough (sel : Select) (d : Directive) : Except String Select :=
  match d.Args with
  | [] => .error "required argument 'table' or 'column'"
  | arg :: _ =>
    if arg.Name = "table" ∨ arg.Name = "column" then
      if arg.Val.Type_ ≠ .NodeStr then .error (argErr arg.Name "string")
      else .ok { sel with through := arg.Val.Val }
    else .ok sel

/-- Method `compileSelectorDirectives1` (lines 972-996). -/
def compileSelectorDirectives1 : Select → List Directive → Except String Select
  | sel, [] => .ok sel
  | sel, d :: rest =>
    let r : Except String Select :=
      if d.Name = "schema" then compileDirectiveSchema sel d
      else if d.Name = "notRelated" ∨ d.Name = "not_related" then compileDirectiveNotRelated sel d
      else if d.Name = "through" then compileDirectiveThrough sel d
      else .ok sel
    match r with
    | .error e => .error ("directive @" ++ d.Name ++ ": " ++ e)
    | .ok sel1 => compileSelectorDirectives1 sel1 rest

/-- Method `compileSelectorDirectives2` (lines 998-1027). -/
def compileSelectorDirectives2 (z : ExpNode) (compileArgObj : ArgObjCompiler) (role : String) :
    Select → List Directive → Except String Select
  | sel, [] => .ok sel
  | sel, d :: rest =>
    let r : Except String Select :=
      if d.Name = "schema" ∨ d.Name = "through" ∨ d.Name = "notRelated" ∨
          d.Name = "not_related" then .ok sel
      else if d.Name = "skip" then compileSelectDirectiveSkipInclude z compileArgObj true sel d role
      else if d.Name = "include" then
        compileSelectDirectiveSkipInclude z compileArgObj false sel d role
      else if d.Name = "object" then
        .ok { sel with Singular := true, Paging := { sel.Paging with Limit := 1 } }
      else .error "no such selector level directive"
    match r with
    | .error e => .error ("directive @" ++ d.Name ++ ": " ++ e)
    | .ok sel1 => compileSelectorDirectives2 z compileArgObj role sel1 rest

/-- Method `GetInternalArg` (lines 2099-2107). -/
def Select.GetInternalArg (sel : Select) (name : String) : QArg × Bool :=
  match sel.IArgs.find? fun v => v.Name == name with
  | some v => (v, true)
  | none => ({}, false)

/-- Method `validateSelect` (lines 1089-1100). -/
def validateSelect (sel : Select) : Except String Unit :=
  if sel.Rel.Type_ = .RelRecursive then
    let r := sel.GetInternalArg "find"
    if !r.2 then .error "argument 'find' needed for recursive queries"
    else if r.1.Val ≠ "parents" ∧ r.1.Val ≠ "children" then
      .error "valid values for 'find' are 'parents' and 'children'"
    else .ok ()
  else .ok ()

/-! ## The selector loop of `compileQuery` (lines 370-512) -/

/-- The selector cap (`maxSelectors`, line 20). -/
def maxSelectors : Nat := 100

/-- The 32-bit pattern of an `int32` value. -/
def word32 (x : Int) : Nat := (x % 4294967296).toNat

/-- The work item pushed for a root field, `f.ID | (-1 << 16)` (line 398), as
a 32-bit pattern. -/
def rootItem (f : GField) : Nat := word32 f.ID ||| 0xFFFF0000

/-- The configuration values `compileQuery` reads and the functions it calls
that are declared outside this file (`util.ToSnake`, `getRole`,
`compileArgObj`, `orderByIDCol`, `compileFields`) or whose bodies call into the
schema package (`relInfo`: the part of `addRelInfo` after line 528;
`compileArgs`; `setRelFilters`).  The work list `util.StackInt32` is a
last-in-first-out list of 32-bit patterns, its top at the head. -/
structure Env where
  z : ExpNode := {}
  tyName : ParserType → String := fun _ => ""
  EnableCamelcase : Bool := false
  DefaultLimit : Int := 0
  toSnake : String → String := fun s => s
  getRole : String → String → String → String → trval := fun _ _ _ _ => {}
  compileArgObj : ArgObjCompiler := fun _ _ _ _ => .ok (.nil, false)
  orderByIDCol : Select → Except String (List OrderBy) := fun s => .ok s.OrderBy
  relInfo : Operation → QCode → Select → GField → Except String (QCode × Select) :=
    fun _ qc sel _ => .ok (qc, sel)
  compileArgs : Select → List Arg → String → Except String Select := fun sel _ _ => .ok sel
  compileFields : List Nat → Operation → QCode → Select → GField → trval → String →
    Except String (List Nat × QCode × Select) := fun st _ qc sel _ _ _ => .ok (st, qc, sel)
  setRelFilters : QCode → Select → Select := fun _ sel => sel

/-- The loop that pushes the root fields (lines 393-401). -/
def pushRoots (op : Operation) : List GField → QCode × List Nat → QCode × List Nat
  | [], s => s
  | f :: rest, s =>
    if f.ParentID = -1 then
      let qc1 : QCode :=
        if f.Name = "__typename" ∧ op.Name ≠ "" then { s.1 with Typename := true } else s.1
      pushRoots op rest (qc1, rootItem f :: s.2)
    else pushRoots op rest s

/-- The head of `addRelInfo` (lines 522-528): a root selector is recorded in
`Roots`; otherwise the parent selector is looked up by index and gets the new
selector as a child, and the parent field is looked up by index.  An index
outside its slice is a run-time fault. -/
def addRelInfoHead (op : Operation) (qc : QCode) (sel : Select) (field : GField) :
    Except Fault QCode :=
  if sel.ParentID = -1 then .ok { qc with Roots := qc.Roots ++ [sel.ID] }
  else if sel.ParentID < 0 then .error (.crash "index out of range")
  else
    match qc.Selects[sel.ParentID.toNat]? with
    | none => .error (.crash "index out of range")
    | some psel =>
      if field.ParentID < 0 then .error (.crash "index out of range")
      else
        match op.Fields[field.ParentID.toNat]? with
        | none => .error (.crash "index out of range")
        | some _ =>
          .ok { qc with
                Selects :=
                  qc.Selects.set sel.ParentID.toNat
                    { psel with Children := psel.Children ++ [sel.ID] } }

/-- An error value as a failure of the whole call. -/
def liftErr {α : Type} : Except String α → Except Fault α
  | .ok a => .ok a
  | .error e => .error (.error e)

/-- Lines 428-455 of the loop body: the new selector, its field name, the
first selector directives and `addRelInfo`. -/
def selectorStage1 (env : Env) (op : Operation) (qc : QCode) (id : Nat) (parentID : Int)
    (field0 : GField) : Except Fault (GField × QCode × Select) :=
  let field : GField :=
    if env.EnableCamelcase then
      { field0 with
        Alias := if field0.Alias = "" then field0.Name else field0.Alias
        Name := env.toSnake field0.Name }
    else field0
  let s1 : Select :=
    { ID := id, ParentID := parentID
      FieldName := if field.Alias ≠ "" then field.Alias else field.Name
      Children := [] }
  match compileSelectorDirectives1 s1 field.Directives with
  | .error e => .error (.error e)
  | .ok sel1 =>
    match addRelInfoHead op qc sel1 field with
    | .error e => .error e
    | .ok qc1 =>
      match env.relInfo op qc1 sel1 field with
      | .error e => .error (.error e)
      | .ok r => .ok (field, r.1, r.2)

/-- Lines 457-474 of the loop body: the second selector directives, the role
configuration, the limit, the arguments and the fields. -/
def selectorStage2 (env : Env) (op : Operation) (role : String) (st : List Nat) (qc : QCode)
    (sel : Select) (field : GField) : Except String (trval × List Nat × QCode × Select) :=
  match compileSelectorDirectives2 env.z env.compileArgObj role sel field.Directives with
  | .error e => .error e
  | .ok sel1 =>
    let tr := env.getRole role sel1.Ti.Schema sel1.Ti.Name field.Name
    match setSelectorRoleConfig tr role field.Name qc sel1 with
    | .error e => .error e
    | .ok sel2 =>
      match env.compileArgs (setLimit env.DefaultLimit tr qc sel2) field.Args role with
      | .error e => .error e
      | .ok sel3 =>
        match env.compileFields st op qc sel3 field tr role with
        | .error e => .error e
        | .ok r => .ok (tr, r)

/-- Lines 476-501 of the loop body: the role filter, the cursor step, the
relationship filter and the validation. -/
def selectorStage3 (env : Env) (role : String) (qc : QCode) (sel : Select) (tr : trval) :
    Except String Select :=
  match cursorStep env.z env.orderByIDCol (roleFilterStep env.z qc sel tr role) with
  | .error e => .error e
  | .ok sel1 =>
    match validateSelect (env.setRelFilters qc sel1) with
    | .error e => .error e
    | .ok _ => .ok (env.setRelFilters qc sel1)

/-- The loop body from the new selector to the point where it is appended
(lines 428-501): the work list, the `QCode` and the selector. -/
def selectorBody (env : Env) (op : Operation) (role : String) (st : List Nat) (qc : QCode)
    (id : Nat) (parentID : Int) (field0 : GField) : Except Fault (List Nat × QCode × Select) :=
  match selectorStage1 env op qc id parentID field0 with
  | .error e => .error e
  | .ok r1 =>
    match selectorStage2 env op role st r1.2.1 r1.2.2 r1.1 with
    | .error e => .error (.error e)
    | .ok r2 =>
      match selectorStage3 env role r2.2.2.1 r2.2.2.2 r2.1 with
      | .error e => .error (.error e)
      | .ok sel => .ok (r2.2.1, r2.2.2.1, sel)

/-- The state of the selector loop: the work list, the next selector id and
the `QCode` under construction. -/
structure LoopState where
  st : List Nat
  id : Nat
  qc : QCode

/-- The selector loop of `compileQuery` (lines 403-511), run for at most
`fuel` passes; `none` when the passes are used up. -/
def compileQueryLoop (env : Env) (op : Operation) (role : String) :
    Nat → LoopState → Option (Except Fault QCode)
  | 0, _ => none
  | fuel + 1, s =>
    match s.st with
    | [] =>
      if s.id = 0 then some (.error (.error "invalid query: no selectors found"))
      else some (.ok s.qc)
    | val :: st1 =>
      if s.id ≥ maxSelectors then some (.error (.error "selector limit reached (100)"))
      else
        match op.Fields[val &&& 0xFFFF]? with
        | none => some (.error (.crash "index out of range"))
        | some field =>
          if field.Type_ = .FieldKeyword then
            compileQueryLoop env op role fuel { s with st := st1 }
          else
            let parentID : Int :=
              if field.ParentID = -1 then -1 else (((val >>> 16) &&& 0xFFFF : Nat) : Int)
            match selectorBody env op role st1 s.qc s.id parentID field with
            | .error e => some (.error e)
            | .ok r =>
              compileQueryLoop env op role fuel
                { st := r.1, id := s.id + 1
                  qc := { r.2.1 with Selects := r.2.1.Selects ++ [r.2.2] } }

/-- Method `compileQuery` (lines 370-512), with the selector loop run for at
most `fuel` passes. -/
def compileQuery (env : Env) (fuel : Nat) (qc : QCode) (op : Operation) (role : String) :
    Option (Except Fault QCode) :=
  if op.Fields.length = 0 then some (.error (.error "invalid graphql no query found"))
  else
    match (if op.Type_ = .OpMutate then setMutationType qc op else .ok qc) with
    | .error e => some (.error e)
    | .ok qc1 =>
      match compileOpDirectives env.tyName qc1 op.Directives with
      | .error e => some (.error (.error e))
      | .ok qc2 =>
        if op.Fields.length = 0 then some (.error (.error "empty query"))
        else
          let r := pushRoots op op.Fields ({ qc2 with Selects := [] }, [])
          compileQueryLoop env op role fuel { st := r.2, id := 0, qc := r.1 }

/-- The id and parent id of a selector. -/
def Select.head (s : Select) : Int × Int := (s.ID, s.ParentID)

/-- The ids and parent ids of the selectors of a `QCode`, in order. -/
def QCode.heads (qc : QCode) : List (Int × Int) := qc.Selects.map Select.head

/-- What the claims on the selector sequence assume of the functions taken as
parameters: none of them changes the id or parent id of the selector it works
on, or the root list, or the ids and parent ids (and the number) of the
selectors already stored. -/
structure Env.Frame (env : Env) : Prop where
  relInfo : ∀ op qc sel f qc1 sel1, env.relInfo op qc sel f = .ok (qc1, sel1) →
    sel1.head = sel.head ∧ qc1.Roots = qc.Roots ∧ qc1.heads = qc.heads
  compileArgs : ∀ sel args role sel1, env.compileArgs sel args role = .ok sel1 →
    sel1.head = sel.head
  compileFields : ∀ st op qc sel f tr role st1 qc1 sel1,
    env.compileFields st op qc sel f tr role = .ok (st1, qc1, sel1) →
    sel1.head = sel.head ∧ qc1.Roots = qc.Roots ∧ qc1.heads = qc.heads
  setRelFilters : ∀ qc sel, (env.setRelFilters qc sel).head = sel.head

/-- The selector topology: the `i`-th selector has id `i`, its parent id is
`-1` or a smaller id, and the root list holds the ids of the selectors with
parent id `-1`, in increasing order. -/
structure Topology (hs : List (Int × Int)) (rs : List Int) : Prop where
  ids : ∀ (i : Nat) (h : Int × Int), hs[i]? = some h → h.1 = i
  parents : ∀ (i : Nat) (h : Int × Int), hs[i]? = some h → h.2 = -1 ∨ (0 ≤ h.2 ∧ h.2 < i)
  rootsEq : rs = (hs.filter fun h => h.2 == -1).map fun h => h.1
  bounded : ∀ r ∈ rs, r < (hs.length : Int)
  increasing : rs.Pairwise (· < ·)

/-- Modelled from the spec: the work item pushed for a child field (spec
section 9: `field_id | parent_selector_id << 16`), as a 32-bit pattern. -/
def childItem (sel : Select) (c : Int) : Nat :=
  (word32 c ||| (word32 sel.ID <<< 16)) % 4294967296

/-- A small environment: `compileFields` pushes the child fields of the
current field, `relInfo` names the table after the field, and every other
collaborator does nothing. -/
def demoEnv : Env :=
  { compileFields := fun st _ qc sel f _ _ =>
      .ok (f.Children.foldl (fun s c => childItem sel c :: s) st, qc, sel)
    relInfo := fun _ qc sel f => .ok (qc, { sel with Table := f.Name }) }

/-- The operation `query q { users { posts } products }`. -/
def demoOp : Operation :=
  { Name := "q"
    Fields :=
      [ { ID := 0, Name := "users", Children := [1] },
        { ID := 1, ParentID := 0, Name := "posts" },
        { ID := 2, Name := "products" } ] }

/-- The ids, parent ids and tables of the selectors and the root list of a
result, when the call succeeded. -/
def summary : Option (Except Fault QCode) → Option (List (Int × Int × String) × List Int)
  | some (.ok qc) => some (qc.Selects.map (fun s => (s.ID, s.ParentID, s.Table)), qc.Roots)
  | _ => none

/-- A role filter `user_id = $user_id`, which needs the user identifier. -/
def needsUserFilter : Exp :=
  .node { Op := .OpEquals
          Left := { Col := { Name := "user_id" } }
          Right := { ValType := .ValVar, Val := "user_id" } } []

/-- A role configuration that blocks every operation kind and carries a row
filter that needs the user identifier. -/
def blockedUserRole : trval :=
  { isBlocked := fun _ => true, filter := fun _ => (needsUserFilter, true) }

/-- The small environment with the blocked role configuration for every
role and table. -/
def blockedEnv : Env := { demoEnv with getRole := fun _ _ _ _ => blockedUserRole }

/-- The operation `query q { users }`. -/
def usersOp : Operation := { Name := "q", Fields := [{ ID := 0, Name := "users" }] }

/-- The skip reasons of the selectors of a result, when the call succeeded. -/
def skipSummary : Option (Except Fault QCode) → Option (List SkipType)
  | some (.ok qc) => some (qc.Selects.map fun s => s.SkipRender)
  | _ => none

/-! ## Relationship filters and the singular flag (lines 618-741, 754-809) -/

/-- Function `buildFilter` (lines 754-789); `Exp.nil` is the nil pointer it
returns for the other relationship kinds. -/
def buildFilter (z : ExpNode) (rel : DBRel) (pid : Int) : Exp :=
  match rel.Type_ with
  | .RelOneToOne | .RelOneToMany =>
    if !rel.Left.Col.Array && rel.Right.Col.Array then
      .node { z with
              Op := .OpIn
              Left := { z.Left with Col := rel.Left.Col }
              Right := { z.Right with ID := pid, Col := rel.Right.Col } } []
    else if rel.Left.Col.Array && !rel.Right.Col.Array then
      .node { z with
              Op := .OpIn
              Left := { z.Left with ID := pid, Col := rel.Right.Col }
              Right := { z.Right with Col := rel.Left.Col } } []
    else
      .node { z with
              Op := .OpEquals
              Left := { z.Left with Col := rel.Left.Col }
              Right := { z.Right with ID := pid, Col := rel.Right.Col } } []
  | .RelEmbedded =>
    .node { z with
            Op := .OpEquals
            Left := { z.Left with Col := rel.Right.Col }
            Right := { z.Right with ID := pid, Col := rel.Right.Col } } []
  | _ => .nil

/-- The three children built for a recursive relationship when `find` is
`parents` or `parent` (lines 662-701). -/
def recursiveParents (z : ExpNode) (rel : DBRel) (rcte : String) : List Exp :=
  let ex1 : Exp :=
    .node { z with Op := .OpIsNotNull, Left := { z.Left with Table := rcte, Col := rel.Left.Col } } []
  if !rel.Left.Col.Array && rel.Right.Col.Array then
    [ex1,
     .node { z with
             Op := .OpNotIn
             Left := { z.Left with Table := rcte, Col := rel.Left.Col }
             Right := { z.Right with Table := rcte, Col := rel.Right.Col } } [],
     .node { z with
             Op := .OpIn
             Left := { z.Left with Table := rcte, Col := rel.Left.Col }
             Right := { z.Right with Col := rel.Right.Col } } []]
  else if rel.Left.Col.Array && !rel.Right.Col.Array then
    [ex1,
     .node { z with
             Op := .OpNotIn
             Left := { z.Left with Table := rcte, Col := rel.Right.Col }
             Right := { z.Right with Table := rcte, Col := rel.Left.Col } } [],
     .node { z with
             Op := .OpIn
             Left := { z.Left with Col := rel.Right.Col }
             Right := { z.Right with Table := rcte, Col := rel.Left.Col } } []]
  else
    [ex1,
     .node { z with
             Op := .OpNotEquals
             Left := { z.Left with Table := rcte, Col := rel.Left.Col }
             Right := { z.Right with Table := rcte, Col := rel.Right.Col } } [],
     .node { z with
             Op := .OpEquals
             Left := { z.Left with Col := rel.Right.Col }
             Right := { z.Right with Table := rcte, Col := rel.Left.Col } } []]

/-- The three children built for a recursive relationship for every other
value of `find` (lines 703-735). -/
def recursiveChildren (z : ExpNode) (rel : DBRel) (rcte : String) : List Exp :=
  let ex1 : Exp := .node { z with Op := .OpIsNotNull, Left := { z.Left with Col := rel.Left.Col } } []
  if !rel.Left.Col.Array && rel.Right.Col.Array then
    [ex1,
     .node { z with
             Op := .OpNotIn
             Left := { z.Left with Col := rel.Left.Col }
             Right := { z.Right with Col := rel.Right.Col } } [],
     .node { z with
             Op := .OpIn
             Left := { z.Left with Col := rel.Left.Col }
             Right := { z.Right with Table := rcte, Col := rel.Right.Col } } []]
  else if rel.Left.Col.Array && !rel.Right.Col.Array then
    [ex1,
     .node { z with
             Op := .OpNotIn
             Left := { z.Left with Col := rel.Right.Col }
             Right := { z.Right with Col := rel.Left.Col } } [],
     .node { z with
             Op := .OpIn
             Left := { z.Left with Table := rcte, Col := rel.Right.Col }
             Right := { z.Right with Col := rel.Left.Col } } []]
  else
    [ex1,
     .node { z with
             Op := .OpNotEquals
             Left := { z.Left with Col := rel.Left.Col }
             Right := { z.Right with Col := rel.Right.Col } } [],
     .node { z with
             Op := .OpEquals
             Left := { z.Left with Col := rel.Left.Col }
             Right := { z.Right with Table := rcte, Col := rel.Right.Col } } []]

/-- The expression built for a recursive relationship (lines 653-738). -/
def recursiveFilter (z : ExpNode) (sel : Select) : Exp :=
  let rel := sel.Rel
  let rcte := "__rcte_" ++ rel.Right.Ti.Name
  let v := (sel.GetInternalArg "find").1
  if v.Val = "parents" ∨ v.Val = "parent" then
    .node { z with Op := .OpAnd } (recursiveParents z rel rcte)
  else .node { z with Op := .OpAnd } (recursiveChildren z rel rcte)

/-- The expression built for a polymorphic relationship (lines 635-650);
`pid` is the parent id of the parent selector. -/
def polymorphicFilter (z : ExpNode) (sel : Select) (pid : Int) : Exp :=
  let rel := sel.Rel
  .node { z with Op := .OpAnd }
    [.node { z with
             Op := .OpEquals
             Left := { z.Left with Table := sel.Ti.Name, Col := rel.Right.Col }
             Right := { z.Right with ID := pid, Col := rel.Left.Col } } [],
     .node { z with
             Op := .OpEquals
             Left :=
               { z.Left with
                 ID := pid
                 Col := { z.Left.Col with Table := rel.Left.Col.Table, Name := rel.Left.Col.FKeyCol } }
             Right := { z.Right with ValType := .ValStr, Val := sel.Ti.Name } } []]

/-- Method `setRelFilters` (lines 618-741).  Reading the parent selector at an
index outside `qc.Selects` is a run-time fault. -/
def setRelFilters (z : ExpNode) (qc : QCode) (sel : Select) : Except Fault Select :=
  let rel := sel.Rel
  let pid : Int := if sel.Joins.length ≠ 0 then -1 else sel.ParentID
  match rel.Type_ with
  | .RelOneToOne | .RelOneToMany | .RelEmbedded =>
    .ok { sel with Where := setFilter z sel.Where (buildFilter z rel pid) }
  | .RelPolymorphic =>
    if sel.ParentID < 0 then .error (.crash "index out of range")
    else
      match qc.Selects[sel.ParentID.toNat]? with
      | none => .error (.crash "index out of range")
      | some psel =>
        .ok { sel with Where := setFilter z sel.Where (polymorphicFilter z sel psel.ParentID) }
  | .RelRecursive => .ok { sel with Where := setFilter z sel.Where (recursiveFilter z sel) }
  | _ => .ok sel

/-- Method `setSingular` (lines 791-809).  `enableInflection` stands for
`co.c.EnableInflection` and `singularize` for `flect.Singularize`. -/
def setSingular (enableInflection : Bool) (singularize : String → String) (fieldName : String)
    (sel : Select) : Select :=
  if sel.Singular then sel
  else
    let sel1 : Select :=
      if enableInflection then { sel with Singular := singularize fieldName == fieldName } else sel
    if sel1.Joins.length ≠ 0 then sel1
    else if (sel1.Rel.Type_ == .RelOneToMany && !sel1.Rel.Right.Col.Array) ||
        sel1.Rel.Type_ == .RelPolymorphic then
      { sel1 with Singular := true }
    else sel1

/-! ## The `find` and `args` arguments (lines 1516-1526, 1769-1806) -/

/-- Method `addIArg` (lines 2095-2097). -/
def Select.addIArg (sel : Select) (arg : QArg) : Select :=
  { sel with IArgs := sel.IArgs ++ [arg] }

/-- Method `compileArgFind` (lines 1516-1526). -/
def compileArgFind (sel : Select) (arg : Arg) : Except String Select :=
  if sel.Rel.Type_ ≠ .RelRecursive then
    .error ("selector '" ++ sel.FieldName ++ "' is not recursive")
  else if arg.Val.Val ≠ "parents" ∧ arg.Val.Val ≠ "children" then
    .error "valid values 'parents' or 'children'"
  else .ok (sel.addIArg { Name := arg.Name, Val := arg.Val.Val })

/-- The type of `sdata.DBTable.GetColumn`, declared in the schema package: the
column of a table with a given name, or an error. -/
abbrev ColumnLookup := DBTable → String → Except String DBColumn

/-- The loop of `compileArgArgs` (lines 1785-1803): `i` is the index of the
child at the head of the list, `fn` the function read before the loop.  The
read `fn.Inputs[i]` outside the slice is a run-time fault. -/
def compileArgArgsLoop (getColumn : ColumnLookup) (fn : DBFunction) :
    Nat → Select → List Node → Except Fault Select
  | _, sel, [] => .ok sel
  | i, sel, n :: rest =>
    match fn.Inputs[i]? with
    | none => .error (.crash "index out of range")
    | some inp =>
      let a : QArg := { DType := inp.Type_ }
      match n.Type_ with
      | .NodeLabel =>
        match getColumn sel.Ti n.Val with
        | .error e => .error (.error e)
        | .ok col =>
          compileArgArgsLoop getColumn fn (i + 1)
            { sel with Args := sel.Args ++ [{ a with Type_ := .ArgTypeCol, Col := col }] } rest
      | .NodeVar =>
        compileArgArgsLoop getColumn fn (i + 1)
          { sel with Args := sel.Args ++ [{ a with Type_ := .ArgTypeVar, Val := n.Val }] } rest
      | _ =>
        compileArgArgsLoop getColumn fn (i + 1)
          { sel with Args := sel.Args ++ [{ a with Val := n.Val }] } rest

/-- Method `compileArgArgs` (lines 1769-1806). -/
def compileArgArgs (getColumn : ColumnLookup) (sel : Select) (arg : Arg) : Except Fault Select :=
  if sel.Ti.Type_ ≠ "function" then
    .error (.error ("'" ++ sel.Ti.Name ++ "' is not a db function"))
  else if sel.Ti.Func.Inputs.length = 0 then
    .error (.error ("db function '" ++ sel.Ti.Name ++ "' does not have any arguments"))
  else if arg.Val.Type_ ≠ .NodeList then .error (.error (argErr "args" "list"))
  else compileArgArgsLoop getColumn sel.Ti.Func 0 sel arg.Val.Children

/-! ## The selector arguments (lines 1029-1087, 1571-1767, 1827-1909) -/

/-- Modelled from the spec: `sdata.TPath` is declared in the schema package:
one edge of a relationship path.  `LT` is its left table and `Rel` the
relationship `sdata.PathToRel` makes of it. -/
structure TPath where
  LT : DBTable := {}
  Rel : DBRel := {}
deriving DecidableEq, Repr

/-- The configuration values the argument compilers read and the functions they
call that are declared outside this file: `co.s.DBType()`, `util.ToSnake`,
`compileArgObj`, `sdata.DBTable.GetColumn`, `co.s.FindPath` and
`compileFuncTableArg`.  A `range` over a Go map visits the entries in an order
the language leaves open and that may differ from run to run: `rangeOrder`
gives, for the entries of a map, the order in which one run visits them. -/
structure ArgEnv where
  z : ExpNode := {}
  dbType : String := ""
  EnableCamelcase : Bool := false
  toSnake : String → String := fun s => s
  compileArgObj : ArgObjCompiler := fun _ _ _ _ => .ok (.nil, false)
  getColumn : ColumnLookup := fun ti n => .ok { Name := n, Table := ti.Name }
  sFindPath : String → String → String → Except String (List TPath) :=
    fun _ _ _ => .error "no path"
  compileFuncTableArg : Select → Arg → Except String Select := fun sel _ => .ok sel
  rangeOrder : List (String × List (String × String)) → List (String × List (String × String)) :=
    fun m => m

/-- The constant `singularSuffix` (line 21). -/
def singularSuffix : String := "ByID"

/-- Modelled from the spec: `strings.TrimSuffix` of the Go standard library:
the string without the given ending, or the string itself if it does not end
so. -/
def trimEnding (s ending : String) : String :=
  if ending.data.reverse.isPrefixOf s.data.reverse then
    String.mk (s.data.take (s.data.length - ending.data.length))
  else s

/-- Method `FindPath` (lines 748-752). -/
def FindPath (env : ArgEnv) (src dst through : String) : Except String (List TPath) :=
  env.sFindPath (trimEnding src singularSuffix) (trimEnding dst singularSuffix) through

/-- Method `compileArgSearch` (lines 1571-1592). -/
def compileArgSearch (z : ExpNode) (dbType : String) (sel : Select) (arg : Arg) :
    Except String Select :=
  if sel.Ti.FullText.length = 0 then
    if dbType = "mysql" then
      .error ("no fulltext indexes defined for table '" ++ sel.Table ++ "'")
    else .error ("no tsvector column defined on table '" ++ sel.Table ++ "'")
  else if arg.Val.Type_ ≠ .NodeVar then .error (argTypeErr "variable")
  else
    let ex : Exp :=
      .node { z with Op := .OpTsQuery, Right := { z.Right with ValType := .ValVar, Val := arg.Val.Val } } []
    let sel1 : Select := sel.addIArg { Name := arg.Name, Val := arg.Val.Val }
    .ok { sel1 with Where := setFilter z sel1.Where ex }

/-- Function `orderByFromList` (lines 1718-1732). -/
def orderByFromList (parent : Node) : Except String OrderBy :=
  match parent.Children with
  | [valNode, orderNode] =>
    match (toOrder orderNode.Val).2 with
    | some e => .error e
    | none => .ok { Var := valNode.Val, Order := (toOrder orderNode.Val).1 }
  | _ => .error "valid format is [values, order] (eg. [$list, \"desc\"])"

/-- Method `setOrderByColName` (lines 1938-1953): the order-by entry with its
column set. -/
def setOrderByColName (env : ArgEnv) (ti : DBTable) (ob : OrderBy) (node : Node) :
    Except String OrderBy :=
  let name : String := if env.EnableCamelcase then env.toSnake node.Name else node.Name
  match env.getColumn ti name with
  | .error e => .error e
  | .ok col => .ok { ob with Col := col }

/-- The switch on the node kind in the loop of `compileArgOrderByObj`
(lines 1661-1697): the selector, the table `ti`, the entry `ob` and the node
`cn` after it.  Reading `path[0]` of an empty path or `node.Children[0]` of a
node without children is a run-time fault. -/
def orderByObjKind (env : ArgEnv) (sel : Select) (node : Node) :
    Except Fault (Select × DBTable × OrderBy × Node) :=
  match node.Type_ with
  | .NodeStr | .NodeLabel =>
    match (toOrder node.Val).2 with
    | some e => .error (.error e)
    | none => .ok (sel, sel.Ti, { Order := (toOrder node.Val).1 }, node)
  | .NodeList =>
    match orderByFromList node with
    | .error e => .error (.error e)
    | .ok ob => .ok (sel, sel.Ti, ob, node)
  | .NodeObj =>
    match FindPath env node.Name sel.Ti.Name "" with
    | .error e => .error (.error e)
    | .ok [] => .error (.crash "index out of range [0] with length 0")
    | .ok (p0 :: ps) =>
      match node.Children with
      | [] => .error (.crash "index out of range [0] with length 0")
      | cn :: _ =>
        match (toOrder cn.Val).2 with
        | some e => .error (.error e)
        | none =>
          let joins : List Join :=
            (p0 :: ps).reverse.map fun p =>
              { Rel := p.Rel, Filter := buildFilter env.z p.Rel (-1), Local := true }
          .ok ({ sel with Joins := sel.Joins ++ joins }, p0.LT, { Order := (toOrder cn.Val).1 }, cn)
  | _ => .ok (sel, sel.Ti, {}, node)

/-- One pass of the loop of `compileArgOrderByObj` (lines 1645-1708) for the
node popped from the stack: the selector, the set `cm` of column names and
the list `obList` after it. -/
def orderByObjStep (env : ArgEnv) (sel : Select) (cm : List String) (obList : List OrderBy)
    (node : Node) : Except Fault (Select × List String × List OrderBy) :=
  if node.Type_ ≠ .NodeStr ∧ node.Type_ ≠ .NodeObj ∧ node.Type_ ≠ .NodeList ∧
      node.Type_ ≠ .NodeLabel then
    .error (.error "expecting a string, object or list")
  else
    match orderByObjKind env sel node with
    | .error e => .error e
    | .ok r =>
      match setOrderByColName env r.2.1 r.2.2.1 r.2.2.2 with
      | .error e => .error (.error e)
      | .ok ob =>
        if ob.Col.Name ∈ cm then .error (.error "can only be defined once")
        else .ok (r.1, ob.Col.Name :: cm, obList ++ [ob])

/-- The loop of `compileArgOrderByObj` (lines 1636-1709) over the stack, its
top at the head of the list.  An error of a pass is returned at the top of the
next pass, with the name of the node. -/
def orderByObjLoop (env : ArgEnv) :
    Select → List String → List OrderBy → List Node → Except Fault (Select × List OrderBy)
  | sel, _, obList, [] => .ok (sel, obList)
  | sel, cm, obList, node :: rest =>
    match orderByObjStep env sel cm obList node with
    | .error (.error e) => .error (.error ("argument '" ++ node.Name ++ "', " ++ e))
    | .error f => .error f
    | .ok r => orderByObjLoop env r.1 r.2.1 r.2.2 rest

/-- Method `compileArgOrderByObj` (lines 1623-1716).  The children are pushed
in order on a last-in-first-out stack, so the last child is popped first; the
collected entries are appended to the order-by list from last to first. -/
def compileArgOrderByObj (env : ArgEnv) (sel : Select) (parent : Node) (cm : List String) :
    Except Fault Select :=
  match orderByObjLoop env sel cm [] parent.Children.reverse with
  | .error e => .error e
  | .ok r => .ok { r.1 with OrderBy := r.1.OrderBy ++ r.2.reverse }

/-- The loop of `compileOrderBy` (lines 1751-1764) over the (column, keyword)
pairs of one preconfigured ordering. -/
def compileOrderByValues (getColumn : ColumnLookup) (ti : DBTable) (keyVar key : String)
    (cm : List String) : List (String × String) → List OrderBy → Except String (List OrderBy)
  | [], obList => .ok obList
  | v :: rest, obList =>
    match getColumn ti v.1 with
    | .error e => .error e
    | .ok col =>
      if col.Name ∈ cm then .error ("duplicate column '" ++ col.Name ++ "'")
      else
        compileOrderByValues getColumn ti keyVar key cm rest
          (obList ++ [{ KeyVar := keyVar, Key := key, Order := (toOrder v.2).1, Col := col }])

/-- Function `compileOrderBy` (lines 1744-1767). -/
def compileOrderBy (getColumn : ColumnLookup) (sel : Select) (keyVar key : String)
    (values : List (String × String)) (cm : List String) : Except String Select :=
  match compileOrderByValues getColumn sel.Ti keyVar key cm values [] with
  | .error e => .error e
  | .ok obList => .ok { sel with OrderBy := sel.OrderBy ++ obList }

/-- The loop of `compileArgOrderByVar` (lines 1735-1739) over the entries of
the map `sel.tc.OrderBy` in the order they are visited. -/
def orderByVarLoop (getColumn : ColumnLookup) (keyVar : String) (cm : List String) :
    Select → List (String × List (String × String)) → Except String Select
  | sel, [] => .ok sel
  | sel, kv :: rest =>
    match compileOrderBy getColumn sel keyVar kv.1 kv.2 cm with
    | .error e => .error e
    | .ok sel1 => orderByVarLoop getColumn keyVar cm sel1 rest

/-- Method `compileArgOrderByVar` (lines 1734-1742): a `range` over the map
`sel.tc.OrderBy`. -/
def compileArgOrderByVar (env : ArgEnv) (sel : Select) (node : Node) (cm : List String) :
    Except String Select :=
  orderByVarLoop env.getColumn node.Val cm sel (env.rangeOrder sel.tc.OrderBy)

/-- Method `compileArgOrderBy` (lines 1598-1621). -/
def compileArgOrderBy (env : ArgEnv) (sel : Select) (arg : Arg) : Except Fault Select :=
  let node := arg.Val
  if node.Type_ ≠ .NodeObj ∧ node.Type_ ≠ .NodeVar then
    .error (.error (argTypeErr "object or variable"))
  else
    let cm : List String := sel.OrderBy.map fun ob => ob.Col.Name
    match node.Type_ with
    | .NodeObj => compileArgOrderByObj env sel node cm
    | .NodeVar => liftErr (compileArgOrderByVar env sel node cm)
    | _ => .ok sel

/-- The body shared by the two column steps of `compileArgDistinctOn`
(lines 1835-1844 and 1848-1857) for the column named `name`. -/
def distinctOnCol (env : ArgEnv) (sel : Select) (name : String) : Except String Select :=
  match env.getColumn sel.Ti name with
  | .error e => .error e
  | .ok col =>
    if env.dbType = "mysql" then
      .ok { sel with OrderBy := sel.OrderBy ++ [{ Order := .OrderAsc, Col := col }] }
    else .ok { sel with DistinctOn := sel.DistinctOn ++ [col] }

/-- The loop of `compileArgDistinctOn` over the children (lines 1847-1858). -/
def distinctOnCols (env : ArgEnv) : Select → List Node → Except String Select
  | sel, [] => .ok sel
  | sel, cn :: rest =>
    match distinctOnCol env sel cn.Val with
    | .error e => .error e
    | .ok sel1 => distinctOnCols env sel1 rest

/-- Method `compileArgDistinctOn` (lines 1827-1861). -/
def compileArgDistinctOn (env : ArgEnv) (sel : Select) (arg : Arg) : Except String Select :=
  let node := arg.Val
  if node.Type_ ≠ .NodeList ∧ node.Type_ ≠ .NodeStr then
    .error "expecting a list of strings or just a string"
  else
    match (if node.Type_ = .NodeStr then distinctOnCol env sel node.Val else .ok sel) with
    | .error e => .error e
    | .ok sel1 => distinctOnCols env sel1 node.Children

/-- Method `compileArgOffset` (lines 1887-1909).  The text of the library
parse error is not reproduced. -/
def compileArgOffset (dbType : String) (sel : Select) (arg : Arg) : Except String Select :=
  let node := arg.Val
  if node.Type_ ≠ .NodeNum ∧ node.Type_ ≠ .NodeVar then
    .error "value must be a number or variable"
  else
    match node.Type_ with
    | .NodeNum =>
      match parseInt32 node.Val with
      | none => .error "strconv.ParseInt: parsing failed"
      | some n => .ok { sel with Paging := { sel.Paging with Offset := n } }
    | .NodeVar =>
      if dbType = "mysql" then .error "mysql: value for argument 'limit' must be a number"
      else .ok { sel with Paging := { sel.Paging with OffsetVar := node.Val } }
    | _ => .ok sel

/-- The switch on the argument name in the loop of `compileArgs`
(lines 1035-1079). -/
def compileArg (env : ArgEnv) (sel : Select) (arg : Arg) (role : String) : Except Fault Select :=
  if arg.Name = "id" then liftErr (compileArgID env.z sel arg)
  else if arg.Name = "search" then liftErr (compileArgSearch env.z env.dbType sel arg)
  else if arg.Name = "where" then liftErr (compileArgWhere env.z env.compileArgObj sel arg role)
  else if arg.Name = "orderby" ∨ arg.Name = "order_by" ∨ arg.Name = "order" then
    compileArgOrderBy env sel arg
  else if arg.Name = "distinct_on" ∨ arg.Name = "distinct" then
    liftErr (compileArgDistinctOn env sel arg)
  else if arg.Name = "limit" then liftErr (compileArgLimit env.dbType sel arg)
  else if arg.Name = "offset" then liftErr (compileArgOffset env.dbType sel arg)
  else if arg.Name = "first" then liftErr (compileArgFirstLast env.dbType sel arg .OrderAsc)
  else if arg.Name = "last" then liftErr (compileArgFirstLast env.dbType sel arg .OrderDesc)
  else if arg.Name = "after" then liftErr (compileArgAfterBefore sel arg .PTForward)
  else if arg.Name = "before" then liftErr (compileArgAfterBefore sel arg .PTBackward)
  else if arg.Name = "find" then liftErr (compileArgFind sel arg)
  else if arg.Name = "args" then compileArgArgs env.getColumn sel arg
  else if sel.Ti.Type_ = "function" then liftErr (env.compileFuncTableArg sel arg)
  else .ok sel

/-- Method `compileArgs` (lines 1029-1087): an error of an argument is
returned with the name of the argument in front. -/
def compileArgs (env : ArgEnv) : Select → List Arg → String → Except Fault Select
  | sel, [], _ => .ok sel
  | sel, arg :: rest, role =>
    match compileArg env sel arg role with
    | .error (.error e) => .error (.error (arg.Name ++ ": " ++ e))
    | .error f => .error f
    | .ok sel1 => compileArgs env sel1 rest role

/-- A mutation `users(insert: [])` whose action value is an empty list. -/
def mutationEmptyInsert : Operation :=
  { Type_ := .OpMutate, Fields := [{ ID := 0, Name := "users", Args := [insertEmpty] }] }

/-- The arguments `update: []` and `upsert: []`. -/
def updateEmpty : Arg := { Name := "update", Val := .mk .NodeList "" "" [] }

/-- The argument `upsert: []`. -/
def upsertEmpty : Arg := { Name := "upsert", Val := .mk .NodeList "" "" [] }

/-- The argument `oneOf: 5`: a bare number. -/
def oneOfNumber : Arg := { Name := "oneOf", Val := .mk .NodeNum "" "5" [] }

/-- The argument `oneOf: "red"`: a bare string. -/
def oneOfString : Arg := { Name := "oneOf", Val := .mk .NodeStr "" "red" [] }

/-- The rule the spec states for a `oneOf` value: a non-empty list whose first
element is a number or a string. -/
def oneOfListRule (a : Arg) : Bool :=
  a.Val.Type_ == .NodeList &&
    match a.Val.Children with
    | [] => false
    | c :: _ => c.Type_ == .NodeNum || c.Type_ == .NodeStr

/-- The argument `after: $cursor`. -/
def afterCursorArg : Arg := { Name := "after", Val := .mk .NodeVar "" "cursor" [] }

/-- What the cursor arguments leave in a selector, when the call succeeded:
the singular flag, the cursor flag, the limit, the paging type and the scan
direction. -/
def pagingSummary : Except Fault Select → Option (Bool × Bool × Int × PagingType × Order)
  | .ok s => some (s.Singular, s.Paging.Cursor, s.Paging.Limit, s.Paging.Type_, s.order)
  | .error _ => none

/-- An expression is a single node (no children) with the given operator, left
selector id and column, and right selector id and column. -/
def Exp.isRelAtom (e : Exp) (op : ExpOp) (lid : Int) (lc : DBColumn) (rid : Int) (rc : DBColumn) :
    Prop :=
  ∃ n, e = .node n [] ∧ n.Op = op ∧ n.Left.ID = lid ∧ n.Left.Col = lc ∧ n.Right.ID = rid ∧
    n.Right.Col = rc

/-- An expression is a single node (no children) with the given operator, left
table and column, and right table and column. -/
def Exp.isTableAtom (e : Exp) (op : ExpOp) (lt : String) (lc : DBColumn) (rt : String)
    (rc : DBColumn) : Prop :=
  ∃ n, e = .node n [] ∧ n.Op = op ∧ n.Left.Table = lt ∧ n.Left.Col = lc ∧ n.Right.Table = rt ∧
    n.Right.Col = rc

/-- The one-to-many relationship of `posts.user_id` with `users.id`. -/
def postsUsersRel : DBRel :=
  { Type_ := .RelOneToMany
    Left := { Ti := { Name := "posts" }, Col := { Name := "user_id", Table := "posts" } }
    Right := { Ti := { Name := "users" }, Col := { Name := "id", Table := "users" } } }

/-- The recursive relationship of `reply.parent_id` with `reply.id`. -/
def replyRel : DBRel :=
  { Type_ := .RelRecursive
    Left := { Ti := { Name := "reply" }, Col := { Name := "parent_id", Table := "reply" } }
    Right := { Ti := { Name := "reply" }, Col := { Name := "id", Table := "reply" } } }

/-- The selector `reply(find: "parents")` under selector 0, after its
arguments are compiled. -/
def replySelect : Select :=
  { ID := 1, ParentID := 0, Table := "reply", Ti := { Name := "reply" }, Rel := replyRel
    IArgs := [{ Name := "find", Val := "parents" }] }

/-- A selector `posts` under selector 0 reached over two edges: its
relationship is the one-to-many first edge and it carries one join. -/
def joinedSelect : Select :=
  { ID := 1, ParentID := 0, Table := "posts", Ti := { Name := "posts" }, Rel := postsUsersRel
    Joins := [{ Rel := postsUsersRel }] }

/-- The root selector of the function table `nearby`, a database function with
the one declared input `lat` of type `float8`. -/
def nearbySelect : Select :=
  { ID := 0, ParentID := -1, Table := "nearby"
    Ti := { Name := "nearby", Type_ := "function"
            Func := { Name := "nearby", Inputs := [{ Name := "lat", Type_ := "float8" }] } } }

/-- The argument `args: [1]`. -/
def argsOne : Arg := { Name := "args", Val := .mk .NodeList "" "" [.mk .NodeNum "" "1" []] }

/-- The argument `args: [1, $b]`: one child more than `nearby` has inputs. -/
def argsTwo : Arg :=
  { Name := "args", Val := .mk .NodeList "" "" [.mk .NodeNum "" "1" [], .mk .NodeVar "" "b" []] }

/-- The argument list of a selector after a call, or how the call failed. -/
def argsSummary : Except Fault Select → Except Fault (List QArg)
  | .ok s => .ok s.Args
  | .error f => .error f

/-- A table configuration with two preconfigured orderings, `newest` and
`oldest`, of the column `created_at`. -/
def orderedTc : TConfig :=
  { OrderBy := [("newest", [("created_at", "desc")]), ("oldest", [("created_at", "asc")])] }

/-- The root selector `posts` of a table with the two preconfigured
orderings. -/
def postsSelect : Select :=
  { ID := 0, ParentID := -1, Table := "posts", Ti := { Name := "posts" }, tc := orderedTc }

/-- The argument `order_by: $ord`. -/
def orderByVarArg : Arg := { Name := "order_by", Val := .mk .NodeVar "" "ord" [] }

/-- The order-by list of a selector after a call that succeeded: the key, the
column name and the order of each entry. -/
def orderSummary : Except Fault Select → Option (List (String × String × Order))
  | .ok s => some (s.OrderBy.map fun ob => (ob.Key, ob.Col.Name, ob.Order))
  | .error _ => none

/-- The relationship kind and the internal arguments of a selector: the part
of a selector that `validateSelect` reads. -/
def Select.findKey (s : Select) : RelType × List QArg := (s.Rel.Type_, s.IArgs)

/-- The relationship kinds and internal arguments of the selectors of a
`QCode`, in order. -/
def QCode.findKeys (qc : QCode) : List (RelType × List QArg) := qc.Selects.map Select.findKey

/-- A recursive relationship comes with an internal argument named `find`
whose value is `parents` or `children`. -/
def findKeyValid (k : RelType × List QArg) : Prop :=
  k.1 = .RelRecursive →
    ∃ a, k.2.find? (fun v => v.Name == "find") = some a ∧ (a.Val = "parents" ∨ a.Val = "children")

/-- What the claim on recursive selectors assumes of the functions taken as
parameters that receive the `QCode`: they do not change the relationship kind
or the internal arguments of the selectors already stored. -/
structure Env.KeepsFind (env : Env) : Prop where
  relInfo : ∀ op qc sel f qc1 sel1, env.relInfo op qc sel f = .ok (qc1, sel1) →
    qc1.findKeys = qc.findKeys
  compileFields : ∀ st op qc sel f tr role st1 qc1 sel1,
    env.compileFields st op qc sel f tr role = .ok (st1, qc1, sel1) →
    qc1.findKeys = qc.findKeys

/-- A small environment with a recursive table: a field named `reply` under a
parent selector gets the recursive relationship of `reply.parent_id` with
`reply.id`; the arguments are compiled by `compileArgs` and the relationship
filter is set by `setRelFilters`; the rest is as in `demoEnv`. -/
def recursiveEnv : Env :=
  { demoEnv with
    relInfo := fun _ qc sel f =>
      .ok (qc, { sel with
                 Table := f.Name
                 Rel := if sel.ParentID ≠ -1 ∧ f.Name = "reply" then replyRel else {} })
    compileArgs := fun sel args role =>
      match compileArgs {} sel args role with
      | .ok s => .ok s
      | .error (.error e) => .error e
      | .error (.crash w) => .error w
    setRelFilters := fun qc sel =>
      match setRelFilters {} qc sel with
      | .ok s => s
      | .error _ => sel }

/-- The operation `query q { reply { reply(find: "parents") } }`. -/
def replyOp : Operation :=
  { Name := "q"
    Fields :=
      [ { ID := 0, Name := "reply", Children := [1] },
        { ID := 1, ParentID := 0, Name := "reply"
          Args := [{ Name := "find", Val := .mk .NodeStr "" "parents" [] }] } ] }

/-- The operation `query q { reply { reply } }`, without the `find` argument. -/
def replyNoFindOp : Operation :=
  { Name := "q"
    Fields :=
      [ { ID := 0, Name := "reply", Children := [1] },
        { ID := 1, ParentID := 0, Name := "reply" } ] }

/-- The relationship kind and the names and values of the internal arguments
of the selectors of a result, or how the call failed. -/
def findSummary :
    Option (Except Fault QCode) → Option (Except Fault (List (RelType × List (String × String))))
  | some (.ok qc) =>
    some (.ok (qc.Selects.map fun s => (s.Rel.Type_, s.IArgs.map fun a => (a.Name, a.Val))))
  | some (.error f) => some (.error f)
  | none => none

/-- The argument `where: { id: { eq: 1 } }`. -/
def whereIdArg : Arg :=
  { Name := "where"
    Val := .mk .NodeObj "" "" [.mk .NodeObj "id" "" [.mk .NodeNum "eq" "1" []]] }

/-- The root of the where of a selector and the number of its children after a
call that succeeded. -/
def whereSummary : Except Fault Select → Option (Option ExpOp × String × Nat)
  | .ok s =>
    match s.Where.Exp with
    | .nil => some (none, "", 0)
    | .node n cs => some (some n.Op, n.Right.Val, cs.length)
  | .error _ => none

/-- The directive `@constraint(variable: "x", required: <b>)`. -/
def requiredDirective (b : String) : Directive :=
  { Name := "constraint"
    Args :=
      [ { Name := "variable", Val := .mk .NodeStr "" "x" [] },
        { Name := "required", Val := .mk .NodeBool "" b [] } ] }

/-- The argument `order_by: { title: asc, id: desc }`. -/
def orderByTitleId : Arg :=
  { Name := "order_by"
    Val := .mk .NodeObj "" "" [.mk .NodeLabel "title" "asc" [], .mk .NodeLabel "id" "desc" []] }

/-- The tree is a single node (no children) that tests `is_null` on column
`col` of table `__cur`. -/
def Exp.isCursorNull (e : Exp) (col : DBColumn) : Prop :=
  ∃ n, e = .node n [] ∧ n.Op = .OpIsNull ∧ n.Left.Table = "__cur" ∧ n.Left.Col = col

/-- The tree is a single node (no children) with operator `op` whose left
operand is column `col` of table `lt` and whose right operand is the same
column of table `__cur`. -/
def Exp.isCursorAtom (e : Exp) (op : ExpOp) (lt : String) (col : DBColumn) : Prop :=
  ∃ n, e = .node n [] ∧ n.Op = op ∧ n.Left.Table = lt ∧ n.Left.Col = col ∧
    n.Right.Table = "__cur" ∧ n.Right.Col = col

/-- The tree is the comparison of the column of order-by entry `ob` against
the same column of table `__cur`: greater-than for order asc, less-than for
order desc. -/
def Exp.isCursorCompare (e : Exp) (lt : String) (ob : OrderBy) : Prop :=
  ∃ op, e.isCursorAtom op lt ob.Col ∧ (ob.Order = .OrderAsc → op = .OpGreaterThan) ∧
    (ob.Order = .OrderDesc → op = .OpLesserThan)

/-! ## Theorems -/

theorem notBoolOp_false_iff (op : ExpOp) :
    notBoolOp op = false ↔ (op = .OpAnd ∨ op = .OpOr ∨ op = .OpNot) := by
  cases op <;> simp [notBoolOp]

theorem notBoolOp_true_iff (op : ExpOp) :
    notBoolOp op = true ↔ (op ≠ .OpAnd ∧ op ≠ .OpOr ∧ op ≠ .OpNot) := by
  cases op <;> simp [notBoolOp]

/-- C1: `setFilter` follows the three-case merge rule.  With an empty filter
the root becomes `N`.  With a root `E` whose operator is none of and/or/not the
root becomes a newly allocated `and` cell (its address is the first one past
the old store) whose children are `[N, E]`, and every cell of the old store is
kept as it was.  Otherwise `E` stays the root and `N` is appended as its last
child.  The tree view agrees in each case. -/
theorem setFilter_merge_rule (z : ExpNode) (h : Mem.Heap) (N : Mem.Ptr) :
    Mem.setFilter z h none N = (h, N) ∧
    (∀ (a : Nat) (E : Mem.Cell), h[a]? = some E →
      E.n.Op ≠ .OpAnd ∧ E.n.Op ≠ .OpOr ∧ E.n.Op ≠ .OpNot →
      Mem.setFilter z h (some a) N =
        (h ++ [{ n := { z with Op := .OpAnd }, Children := [N, some a] }], some h.length)) ∧
    (∀ (a : Nat) (E : Mem.Cell), h[a]? = some E →
      E.n.Op = .OpAnd ∨ E.n.Op = .OpOr ∨ E.n.Op = .OpNot →
      Mem.setFilter z h (some a) N =
        (h.set a { E with Children := E.Children ++ [N] }, some a)) ∧
    (∀ t : Exp, (setFilter z { Exp := .nil } t).Exp = t) ∧
    (∀ (e : ExpNode) (cs : List Exp) (t : Exp),
      e.Op ≠ .OpAnd ∧ e.Op ≠ .OpOr ∧ e.Op ≠ .OpNot →
      (setFilter z { Exp := .node e cs } t).Exp =
        .node { z with Op := .OpAnd } [t, .node e cs]) ∧
    (∀ (e : ExpNode) (cs : List Exp) (t : Exp),
      e.Op = .OpAnd ∨ e.Op = .OpOr ∨ e.Op = .OpNot →
      (setFilter z { Exp := .node e cs } t).Exp = .node e (cs ++ [t])) := by
  refine ⟨rfl, ?_, ?_, fun _ => rfl, ?_, ?_⟩
  · intro a E ha hop
    have hb : notBoolOp E.n.Op = true := (notBoolOp_true_iff _).2 hop
    simp [Mem.setFilter, ha, hb, Mem.newExpOp, Mem.setChildren]
  · intro a E ha hop
    have hb : notBoolOp E.n.Op = false := (notBoolOp_false_iff _).2 hop
    simp [Mem.setFilter, ha, hb, Mem.setChildren]
  · intro e cs t hop
    have hb : notBoolOp e.Op = true := (notBoolOp_true_iff _).2 hop
    simp [setFilter, hb]
  · intro e cs t hop
    have hb : notBoolOp e.Op = false := (notBoolOp_false_iff _).2 hop
    simp [setFilter, hb]

/-- C2: a role template whose root is an `and` node is modified in place.
With an empty where, `addFilters` installs the template cell itself as the
root, and the next merge (here a relationship filter) appends to the child list
of that very cell: the template has two children before and three after. -/
theorem addFilters_template_modified :
    (Mem.addFilters {} sharedStore none (some 2) false).2.1 = some 2 ∧
    (sharedStore[2]?).map (fun c => c.Children) = some [some 0, some 1] ∧
    ((Mem.setFilter {} (Mem.addFilters {} sharedStore none (some 2) false).1
        (Mem.addFilters {} sharedStore none (some 2) false).2.1 (some 3)).1[2]?).map
      (fun c => c.Children) = some [some 0, some 1, some 3] := by
  decide

/-- C3: merging into a filter whose root is an `or` node is not a conjunction.
The seek predicate of a selector with an empty where becomes the root; merging
the relationship filter then appends it as one more disjunct.  On the sample
row the seek predicate holds and the relationship filter does not, yet the
merged filter holds. -/
theorem setFilter_or_root_not_conjunction :
    (addSeekPredicate {} pagedSelect).Where.Exp.op? = some .OpOr ∧
    (addSeekPredicate {} pagedSelect).Where.Exp.eval (atomSQL sampleRow sampleCur) false = true ∧
    relFilter.eval (atomSQL sampleRow sampleCur) false = false ∧
    (setFilter {} (addSeekPredicate {} pagedSelect).Where relFilter).Exp.eval
      (atomSQL sampleRow sampleCur) false = true := by
  decide

theorem evalAll_false_of_mem (atom : ExpNode → Bool) (nilv : Bool) (c : Exp) :
    ∀ cs : List Exp, c ∈ cs → Exp.eval atom nilv c = false → Exp.evalAll atom nilv cs = false := by
  intro cs
  induction cs with
  | nil => intro h; cases h
  | cons d ds ih =>
    intro hmem hc
    rcases List.mem_cons.1 hmem with h | h
    · subst h
      simp [Exp.evalAll, hc]
    · simp [Exp.evalAll, ih h hc]

theorem eval_false_node (atom : ExpNode → Bool) (nilv : Bool) (n : ExpNode) (cs : List Exp)
    (h : n.Op = .OpFalse) : Exp.eval atom nilv (.node n cs) = false := by
  simp [Exp.eval, h]

theorem eval_and_node (atom : ExpNode → Bool) (nilv : Bool) (n : ExpNode) (cs : List Exp)
    (h : n.Op = .OpAnd) : Exp.eval atom nilv (.node n cs) = Exp.evalAll atom nilv cs := by
  simp [Exp.eval, h]

theorem holdsFalse_setFilter (z : ExpNode) (fil : ExpNode) (cs : List Exp)
    (hf : fil.Op = .OpFalse) (w : Filter) (ex : Exp)
    (hw : HoldsFalse (.node fil cs) w) : HoldsFalse (.node fil cs) (setFilter z w ex) := by
  rcases hw with h | ⟨n, ds, h, hn, hmem⟩
  · right
    refine ⟨{ z with Op := .OpAnd }, [ex, .node fil cs], ?_, rfl, by simp⟩
    simp [setFilter, h, hf, notBoolOp]
  · right
    refine ⟨n, ds ++ [ex], ?_, hn, by simp [hmem]⟩
    simp [setFilter, h, hn, notBoolOp]

theorem holdsFalse_foldl (z : ExpNode) (fil : ExpNode) (cs : List Exp)
    (hf : fil.Op = .OpFalse) (later : List Exp) :
    ∀ w : Filter, HoldsFalse (.node fil cs) w →
      HoldsFalse (.node fil cs) (later.foldl (setFilter z) w) := by
  induction later with
  | nil => intro w hw; exact hw
  | cons ex rest ih =>
    intro w hw
    exact ih _ (holdsFalse_setFilter z fil cs hf w ex hw)

/-- C4: when the role filter template is the `false` sentinel, the where tree
after `addFilters` and after any sequence of later merges (seek predicate,
relationship filter) reads as false on every row, under every reading of the
other operators and whatever filter the user wrote. -/
theorem false_template_forces_false (z : ExpNode) (atom : ExpNode → Bool) (nilv : Bool)
    (userWhere : Filter) (fil : ExpNode) (cs : List Exp) (userNeeded : Bool)
    (later : List Exp) (hf : fil.Op = .OpFalse) :
    (later.foldl (setFilter z) (addFilters z userWhere (.node fil cs, userNeeded)).1).Exp.eval
      atom nilv = false := by
  have h0 : HoldsFalse (.node fil cs) (addFilters z userWhere (.node fil cs, userNeeded)).1 := by
    left
    simp [addFilters, hf]
  rcases holdsFalse_foldl z fil cs hf later _ h0 with h | ⟨n, ds, h, hn, hmem⟩
  · rw [h]
    exact eval_false_node atom nilv fil cs hf
  · rw [h, eval_and_node atom nilv n ds hn]
    exact evalAll_false_of_mem atom nilv _ ds hmem (eval_false_node atom nilv fil cs hf)

/-- Witness for C4: the template `false` merged under a user filter and
followed by the seek predicate and a relationship filter. -/
theorem false_template_forces_false_witness :
    ({ Op := .OpFalse } : ExpNode).Op = .OpFalse ∧
    ([seekOr {} pagedSelect.OrderBy, relFilter].foldl (setFilter {})
        (addFilters {} { Exp := relFilter } (.node { Op := .OpFalse } [], false)).1).Exp.eval
      (atomSQL sampleRow sampleCur) true = false :=
  ⟨rfl, false_template_forces_false {} (atomSQL sampleRow sampleCur) true { Exp := relFilter }
    { Op := .OpFalse } [] false [seekOr {} pagedSelect.OrderBy, relFilter] rfl⟩

theorem innerNodes_gt (z : ExpNode) (i n : Nat) (obs : List OrderBy) (h : n > i) :
    innerNodes z i n obs = [] := by
  cases obs with
  | nil => rfl
  | cons ob rest => simp [innerNodes, h]

theorem seekInner_node (z : ExpNode) (i : Nat) (obs : List OrderBy) :
    ∀ (n : Nat) (o : Exp) (a : ExpNode) (cs : List Exp),
      seekInner z i n obs (o, .node a cs) = (o, .node a (cs ++ innerNodes z i n obs)) := by
  induction obs with
  | nil => intro n o a cs; simp [seekInner, innerNodes]
  | cons ob rest ih =>
    intro n o a cs
    by_cases h : n > i
    · simp [seekInner, innerNodes, h]
    · simp [seekInner, innerNodes, h, Exp.appendChild, ih]

theorem innerNodes_le (z : ExpNode) (i : Nat) (hi : 0 < i) (obs : List OrderBy) :
    ∀ n : Nat, n ≤ i →
      innerNodes z i n obs =
        (obs.take (i - n)).map (seekEquals z) ++ (obs[i - n]?.toList.map (seekCompare z)) := by
  induction obs with
  | nil => intro n _; simp [innerNodes]
  | cons ob rest ih =>
    intro n hn
    rcases Nat.lt_or_ge n i with hlt | hge
    · have h1 : ¬ n > i := by omega
      have h2 : i - n = (i - (n + 1)) + 1 := by omega
      have h3 : n ≠ i := by omega
      rw [innerNodes, if_neg h1, ih (n + 1) (by omega), h2]
      simp [seekField, seekEquals, hi, h3]
    · have h1 : n = i := by omega
      subst h1
      simp [innerNodes, innerNodes_gt, seekField, seekCompare]

theorem seekOuter_succ (z : ExpNode) (obs : List OrderBy) (st : Exp × Exp) (i : Nat) :
    (seekOuter z obs st (i + 1)).1 = st.1.appendChild (seekConj z obs (i + 2)) := by
  simp [seekOuter, newExpOp, seekInner_node, seekConj, innerNodes_le z (i + 1) (by omega) obs 0]

theorem seekOuter_zero (z : ExpNode) (c1 : OrderBy) (rest : List OrderBy) (o : Exp) :
    seekOuter z (c1 :: rest) (o, .nil) 0 = (o.appendChild (seekCompare z c1), .nil) := by
  cases rest <;> simp [seekOuter, seekInner, seekField, seekCompare]

theorem seekOuter_foldl (z : ExpNode) (c1 : OrderBy) (rest : List OrderBy) :
    ∀ k : Nat,
      ((List.range (k + 1)).foldl (seekOuter z (c1 :: rest)) (seekInit z (c1 :: rest), .nil)).1 =
        .node { z with Op := .OpOr }
          (seekIsNull z c1 :: seekCompare z c1 ::
            (List.range k).map (fun j => seekConj z (c1 :: rest) (j + 2))) := by
  intro k
  induction k with
  | zero =>
    have h1 : List.range (0 + 1) = [0] := rfl
    rw [h1]
    simp [seekOuter_zero, seekInit, Exp.appendChild]
  | succ k ih =>
    rw [List.range_succ, List.foldl_append, List.foldl_cons, List.foldl_nil, seekOuter_succ, ih]
    simp [Exp.appendChild, List.range_succ]

theorem seekOr_cons (z : ExpNode) (c1 : OrderBy) (rest : List OrderBy) :
    seekOr z (c1 :: rest) =
      .node { z with Op := .OpOr }
        (seekIsNull z c1 :: seekCompare z c1 ::
          (List.range rest.length).map (fun j => seekConj z (c1 :: rest) (j + 2))) := by
  simp only [seekOr, List.length_cons]
  exact seekOuter_foldl z c1 rest rest.length

/-- C5: for an order-by list `c1 .. cn` with `n >= 1`, `addSeekPredicate`
merges into where an `or` node with exactly `n + 1` children: first the
`is_null` test on column `c1` of table `__cur`, second the bare comparison of
`c1` against `__cur.c1`, and for each `i` from 2 to `n` an `and` node with
exactly `i` children, the equalities `ck = __cur.ck` for `k < i` in order
followed by the comparison of `ci` against `__cur.ci`; the comparison is
greater-than for order asc and less-than for order desc.  Every leaf is a
single node whose operator, columns and `__cur` table are as stated. -/
theorem addSeekPredicate_shape (z : ExpNode) (sel : Select) (c1 : OrderBy)
    (rest : List OrderBy) (hob : sel.OrderBy = c1 :: rest) :
    ∃ (first second : Exp) (ands : List Exp),
      addSeekPredicate z sel =
        { sel with
          Where :=
            setFilter z sel.Where (.node { z with Op := .OpOr } (first :: second :: ands)) } ∧
      (first :: second :: ands).length = sel.OrderBy.length + 1 ∧
      first.isCursorNull c1.Col ∧
      second.isCursorCompare z.Left.Table c1 ∧
      (∀ i : Nat, 2 ≤ i → i ≤ sel.OrderBy.length →
        ∃ (ci : OrderBy) (cs : List Exp), sel.OrderBy[i - 1]? = some ci ∧
          ands[i - 2]? = some (.node { z with Op := .OpAnd } cs) ∧
          cs.length = i ∧
          (∀ k : Nat, k < i - 1 →
            ∃ (ck : OrderBy) (e : Exp), sel.OrderBy[k]? = some ck ∧ cs[k]? = some e ∧
              e.isCursorAtom .OpEquals z.Left.Table ck.Col) ∧
          (∃ e : Exp, cs[i - 1]? = some e ∧ e.isCursorCompare z.Left.Table ci)) := by
  have hnull : ∀ ob : OrderBy, (seekIsNull z ob).isCursorNull ob.Col :=
    fun _ => ⟨_, rfl, rfl, rfl, rfl⟩
  have hequ : ∀ ob : OrderBy, (seekEquals z ob).isCursorAtom .OpEquals z.Left.Table ob.Col :=
    fun _ => ⟨_, rfl, rfl, rfl, rfl, rfl, rfl⟩
  have hcmp : ∀ ob : OrderBy, (seekCompare z ob).isCursorCompare z.Left.Table ob :=
    fun ob => ⟨seekOp ob.Order, ⟨_, rfl, rfl, rfl, rfl, rfl, rfl⟩,
      fun h => by simp [seekOp, h], fun h => by simp [seekOp, h]⟩
  refine ⟨seekIsNull z c1, seekCompare z c1,
    (List.range rest.length).map (fun j => seekConj z (c1 :: rest) (j + 2)), ?_, ?_,
    hnull c1, hcmp c1, ?_⟩
  · simp only [addSeekPredicate, hob, seekOr_cons]
  · simp [hob]
  · intro i h2 hin
    rw [hob] at hin ⊢
    simp only [List.length_cons] at hin
    have hlt : i - 1 < (c1 :: rest).length := by simp only [List.length_cons]; omega
    have hlen : ((c1 :: rest).take (i - 1)).length = i - 1 := by
      simp only [List.length_take, List.length_cons]
      omega
    refine ⟨(c1 :: rest)[i - 1],
      ((c1 :: rest).take (i - 1)).map (seekEquals z) ++ [seekCompare z (c1 :: rest)[i - 1]],
      List.getElem?_eq_getElem hlt, ?_, ?_, ?_, ?_⟩
    · have h3 : i - 2 < rest.length := by omega
      have h4 : i - 2 + 2 - 1 = i - 1 := by omega
      rw [List.getElem?_map, List.getElem?_range h3]
      simp only [Option.map_some', seekConj, h4, List.getElem?_eq_getElem hlt, Option.toList,
        List.map_cons, List.map_nil]
    · simp only [List.length_append, List.length_map, hlen, List.length_singleton]
      omega
    · intro k hk
      have hk2 : k < (c1 :: rest).length := by omega
      refine ⟨(c1 :: rest)[k], seekEquals z (c1 :: rest)[k], List.getElem?_eq_getElem hk2, ?_,
        hequ _⟩
      rw [List.getElem?_append_left (by rw [List.length_map, hlen]; exact hk), List.getElem?_map,
        List.getElem?_take_of_lt hk, List.getElem?_eq_getElem hk2]
      rfl
    · refine ⟨seekCompare z (c1 :: rest)[i - 1], ?_, hcmp _⟩
      rw [List.getElem?_append_right (by rw [List.length_map, hlen]), List.length_map, hlen]
      simp

/-- Witness for C5: for the order-by list `a asc, b desc` and an empty where,
the where becomes `or[is_null(__cur.a), a > __cur.a, and[a = __cur.a,
b < __cur.b]]`. -/
theorem addSeekPredicate_shape_witness :
    twoKeySelect.OrderBy = keyA :: [keyB] ∧
    (addSeekPredicate {} twoKeySelect).Where.Exp =
      .node { Op := .OpOr }
        [.node { Op := .OpIsNull, Left := { Table := "__cur", Col := { Name := "a" } } } [],
         .node { Op := .OpGreaterThan
                 Left := { Col := { Name := "a" } }
                 Right := { Table := "__cur", Col := { Name := "a" } } } [],
         .node { Op := .OpAnd }
           [.node { Op := .OpEquals
                    Left := { Col := { Name := "a" } }
                    Right := { Table := "__cur", Col := { Name := "a" } } } [],
            .node { Op := .OpLesserThan
                    Left := { Col := { Name := "b" } }
                    Right := { Table := "__cur", Col := { Name := "b" } } } []]] ∧
    ∃ (first second : Exp) (ands : List Exp),
      addSeekPredicate {} twoKeySelect =
        { twoKeySelect with
          Where :=
            setFilter {} twoKeySelect.Where
              (.node { ({} : ExpNode) with Op := .OpOr } (first :: second :: ands)) } ∧
      (first :: second :: ands).length = twoKeySelect.OrderBy.length + 1 ∧
      first.isCursorNull keyA.Col ∧
      second.isCursorCompare "" keyA ∧
      (∀ i : Nat, 2 ≤ i → i ≤ twoKeySelect.OrderBy.length →
        ∃ (ci : OrderBy) (cs : List Exp), twoKeySelect.OrderBy[i - 1]? = some ci ∧
          ands[i - 2]? = some (.node { ({} : ExpNode) with Op := .OpAnd } cs) ∧
          cs.length = i ∧
          (∀ k : Nat, k < i - 1 →
            ∃ (ck : OrderBy) (e : Exp), twoKeySelect.OrderBy[k]? = some ck ∧ cs[k]? = some e ∧
              e.isCursorAtom .OpEquals "" ck.Col) ∧
          (∃ e : Exp, cs[i - 1]? = some e ∧ e.isCursorCompare "" ci)) :=
  ⟨rfl, rfl, addSeekPredicate_shape {} twoKeySelect keyA [keyB] rfl⟩

theorem seekConjs_eq_map (z : ExpNode) (rest : List OrderBy) :
    ∀ pre : List OrderBy,
      (List.range rest.length).map (fun j => seekConj z (pre ++ rest) (pre.length + j + 1)) =
        seekConjs z pre rest := by
  induction rest with
  | nil => intro pre; simp [seekConjs]
  | cons ob rest ih =>
    intro pre
    have hstep := ih (pre ++ [ob])
    simp only [List.length_cons, List.range_succ_eq_map, List.map_cons, List.map_map, seekConjs]
    congr 1
    · have hget : (pre ++ ob :: rest)[pre.length]? = some ob := by
        rw [List.getElem?_append_right (Nat.le_refl _)]
        simp
      simp only [seekConj, Nat.add_zero, Nat.add_sub_cancel, hget, List.take_left', Option.toList,
        List.map_cons, List.map_nil]
    · rw [← hstep]
      apply List.map_congr_left
      intro j _
      simp only [Function.comp, List.length_append, List.length_singleton, List.append_assoc,
        List.singleton_append]
      congr 1
      omega

theorem evalAll_append (atom : ExpNode → Bool) (nilv : Bool) (l1 l2 : List Exp) :
    Exp.evalAll atom nilv (l1 ++ l2) = (Exp.evalAll atom nilv l1 && Exp.evalAll atom nilv l2) := by
  induction l1 with
  | nil => simp [Exp.evalAll]
  | cons c cs ih => simp [Exp.evalAll, ih, Bool.and_assoc]

theorem eval_seekEquals (z : ExpNode) (row cur : Row) (nilv : Bool) (ob : OrderBy) (a b : Int)
    (hz : z.Left.Table ≠ "__cur") (ha : row ob.Col.Name = some a) (hb : cur ob.Col.Name = some b) :
    (seekEquals z ob).eval (atomSQL row cur) nilv = decide (a = b) := by
  simp [seekEquals, seekNode, Exp.eval, atomSQL, leftVal, rightVal, hz, ha, hb]

theorem eval_seekCompare (z : ExpNode) (row cur : Row) (nilv : Bool) (ob : OrderBy) (a b : Int)
    (hz : z.Left.Table ≠ "__cur") (ha : row ob.Col.Name = some a) (hb : cur ob.Col.Name = some b) :
    (seekCompare z ob).eval (atomSQL row cur) nilv =
      if ob.Order = .OrderDesc then decide (a < b) else decide (a > b) := by
  by_cases h : ob.Order = .OrderDesc <;>
    simp [seekCompare, seekNode, seekOp, Exp.eval, atomSQL, leftVal, rightVal, hz, ha, hb, h]

theorem eval_seekIsNull (z : ExpNode) (row cur : Row) (nilv : Bool) (ob : OrderBy) (b : Int)
    (hb : cur ob.Col.Name = some b) :
    (seekIsNull z ob).eval (atomSQL row cur) nilv = false := by
  simp [seekIsNull, Exp.eval, atomSQL, leftVal, hb]

theorem eval_or_node (atom : ExpNode → Bool) (nilv : Bool) (n : ExpNode) (cs : List Exp)
    (h : n.Op = .OpOr) : Exp.eval atom nilv (.node n cs) = Exp.evalAny atom nilv cs := by
  simp [Exp.eval, h]

theorem evalAny_seekConjs (z : ExpNode) (row cur : Row) (nilv : Bool)
    (hz : z.Left.Table ≠ "__cur") (obs : List OrderBy) :
    ∀ pre : List OrderBy,
      (∀ ob ∈ obs, ob.Order = .OrderAsc ∨ ob.Order = .OrderDesc) →
      (∀ ob ∈ obs, (row ob.Col.Name).isSome = true) →
      (∀ ob ∈ obs, (cur ob.Col.Name).isSome = true) →
      Exp.evalAny (atomSQL row cur) nilv (seekConjs z pre obs) =
        (Exp.evalAll (atomSQL row cur) nilv (pre.map (seekEquals z)) &&
          sortsAfter row cur obs) := by
  induction obs with
  | nil => intro pre _ _ _; simp [seekConjs, Exp.evalAny, sortsAfter]
  | cons ob rest ih =>
    intro pre hord hrow hcur
    obtain ⟨a, ha⟩ := Option.isSome_iff_exists.1 (hrow ob (List.mem_cons_self _ _))
    obtain ⟨b, hb⟩ := Option.isSome_iff_exists.1 (hcur ob (List.mem_cons_self _ _))
    have hrest := ih (pre ++ [ob]) (fun o ho => hord o (List.mem_cons_of_mem _ ho))
      (fun o ho => hrow o (List.mem_cons_of_mem _ ho))
      (fun o ho => hcur o (List.mem_cons_of_mem _ ho))
    have hdesc : ob.Order.isDesc = decide (ob.Order = .OrderDesc) := by
      rcases hord ob (List.mem_cons_self _ _) with h | h <;> simp [h, Order.isDesc]
    simp only [seekConjs, Exp.evalAny, hrest, eval_and_node, List.map_append, List.map_cons,
      List.map_nil, evalAll_append, Exp.evalAll, eval_seekCompare z row cur nilv ob a b hz ha hb,
      eval_seekEquals z row cur nilv ob a b hz ha hb, sortsAfter, ha, hb, hdesc, Bool.and_true]
    by_cases hab : a = b
    · subst hab
      cases Exp.evalAll (atomSQL row cur) nilv (List.map (seekEquals z) pre) <;>
        by_cases hd : ob.Order = .OrderDesc <;> simp [hd]
    · cases Exp.evalAll (atomSQL row cur) nilv (List.map (seekEquals z) pre) <;>
        by_cases hd : ob.Order = .OrderDesc <;> simp [hd, hab]

theorem sortsAfter_of_equal (row cur : Row) (obs : List OrderBy)
    (heq : ∀ ob ∈ obs, row ob.Col.Name = cur ob.Col.Name) : sortsAfter row cur obs = false := by
  induction obs with
  | nil => rfl
  | cons ob rest ih =>
    have h1 := heq ob (List.mem_cons_self _ _)
    have h2 := ih (fun o ho => heq o (List.mem_cons_of_mem _ ho))
    cases hb : cur ob.Col.Name with
    | none => simp [sortsAfter, h1, hb]
    | some b => simp [sortsAfter, h1, hb, h2]

/-- C6 (as stated, refuted): for the empty order-by list (whose entries are,
vacuously, each asc or desc) `addSeekPredicate` builds no predicate.  The
guard `if obLen != 0` of line 854 leaves the `or` pointer nil, the nil pointer
is handed to `setFilter`, and an empty where stays empty: the selector has no
filter, so no row is held back (a nil where is read as true), while no row
sorts strictly after the cursor row.  A where that was not empty gets the nil
pointer as a child. -/
theorem seek_predicate_empty_order_by :
    seekOr {} [] = .nil ∧
    (addSeekPredicate {} { Table := "t", OrderBy := [] }).Where.Exp = .nil ∧
    (addSeekPredicate {} { Table := "t", OrderBy := [] }).Where.Exp.eval (atomSQL rowAB curAB)
      true = true ∧
    sortsAfter rowAB curAB [] = false ∧
    (addSeekPredicate {} { Table := "t", OrderBy := [], Where := { Exp := relFilter } }).Where.Exp =
      .node { Op := .OpAnd } [.nil, relFilter] :=
  ⟨rfl, rfl, rfl, rfl, rfl⟩

/-- C6 (amended): the seek predicate is the lexicographic strict successor
test for every non-empty order-by list.  For an order-by list whose entries
are each asc or desc, and a row and a cursor row with non-null integer values
in the order-by columns: if the list is not empty, the `or` node that
`addSeekPredicate` merges into where holds on the row exactly when the row
sorts strictly after the cursor row, and in particular it does not hold when
the row equals the cursor row on all order-by columns; if the list is empty,
`addSeekPredicate` builds no predicate and hands the nil pointer to
`setFilter`.  (A new node is assumed not to name table `__cur` in its left
slot.) -/
theorem seek_predicate_strict_successor (z : ExpNode) (sel : Select) (row cur : Row)
    (nilv : Bool) (hz : z.Left.Table ≠ "__cur")
    (hord : ∀ ob ∈ sel.OrderBy, ob.Order = .OrderAsc ∨ ob.Order = .OrderDesc)
    (hrow : ∀ ob ∈ sel.OrderBy, (row ob.Col.Name).isSome = true)
    (hcur : ∀ ob ∈ sel.OrderBy, (cur ob.Col.Name).isSome = true) :
    (addSeekPredicate z sel).Where = setFilter z sel.Where (seekOr z sel.OrderBy) ∧
    (sel.OrderBy = [] → seekOr z sel.OrderBy = .nil) ∧
    (sel.OrderBy ≠ [] →
      (seekOr z sel.OrderBy).eval (atomSQL row cur) nilv = sortsAfter row cur sel.OrderBy ∧
      ((∀ ob ∈ sel.OrderBy, row ob.Col.Name = cur ob.Col.Name) →
        (seekOr z sel.OrderBy).eval (atomSQL row cur) nilv = false)) := by
  refine ⟨rfl, fun he => by rw [he]; rfl, fun hne => ?_⟩
  have key : (seekOr z sel.OrderBy).eval (atomSQL row cur) nilv =
      sortsAfter row cur sel.OrderBy := by
    cases hobs : sel.OrderBy with
    | nil => exact absurd hobs hne
    | cons c1 rest =>
      rw [hobs] at hord hrow hcur
      obtain ⟨a, ha⟩ := Option.isSome_iff_exists.1 (hrow c1 (List.mem_cons_self _ _))
      obtain ⟨b, hb⟩ := Option.isSome_iff_exists.1 (hcur c1 (List.mem_cons_self _ _))
      have hconj := seekConjs_eq_map z rest [c1]
      simp only [List.length_singleton, List.singleton_append] at hconj
      have hfun : (fun j => seekConj z (c1 :: rest) (j + 2)) =
          (fun j => seekConj z (c1 :: rest) (1 + j + 1)) := by
        funext j
        congr 1
        omega
      have hrest := evalAny_seekConjs z row cur nilv hz rest [c1]
        (fun o ho => hord o (List.mem_cons_of_mem _ ho))
        (fun o ho => hrow o (List.mem_cons_of_mem _ ho))
        (fun o ho => hcur o (List.mem_cons_of_mem _ ho))
      have hdesc : c1.Order.isDesc = decide (c1.Order = .OrderDesc) := by
        rcases hord c1 (List.mem_cons_self _ _) with h | h <;> simp [h, Order.isDesc]
      rw [seekOr_cons, hfun, hconj, eval_or_node _ _ _ _ rfl]
      simp only [Exp.evalAny, hrest, eval_seekIsNull z row cur nilv c1 b hb,
        eval_seekCompare z row cur nilv c1 a b hz ha hb, List.map_cons, List.map_nil, Exp.evalAll,
        eval_seekEquals z row cur nilv c1 a b hz ha hb, sortsAfter, ha, hb, hdesc, Bool.and_true,
        Bool.false_or]
      by_cases hab : a = b
      · subst hab
        by_cases hd : c1.Order = .OrderDesc <;> simp [hd]
      · by_cases hd : c1.Order = .OrderDesc <;> simp [hd, hab]
  exact ⟨key, fun heq => by rw [key]; exact sortsAfter_of_equal row cur _ heq⟩

/-- Witness for the amended C6: order by `a asc, b desc`, row `(1, 2)` against
cursor row `(1, 5)`: equal on `a`, smaller on the descending `b`, so the row
sorts after the cursor row and the predicate holds; on the cursor row itself
the predicate does not hold. -/
theorem seek_predicate_strict_successor_witness :
    (seekOr {} twoKeySelect.OrderBy).eval (atomSQL rowAB curAB) false =
      sortsAfter rowAB curAB twoKeySelect.OrderBy ∧
    sortsAfter rowAB curAB twoKeySelect.OrderBy = true ∧
    (seekOr {} twoKeySelect.OrderBy).eval (atomSQL curAB curAB) false = false :=
  ⟨((seek_predicate_strict_successor {} twoKeySelect rowAB curAB false (by decide) (by decide)
      (by decide) (by decide)).2.2 (by decide)).1,
    by decide,
    ((seek_predicate_strict_successor {} twoKeySelect curAB curAB false (by decide) (by decide)
      (by decide) (by decide)).2.2 (by decide)).2 (fun _ _ => rfl)⟩

/-- C7: for the descending orders `desc_nulls_first` and `desc_nulls_last` the
comparison generated in the seek predicate is greater-than, as for an
ascending order; only plain `desc` gives less-than. -/
theorem seek_compare_desc_nulls_is_greater :
    ((addSeekPredicate {}
        { OrderBy := [{ Col := { Name := "id" }, Order := .OrderDescNullsLast }] }).Where.Exp.children.map
      Exp.op?) = [some .OpIsNull, some .OpGreaterThan] ∧
    ((addSeekPredicate {}
        { OrderBy := [{ Col := { Name := "id" }, Order := .OrderDescNullsFirst }] }).Where.Exp.children.map
      Exp.op?) = [some .OpIsNull, some .OpGreaterThan] ∧
    ((addSeekPredicate {}
        { OrderBy := [{ Col := { Name := "id" }, Order := .OrderDesc }] }).Where.Exp.children.map
      Exp.op?) = [some .OpIsNull, some .OpLesserThan] ∧
    seekOp .OrderDescNullsFirst = .OpGreaterThan ∧ seekOp .OrderDescNullsLast = .OpGreaterThan := by
  decide

theorem contains_nil (sub : Exp) (h : Exp.Contains .nil sub) : sub = .nil := by
  generalize he : Exp.nil = e at h
  cases h with
  | root => rfl
  | child n cs c s hm hc => cases he

theorem contains_child (n : ExpNode) (cs : List Exp) (c : Exp) (h : c ∈ cs) :
    Exp.Contains (.node n cs) c :=
  Exp.Contains.child n cs c c h (Exp.Contains.root c)

theorem setFilter_wrap (z : ExpNode) (w : Filter) (ex : Exp) (n : ExpNode) (cs : List Exp)
    (hw : w.Exp = .node n cs) (hb : notBoolOp n.Op = true) :
    (setFilter z w ex).Exp = .node { z with Op := .OpAnd } [ex, .node n cs] := by
  simp [setFilter, hw, hb]

theorem setFilter_append (z : ExpNode) (w : Filter) (ex : Exp) (n : ExpNode) (cs : List Exp)
    (hw : w.Exp = .node n cs) (hb : notBoolOp n.Op = false) :
    (setFilter z w ex).Exp = .node n (cs ++ [ex]) := by
  simp [setFilter, hw, hb]

theorem contains_setFilter_new (z : ExpNode) (w : Filter) (ex : Exp) :
    Exp.Contains (setFilter z w ex).Exp ex := by
  cases hw : w.Exp with
  | nil =>
    simp only [setFilter, hw]
    exact Exp.Contains.root ex
  | node n cs =>
    cases hb : notBoolOp n.Op with
    | true =>
      rw [setFilter_wrap z w ex n cs hw hb]
      exact contains_child _ _ _ (by simp)
    | false =>
      rw [setFilter_append z w ex n cs hw hb]
      exact contains_child _ _ _ (by simp)

theorem setFilter_child_of_nonempty (z : ExpNode) (w : Filter) (ex : Exp) (hw : w.Exp ≠ .nil) :
    ∃ n cs, (setFilter z w ex).Exp = .node n cs ∧ ex ∈ cs := by
  cases he : w.Exp with
  | nil => exact absurd he hw
  | node n cs =>
    cases hb : notBoolOp n.Op with
    | true => exact ⟨_, _, setFilter_wrap z w ex n cs he hb, by simp⟩
    | false => exact ⟨_, _, setFilter_append z w ex n cs he hb, by simp⟩

theorem contains_setFilter_later (z : ExpNode) (w : Filter) (ex R : Exp) (hw : w.Exp ≠ .nil) :
    Exp.Contains (setFilter z (setFilter z w ex) R).Exp ex := by
  obtain ⟨n, cs, h1, hmem⟩ := setFilter_child_of_nonempty z w ex hw
  cases hb : notBoolOp n.Op with
  | true =>
    rw [setFilter_wrap z _ R n cs h1 hb]
    exact Exp.Contains.child _ _ (.node n cs) ex (by simp) (contains_child n cs ex hmem)
  | false =>
    rw [setFilter_append z _ R n cs h1 hb]
    exact contains_child _ _ _ (by simp [hmem])

/-- C8 (as stated, refuted): `users(first: 2)` sets the cursor flag and leaves
the paging type at offset; the cursor step then adds the tie-breaker to the
order-by list and does not touch where, which stays empty and so does not
contain the seek predicate of that list. -/
theorem cursor_flag_alone_adds_no_seek :
    compileArgFirstLast "postgres" { Table := "users" } firstTwo .OrderAsc = .ok firstOnlySelect ∧
    firstOnlySelect.Paging.Cursor = true ∧
    cursorStep {} idTieBreak firstOnlySelect =
      .ok { firstOnlySelect with
            OrderBy := [{ Col := { Name := "id" }, Order := .OrderAsc }] } ∧
    ¬ Exp.Contains
        ({ firstOnlySelect with
            OrderBy := [{ Col := { Name := "id" }, Order := .OrderAsc }] } : Select).Where.Exp
        (seekOr {} [{ Col := { Name := "id" }, Order := .OrderAsc }]) := by
  refine ⟨rfl, rfl, rfl, ?_⟩
  intro h
  have h1 := contains_nil _ h
  rw [seekOr_cons] at h1
  cases h1

/-- C8 (amended): for a selector whose cursor flag is set and whose tie-breaker
step succeeds with order-by list `obs`: if the paging type is forward or
backward, the cursor step merges the seek predicate of `obs` into where, the
where tree then contains that predicate, and it still contains it after any
later merge (such as the relationship filter) provided where was not empty
before the cursor step; if the paging type is offset, the step only replaces
the order-by list. -/
theorem cursorStep_seek_closure (z : ExpNode)
    (tie : Select → Except String (List OrderBy)) (sel : Select) (obs : List OrderBy)
    (hc : sel.Paging.Cursor = true) (ho : tie sel = .ok obs) :
    (sel.Paging.Type_ ≠ .PTOffset →
      cursorStep z tie sel =
        .ok { sel with OrderBy := obs, Where := setFilter z sel.Where (seekOr z obs) } ∧
      Exp.Contains (setFilter z sel.Where (seekOr z obs)).Exp (seekOr z obs) ∧
      (∀ R : Exp, sel.Where.Exp ≠ .nil →
        Exp.Contains (setFilter z (setFilter z sel.Where (seekOr z obs)) R).Exp (seekOr z obs))) ∧
    (sel.Paging.Type_ = .PTOffset → cursorStep z tie sel = .ok { sel with OrderBy := obs }) := by
  constructor
  · intro ht
    refine ⟨?_, contains_setFilter_new z sel.Where _, fun R hw =>
      contains_setFilter_later z sel.Where _ R hw⟩
    simp [cursorStep, hc, ho, ht, addSeekPredicate]
  · intro ht
    simp [cursorStep, hc, ho, ht]

/-- Witness for the amended C8: a forward-cursor selector ordered by `id`. -/
theorem cursorStep_seek_closure_witness :
    pagedSelect.Paging.Cursor = true ∧
    (fun s : Select => (Except.ok s.OrderBy : Except String (List OrderBy))) pagedSelect =
      .ok pagedSelect.OrderBy ∧
    pagedSelect.Paging.Type_ ≠ .PTOffset ∧
    Exp.Contains (setFilter {} pagedSelect.Where (seekOr {} pagedSelect.OrderBy)).Exp
      (seekOr {} pagedSelect.OrderBy) :=
  ⟨rfl, rfl, by decide,
    ((cursorStep_seek_closure {} (fun s => .ok s.OrderBy) pagedSelect pagedSelect.OrderBy rfl
      rfl).1 (by decide)).2.1⟩

/-- C9: the `error` argument also contributes a rule token.  The directive
`@constraint(variable: "x", min: 3, max: 10, required: true, error: "nope")`
packs to `min=3,max=10,required,error=nope~nope`, not to
`min=3,max=10,required~nope`; the rule tokens of the other arguments are in
argument order and the message trails after `~`. -/
theorem constraint_error_adds_rule_token (tyName : ParserType → String) :
    packedFor tyName constraintExample "x" = some "min=3,max=10,required,error=nope~nope" ∧
    packedFor tyName constraintExample "x" ≠ some "min=3,max=10,required~nope" ∧
    packedFor tyName constraintExampleEmail "name" =
      some "required,min=3,max=50,email,error=bad email~bad email" := by
  refine ⟨rfl, ?_, rfl⟩
  have h : packedFor tyName constraintExample "x" =
      some "min=3,max=10,required,error=nope~nope" := rfl
  rw [h]
  decide

/-- C10: the round trip of order keywords fails for `desc_nulls_first`, whose
`String()` is spelled `DESC NULLLS FIRST`.  The other five keywords round-trip,
and `toOrder` succeeds exactly on the six keywords. -/
theorem order_keyword_round_trip_breaks :
    toOrder "desc_nulls_first" = (.OrderDescNullsFirst, none) ∧
    (toOrder "desc_nulls_first").1.String = "DESC NULLLS FIRST" ∧
    orderKeywordUpper "desc_nulls_first" = "DESC NULLS FIRST" ∧
    (toOrder "desc_nulls_first").1.String ≠ orderKeywordUpper "desc_nulls_first" ∧
    (["asc", "desc", "asc_nulls_first", "asc_nulls_last", "desc_nulls_last"].all fun x =>
      decide ((toOrder x).2 = none ∧ (toOrder x).1.String = orderKeywordUpper x)) = true ∧
    (∀ x : String, (toOrder x).2 = none ↔ x ∈ orderKeywords) := by
  refine ⟨by decide, by decide, by decide, by decide, by decide, ?_⟩
  intro x
  simp only [toOrder, orderKeywords]
  split_ifs <;> simp_all

/-- Witness for C1: on the shared store, merging cell 3 into a filter rooted at
the leaf cell 0 allocates the `and` cell at address 4, and merging it into a
filter rooted at the `and` cell 2 appends to that cell. -/
theorem setFilter_merge_rule_witness :
    Mem.setFilter {} sharedStore (some 0) (some 3) =
      (sharedStore ++ [{ n := { Op := .OpAnd }, Children := [some 3, some 0] }], some 4) ∧
    Mem.setFilter {} sharedStore (some 2) (some 3) =
      (sharedStore.set 2 { n := { Op := .OpAnd }, Children := [some 0, some 1, some 3] },
        some 2) ∧
    (setFilter {} { Exp := relFilter } relFilter).Exp =
      .node { Op := .OpAnd } [relFilter, relFilter] :=
  ⟨(setFilter_merge_rule {} sharedStore (some 3)).2.1 0
      { n := { Op := .OpEquals, Left := { Col := { Name := "owner_id" } } }, Children := [] }
      rfl (by decide),
    (setFilter_merge_rule {} sharedStore (some 3)).2.2.1 2
      { n := { Op := .OpAnd }, Children := [some 0, some 1] } rfl (by decide),
    (setFilter_merge_rule {} sharedStore (some 3)).2.2.2.2.1 _ _ relFilter (by decide)⟩

theorem allSome_map_congr {α : Type} (ps : List Mem.Ptr) (f g : Mem.Ptr → Option α)
    (h : ∀ p ∈ ps, f p = g p) : allSome (ps.map f) = allSome (ps.map g) := by
  rw [List.map_congr_left h]

theorem allSome_append {α : Type} (l1 l2 : List (Option α)) (x1 x2 : List α)
    (h1 : allSome l1 = some x1) (h2 : allSome l2 = some x2) :
    allSome (l1 ++ l2) = some (x1 ++ x2) := by
  induction l1 generalizing x1 with
  | nil =>
    simp only [allSome, Option.some.injEq] at h1
    subst h1
    simpa using h2
  | cons o rest ih =>
    cases o with
    | none => simp [allSome] at h1
    | some v =>
      cases hr : allSome rest with
      | none => simp [allSome, hr] at h1
      | some xs =>
        simp only [allSome, hr, Option.some.injEq] at h1
        subst h1
        simp [allSome, ih xs hr]

theorem allSome_mem {α : Type} (l : List (Option α)) (xs : List α) (h : allSome l = some xs) :
    ∀ o ∈ l, ∃ x, o = some x := by
  induction l generalizing xs with
  | nil => intro o ho; cases ho
  | cons o rest ih =>
    cases o with
    | none => simp [allSome] at h
    | some v =>
      cases hr : allSome rest with
      | none => simp [allSome, hr] at h
      | some ys =>
        intro o ho
        rcases List.mem_cons.1 ho with h1 | h1
        · exact ⟨v, h1⟩
        · exact ih ys hr o h1

/-- A tree read with some fuel is read unchanged with more fuel. -/
theorem read_succ (h : Mem.Heap) (fuel : Nat) :
    ∀ (p : Mem.Ptr) (t : Exp), Mem.read h fuel p = some t → Mem.read h (fuel + 1) p = some t := by
  induction fuel with
  | zero => intro p t ht; simp [Mem.read] at ht
  | succ f ih =>
    intro p t ht
    cases p with
    | none => simpa [Mem.read] using ht
    | some a =>
      rw [Mem.read] at ht ⊢
      cases hc : h[a]? with
      | none => simp [hc] at ht
      | some c =>
        simp only [hc] at ht ⊢
        cases hs : allSome (c.Children.map (Mem.read h f)) with
        | none => simp [hs] at ht
        | some ts =>
          have hmem := allSome_mem _ _ hs
          have hcongr : allSome (c.Children.map (Mem.read h (f + 1))) =
              allSome (c.Children.map (Mem.read h f)) := by
            apply allSome_map_congr
            intro p hp
            obtain ⟨x, hx⟩ := hmem (Mem.read h f p) (List.mem_map_of_mem _ hp)
            rw [hx]
            exact ih p x hx
          rw [hcongr]
          simpa [hs] using ht

/-- A tree read from a store is read unchanged after an allocation. -/
theorem read_alloc (h : Mem.Heap) (c0 : Mem.Cell) (fuel : Nat) :
    ∀ (p : Mem.Ptr) (t : Exp), Mem.read h fuel p = some t →
      Mem.read (h ++ [c0]) fuel p = some t := by
  induction fuel with
  | zero => intro p t ht; simp [Mem.read] at ht
  | succ f ih =>
    intro p t ht
    cases p with
    | none => simpa [Mem.read] using ht
    | some a =>
      rw [Mem.read] at ht ⊢
      cases hc : h[a]? with
      | none => simp [hc] at ht
      | some c =>
        have hlt : a < h.length := by
          rcases Nat.lt_or_ge a h.length with hl | hl
          · exact hl
          · rw [List.getElem?_eq_none hl] at hc
            cases hc
        have hc2 : (h ++ [c0])[a]? = some c := by
          rw [List.getElem?_append_left hlt]
          exact hc
        simp only [hc, hc2] at ht ⊢
        cases hs : allSome (c.Children.map (Mem.read h f)) with
        | none => simp [hs] at ht
        | some ts =>
          have hmem := allSome_mem _ _ hs
          have hcongr : allSome (c.Children.map (Mem.read (h ++ [c0]) f)) =
              allSome (c.Children.map (Mem.read h f)) := by
            apply allSome_map_congr
            intro p hp
            obtain ⟨x, hx⟩ := hmem (Mem.read h f p) (List.mem_map_of_mem _ hp)
            rw [hx]
            exact ih p x hx
          rw [hcongr]
          simpa [hs] using ht

/-- Overwriting a cell that is not met from `p` leaves the tree of `p` as it
was. -/
theorem read_set_of_not_reaches (h : Mem.Heap) (a : Nat) (c0 : Mem.Cell) (fuel : Nat) :
    ∀ p : Mem.Ptr, Mem.reaches h a fuel p = false →
      Mem.read (h.set a c0) fuel p = Mem.read h fuel p := by
  induction fuel with
  | zero => intro p _; simp [Mem.read]
  | succ f ih =>
    intro p hr
    cases p with
    | none => simp [Mem.read]
    | some b =>
      rw [Mem.reaches] at hr
      simp only [Bool.or_eq_false_iff, beq_eq_false_iff_ne] at hr
      obtain ⟨hne, hch⟩ := hr
      have hget : (h.set a c0)[b]? = h[b]? := by
        rw [List.getElem?_set_ne (Ne.symm hne)]
      rw [Mem.read, Mem.read, hget]
      cases hc : h[b]? with
      | none => rfl
      | some c =>
        simp only [hc] at hch ⊢
        have hcongr : allSome (c.Children.map (Mem.read (h.set a c0) f)) =
            allSome (c.Children.map (Mem.read h f)) := by
          apply allSome_map_congr
          intro p hp
          apply ih
          rw [List.any_eq_false] at hch
          simpa using hch p hp
        rw [hcongr]

theorem mem_setFilter_wrap (z : ExpNode) (h : Mem.Heap) (a : Nat) (E : Mem.Cell) (N : Mem.Ptr)
    (ha : h[a]? = some E) (hb : notBoolOp E.n.Op = true) :
    Mem.setFilter z h (some a) N =
      (h ++ [{ n := { z with Op := .OpAnd }, Children := [N, some a] }], some h.length) := by
  simp [Mem.setFilter, ha, hb, Mem.newExpOp, Mem.setChildren]

theorem mem_setFilter_append (z : ExpNode) (h : Mem.Heap) (a : Nat) (E : Mem.Cell) (N : Mem.Ptr)
    (ha : h[a]? = some E) (hb : notBoolOp E.n.Op = false) :
    Mem.setFilter z h (some a) N =
      (h.set a { E with Children := E.Children ++ [N] }, some a) := by
  simp [Mem.setFilter, ha, hb, Mem.setChildren]

theorem readList_succ (h : Mem.Heap) (f : Nat) (ps : List Mem.Ptr) (ts : List Exp)
    (hs : allSome (ps.map (Mem.read h f)) = some ts) :
    allSome (ps.map (Mem.read h (f + 1))) = some ts := by
  have hmem := allSome_mem _ _ hs
  rw [← hs]
  apply allSome_map_congr
  intro p hp
  obtain ⟨x, hx⟩ := hmem (Mem.read h f p) (List.mem_map_of_mem _ hp)
  rw [hx]
  exact read_succ h f p x hx

/-- The tree view of `setFilter` is what the store view denotes: if the filter
root and the new expression denote trees `E` and `N`, and the root cell is met
neither from the new expression nor from its own children, then the new root
denotes `setFilter` of `E` and `N` in the store after the call. -/
theorem setFilter_refines (z : ExpNode) (h : Mem.Heap) (fuel : Nat) (fil ex : Mem.Ptr)
    (E N : Exp) (hE : Mem.read h fuel fil = some E) (hN : Mem.read h fuel ex = some N)
    (hsep : ∀ a c, fil = some a → h[a]? = some c →
      Mem.reaches h a fuel ex = false ∧ ∀ p ∈ c.Children, Mem.reaches h a fuel p = false) :
    Mem.read (Mem.setFilter z h fil ex).1 (fuel + 1) (Mem.setFilter z h fil ex).2 =
      some (setFilter z { Exp := E } N).Exp := by
  cases fuel with
  | zero => simp [Mem.read] at hE
  | succ f =>
    cases fil with
    | none =>
      simp only [Mem.read, Option.some.injEq] at hE
      subst hE
      simpa [Mem.setFilter, setFilter] using read_succ h (f + 1) ex N hN
    | some a =>
      rw [Mem.read] at hE
      cases hc : h[a]? with
      | none => simp [hc] at hE
      | some c =>
        simp only [hc] at hE
        cases hs : allSome (c.Children.map (Mem.read h f)) with
        | none => simp [hs] at hE
        | some ts =>
          simp only [hs, Option.some.injEq] at hE
          subst hE
          have hlt : a < h.length := by
            rcases Nat.lt_or_ge a h.length with hl | hl
            · exact hl
            · rw [List.getElem?_eq_none hl] at hc
              cases hc
          have hroot : Mem.read h (f + 1) (some a) = some (.node c.n ts) := by
            simp [Mem.read, hc, hs]
          cases hb : notBoolOp c.n.Op with
          | true =>
            rw [mem_setFilter_wrap z h a c ex hc hb]
            have h1 := read_alloc h { n := { z with Op := .OpAnd }, Children := [ex, some a] }
              (f + 1) ex N hN
            have h2 := read_alloc h { n := { z with Op := .OpAnd }, Children := [ex, some a] }
              (f + 1) (some a) _ hroot
            rw [Mem.read]
            simp [h1, h2, allSome, setFilter, hb]
          | false =>
            rw [mem_setFilter_append z h a c ex hc hb]
            obtain ⟨hsx, hsc⟩ := hsep a c rfl hc
            have hget : (h.set a { c with Children := c.Children ++ [ex] })[a]? =
                some { c with Children := c.Children ++ [ex] } := by
              simp [List.getElem?_set_self, hlt]
            have hkids : allSome (c.Children.map
                (Mem.read (h.set a { c with Children := c.Children ++ [ex] }) (f + 1))) =
                some ts := by
              rw [← readList_succ h f c.Children ts hs]
              apply allSome_map_congr
              intro p hp
              exact read_set_of_not_reaches h a _ (f + 1) p (hsc p hp)
            have hnew : Mem.read (h.set a { c with Children := c.Children ++ [ex] }) (f + 1) ex =
                some N := by
              rw [read_set_of_not_reaches h a _ (f + 1) ex hsx]
              exact hN
            have hall := allSome_append _ [Mem.read
              (h.set a { c with Children := c.Children ++ [ex] }) (f + 1) ex] ts [N] hkids
              (by simp [hnew, allSome])
            rw [Mem.read]
            simp only [hget, List.map_append, List.map_cons, List.map_nil, hall]
            simp [setFilter, hb]

/-- C11: a mutation whose root field carries none of insert, update, upsert,
delete is not rejected.  `Compile` builds the `QCode` with `SType = QTQuery`,
the argument loop leaves it there, and the final test compares with
`QTUnknown`, so `setMutationType` returns no error.  The same call on a
`QCode` whose `SType` is still the zero value does return the error. -/
theorem mutation_without_action_accepted :
    (compileInit (fun _ => .QTMutation) mutationNoAction).SType = .QTQuery ∧
    (∃ qc, setMutationType (compileInit (fun _ => .QTMutation) mutationNoAction)
        mutationNoAction = .ok qc ∧ qc.SType = .QTQuery) ∧
    (∃ e, setMutationType {} mutationNoAction = .error e ∧
      e = .error
        "mutations must contains one of the following arguments (insert, update, upsert or delete)") :=
  ⟨rfl, ⟨_, rfl, rfl⟩, ⟨_, rfl, rfl⟩⟩

/-- C12: the shape check accepts a list whose first child is not an object.
For `insert: [1, 2]` the value is accepted and recorded although the stated
rule rejects it; a string is rejected with the stated error; for the empty list
`insert: []` the check reads the first child of a list that has none. -/
theorem action_list_of_numbers_accepted :
    validAction insertNumbers = false ∧
    (∃ qc, setActionVar {} insertNumbers = .ok qc ∧ qc.ActionVar = "" ∧
      (qc.ActionArg.map fun a => a.Name) = some "insert") ∧
    (∃ e, setActionVar {} insertString = .error e ∧
      e = .error "value for argument 'insert' must be a variable, an object or a list of objects") ∧
    (∃ e, setActionVar {} insertEmpty = .error e ∧
      e = .crash "index out of range [0] with length 0") :=
  ⟨by decide, ⟨_, rfl, rfl, rfl⟩, ⟨_, rfl, rfl⟩, ⟨_, rfl, rfl⟩⟩

/-- C13 (as stated, refuted): the root field `users(insert: $a, update: $b)`
carries two action arguments with valid values, and `setMutationType` returns
no error; the sub-type recorded is that of the last one. -/
theorem two_actions_accepted :
    ∃ qc, setMutationType (compileInit (fun _ => .QTMutation) mutationTwoActions)
        mutationTwoActions = .ok qc ∧ qc.SType = .QTUpdate ∧ qc.ActionVar = "b" :=
  ⟨_, rfl, rfl, rfl⟩

theorem setActionVar_of_valid (qc : QCode) (arg : Arg) (hd : arg.Name ≠ "delete")
    (hv : validAction arg = true) :
    setActionVar qc arg = .ok { qc with ActionVar := arg.Val.Val, ActionArg := some arg } := by
  simp only [validAction, hd, if_false, Bool.or_eq_true, Bool.and_eq_true, beq_iff_eq] at hv
  rcases hv with (h | h) | ⟨h, hc⟩
  · simp [setActionVar, h]
  · simp [setActionVar, h]
  · cases hch : arg.Val.Children with
    | nil => simp [hch] at hc
    | cons c cs => simp [setActionVar, actionListCheck, h, hch]

theorem setMutationArg_of_valid (qc : QCode) (arg : Arg)
    (hv : isActionName arg.Name = true → validAction arg = true) :
    ∃ qc1, setMutationArg qc arg = .ok qc1 ∧
      qc1.SType = if isActionName arg.Name = true then actionType arg.Name else qc.SType := by
  by_cases h1 : arg.Name = "insert"
  · have hv1 := hv (by simp [isActionName, h1])
    refine ⟨{ qc with SType := .QTInsert, ActionVar := arg.Val.Val, ActionArg := some arg }, ?_, ?_⟩
    · rw [setMutationArg, if_pos h1]
      exact setActionVar_of_valid _ arg (by rw [h1]; decide) hv1
    · simp [isActionName, actionType, h1]
  by_cases h2 : arg.Name = "update"
  · have hv1 := hv (by simp [isActionName, h2])
    refine ⟨{ qc with SType := .QTUpdate, ActionVar := arg.Val.Val, ActionArg := some arg }, ?_, ?_⟩
    · rw [setMutationArg, if_neg h1, if_pos h2]
      exact setActionVar_of_valid _ arg (by rw [h2]; decide) hv1
    · simp [isActionName, actionType, h2]
  by_cases h3 : arg.Name = "upsert"
  · have hv1 := hv (by simp [isActionName, h3])
    refine ⟨{ qc with SType := .QTUpsert, ActionVar := arg.Val.Val, ActionArg := some arg }, ?_, ?_⟩
    · rw [setMutationArg, if_neg h1, if_neg h2, if_pos h3]
      exact setActionVar_of_valid _ arg (by rw [h3]; decide) hv1
    · simp [isActionName, actionType, h3]
  by_cases h4 : arg.Name = "delete"
  · have hv1 := hv (by simp [isActionName, h4])
    simp only [validAction, h4, if_true, Bool.and_eq_true, beq_iff_eq] at hv1
    refine ⟨{ qc with SType := .QTDelete }, ?_, ?_⟩
    · simp [setMutationArg, h4, ifNotArg, ifNotArgVal, hv1.1, hv1.2]
    · simp [isActionName, actionType, h4]
  · exact ⟨qc, by simp [setMutationArg, h1, h2, h3, h4], by simp [isActionName, h1, h2, h3, h4]⟩

theorem setMutationArgs_of_valid (args : List Arg) :
    ∀ qc : QCode, (∀ a ∈ args, isActionName a.Name = true → validAction a = true) →
      ∃ qc1, setMutationArgs qc args = .ok qc1 ∧
        qc1.SType = (lastAction args).getD qc.SType := by
  induction args with
  | nil => intro qc _; exact ⟨qc, rfl, rfl⟩
  | cons arg rest ih =>
    intro qc hv
    obtain ⟨qc1, h1, hs1⟩ := setMutationArg_of_valid qc arg (hv arg (List.mem_cons_self _ _))
    obtain ⟨qc2, h2, hs2⟩ := ih qc1 (fun a ha => hv a (List.mem_cons_of_mem _ ha))
    refine ⟨qc2, by simp [setMutationArgs, h1, h2], ?_⟩
    rw [hs2, hs1]
    cases hl : lastAction rest with
    | some t => simp [lastAction, hl]
    | none =>
      by_cases ha : isActionName arg.Name = true <;> simp [lastAction, hl, ha]

theorem actionType_ne_unknown (name : String) (h : isActionName name = true) :
    actionType name ≠ .QTUnknown := by
  simp only [isActionName, Bool.or_eq_true, beq_iff_eq] at h
  rcases h with ((h | h) | h) | h <;> subst h <;> decide

theorem lastAction_ne_unknown (args : List Arg) :
    ∀ t, lastAction args = some t → t ≠ .QTUnknown := by
  induction args with
  | nil => intro t h; simp [lastAction] at h
  | cons arg rest ih =>
    intro t h
    cases hl : lastAction rest with
    | some u =>
      simp only [lastAction, hl, Option.some.injEq] at h
      subst h
      exact ih u hl
    | none =>
      by_cases ha : isActionName arg.Name = true
      · simp only [lastAction, hl, ha, if_true, Option.some.injEq] at h
        subst h
        exact actionType_ne_unknown _ ha
      · simp [lastAction, hl, ha] at h

/-- C13 (amended): for every root field carrying one, two or more of insert,
update, upsert, delete, each with a valid value, `setMutationType` returns no
error, and the sub-type it records is that of the last action argument. -/
theorem setMutationType_accepts_many (qc : QCode) (op : Operation) (f : GField)
    (rest : List GField) (t : QType) (hf : op.Fields = f :: rest)
    (hv : ∀ a ∈ f.Args, isActionName a.Name = true → validAction a = true)
    (hl : lastAction f.Args = some t) :
    ∃ qc1, setMutationType qc op = .ok qc1 ∧ qc1.SType = t := by
  obtain ⟨qc1, h1, hs1⟩ := setMutationArgs_of_valid f.Args qc hv
  have hs : qc1.SType = t := by simp [hs1, hl]
  have hne : qc1.SType ≠ .QTUnknown := by
    rw [hs]
    exact lastAction_ne_unknown f.Args t hl
  exact ⟨qc1, by simp [setMutationType, hf, h1, hne], hs⟩

/-- Witness for the amended C13: `users(insert: $a, update: $b)`. -/
theorem setMutationType_accepts_many_witness :
    ∃ qc1, setMutationType {} mutationTwoActions = .ok qc1 ∧ qc1.SType = .QTUpdate :=
  setMutationType_accepts_many {} mutationTwoActions
    { ID := 0, Name := "users"
      Args := [{ Name := "insert", Val := .mk .NodeVar "" "a" [] },
               { Name := "update", Val := .mk .NodeVar "" "b" [] }] }
    [] .QTUpdate rfl (by decide) (by decide)

/-- C17 (as stated, refuted): for a blocked insert by role `anon` on field
`users` the error text is `Insert blocked: users (role: anon)`; the sub-type is
spelled with a capital, so the text does not contain `insert blocked`. -/
theorem blocked_insert_error_capitalised :
    setSelectorRoleConfig blockedRole "anon" "users" { SType := .QTInsert } {} =
      .error "Insert blocked: users (role: anon)" ∧
    ¬ ("insert blocked".data <:+: "Insert blocked: users (role: anon)".data) := by
  constructor
  · rfl
  · decide

theorem infix_mid (a b c : String) : b.data <:+: (a ++ b ++ c).data :=
  ⟨a.data, c.data, by simp [String.data_append]⟩

/-- C17 (amended): for every role, field and mutation sub-type (insert,
update, upsert, delete) that the role configuration blocks,
`setSelectorRoleConfig` returns the error
`<Sub-type> blocked: <field> (role: <role>)`, where the sub-type is spelled
`Insert`, `Update`, `Upsert` or `Delete`: the text contains the capitalised
sub-type followed by ` blocked`, and the role name. -/
theorem blocked_mutation_error (tr : trval) (role fieldName : String) (qc : QCode)
    (sel : Select) (hb : tr.isBlocked qc.SType = true)
    (hs : qc.SType = .QTInsert ∨ qc.SType = .QTUpdate ∨ qc.SType = .QTUpsert ∨
      qc.SType = .QTDelete) :
    setSelectorRoleConfig tr role fieldName qc sel =
      .error (qc.SType.String ++ " blocked: " ++ fieldName ++ " (role: " ++ role ++ ")") ∧
    (qc.SType.String ++ " blocked").data <:+:
      (qc.SType.String ++ " blocked: " ++ fieldName ++ " (role: " ++ role ++ ")").data ∧
    role.data <:+:
      (qc.SType.String ++ " blocked: " ++ fieldName ++ " (role: " ++ role ++ ")").data ∧
    qc.SType.String ∈ ["Insert", "Update", "Upsert", "Delete"] := by
  have hq : qc.SType ≠ .QTQuery := by
    rcases hs with h | h | h | h <;> rw [h] <;> decide
  refine ⟨by simp [setSelectorRoleConfig, hb, hq], ?_, ?_, ?_⟩
  · refine ⟨[], (": " ++ fieldName ++ " (role: " ++ role ++ ")").data, ?_⟩
    simp [String.data_append]
  · exact infix_mid (qc.SType.String ++ " blocked: " ++ fieldName ++ " (role: ") role ")"
  · rcases hs with h | h | h | h <;> rw [h] <;> decide

/-- Witness for the amended C17: a blocked insert by role `anon`. -/
theorem blocked_mutation_error_witness :
    setSelectorRoleConfig blockedRole "anon" "users" { SType := .QTInsert } {} =
      .error ("Insert" ++ " blocked: " ++ "users" ++ " (role: " ++ "anon" ++ ")") :=
  (blocked_mutation_error blockedRole "anon" "users" { SType := .QTInsert } {} rfl
    (Or.inl rfl)).1

/-- C18: for a `@skip` or `@include` directive whose first argument is
`if_role` (or `ifRole`): with a string value `v`, `compileSkipInclude` returns
no error and reports drop exactly when (skip and `v` is the caller role) or
(include and `v` is not the caller role), leaving selector and filter as they
were; the selector-level wrapper then sets `SkipRender = SkipTypeDrop` on the
selector and the field-level wrapper on the field exactly when drop is
reported; with a value that is not a string the result is the error
`value for argument '<name>' must be a string`. -/
theorem if_role_drop_rule (z : ExpNode) (cao : ArgObjCompiler) (skip : Bool) (sel : Select)
    (selID : Int) (fil : Filter) (f : Field) (d : Directive) (arg : Arg) (rest : List Arg)
    (role : String) (hd : d.Args = arg :: rest)
    (hn : arg.Name = "if_role" ∨ arg.Name = "ifRole") :
    (arg.Val.Type_ = .NodeStr →
      compileSkipInclude z cao skip sel selID fil d role =
        .ok (sel, fil,
          decide ((skip = true ∧ arg.Val.Val = role) ∨ (skip = false ∧ arg.Val.Val ≠ role))) ∧
      (∃ sel1, compileSelectDirectiveSkipInclude z cao skip sel d role = .ok sel1 ∧
        sel1.SkipRender =
          if (skip = true ∧ arg.Val.Val = role) ∨ (skip = false ∧ arg.Val.Val ≠ role) then
            .SkipTypeDrop
          else sel.SkipRender) ∧
      (∃ sel1 f1, compileFieldDirectiveSkipInclude z cao skip sel f d role = .ok (sel1, f1) ∧
        f1.SkipRender =
          if (skip = true ∧ arg.Val.Val = role) ∨ (skip = false ∧ arg.Val.Val ≠ role) then
            .SkipTypeDrop
          else f.SkipRender)) ∧
    (arg.Val.Type_ ≠ .NodeStr →
      compileSkipInclude z cao skip sel selID fil d role = .error (argErr arg.Name "string")) := by
  have hif : arg.Name ≠ "if" := by
    rcases hn with h | h <;> rw [h] <;> decide
  have hlen : ¬ d.Args.length = 0 := by simp [hd]
  have key : ∀ (s : Select) (i : Int) (fl : Filter), arg.Val.Type_ = .NodeStr →
      compileSkipInclude z cao skip s i fl d role =
        .ok (s, fl,
          decide ((skip = true ∧ arg.Val.Val = role) ∨ (skip = false ∧ arg.Val.Val ≠ role))) := by
    intro s i fl ht
    simp only [compileSkipInclude, hlen, if_false, hd, compileSkipIncludeArgs, hif, hn, if_true,
      ifArg, ht, beq_self_eq_true]
    cases skip <;> by_cases hv : arg.Val.Val = role <;> simp [hv, bne]
  constructor
  · intro ht
    refine ⟨key sel selID fil ht, ?_, ?_⟩
    · simp only [compileSelectDirectiveSkipInclude, key sel (-1) sel.Where ht]
      by_cases hdrop : (skip = true ∧ arg.Val.Val = role) ∨ (skip = false ∧ arg.Val.Val ≠ role)
      · exact ⟨_, by simp only [hdrop, decide_True, if_true]; rfl, by simp [hdrop]⟩
      · exact ⟨_, by simp only [hdrop, decide_False]; rfl, by simp [hdrop]⟩
    · simp only [compileFieldDirectiveSkipInclude, key sel _ f.FieldFilter ht]
      by_cases hdrop : (skip = true ∧ arg.Val.Val = role) ∨ (skip = false ∧ arg.Val.Val ≠ role)
      · exact ⟨_, _, by simp only [hdrop, decide_True, if_true]; rfl, by simp [hdrop]⟩
      · exact ⟨_, _, by simp only [hdrop, decide_False]; rfl, by simp [hdrop]⟩
  · intro ht
    have hb : (arg.Val.Type_ == ParserType.NodeStr) = false := by simpa using ht
    simp only [compileSkipInclude, hlen, if_false, hd, compileSkipIncludeArgs, hif, hn, if_true,
      ifArg, hb]
    simp

/-- Witness for C18: `@skip(if_role: "anon")` for the caller role `anon`
reports drop. -/
theorem if_role_drop_rule_witness :
    compileSkipInclude {} idEqualsOne true usersSelect (-1) {} skipAnon "anon" =
      .ok (usersSelect, {},
        decide ((true = true ∧ "anon" = "anon") ∨ (true = false ∧ "anon" ≠ "anon"))) :=
  ((if_role_drop_rule {} idEqualsOne true usersSelect (-1) {} {} skipAnon
    { Name := "if_role", Val := .mk .NodeStr "" "anon" [] } [] "anon" rfl (Or.inl rfl)).1 rfl).1

/-- C19: with a filter that already holds an expression, `@skip(if: {...})`
does not put the compiled expression under the `not` node.  After
`@include(if: $a)` the filter is a leaf; `@skip(if: { id: { eq: 1 } })` then
leaves an `and` node whose children are an empty `not` node, the earlier leaf
and the compiled expression itself, so the expression is conjoined unnegated.
On an empty filter the result is the `not` node with the expression as its
only child. -/
theorem skip_filter_not_wrapped :
    afterInclude.Exp.op? = some .OpEqualsTrue ∧
    (∃ r, compileSkipIncludeFilter {} idEqualsOne true {} (-1) afterInclude ifObjArg "user" =
        .ok r ∧
      r.2.Exp.op? = some .OpAnd ∧
      r.2.childOps = [some .OpNot, some .OpEqualsTrue, some .OpEquals] ∧
      r.2.childSizes = [0, 0, 0]) ∧
    (∃ r, compileSkipIncludeFilter {} idEqualsOne true {} (-1) {} ifObjArg "user" = .ok r ∧
      r.2.Exp.op? = some .OpNot ∧ r.2.childOps = [some .OpEquals]) :=
  ⟨rfl, ⟨_, rfl, rfl, rfl, rfl⟩, ⟨_, rfl, rfl, rfl⟩⟩

/-- C20: `compileArgID` fails exactly when the selector is not a root, or the
value is not a number, string or variable, or the table has no primary-key
column, or a number literal does not parse as a base-10 signed 32-bit integer;
when it succeeds the selector is singular and its where is the equality of the
primary-key column with the value, tagged number, string or variable according
to the kind of the value, and nothing else of the selector changes. -/
theorem compileArgID_rule (z : ExpNode) (sel : Select) (arg : Arg) :
    ((∃ e, compileArgID z sel arg = .error e) ↔
      (sel.ParentID ≠ -1 ∨
        (arg.Val.Type_ ≠ .NodeNum ∧ arg.Val.Type_ ≠ .NodeStr ∧ arg.Val.Type_ ≠ .NodeVar) ∨
        sel.Ti.PrimaryCol.Name = "" ∨
        (arg.Val.Type_ = .NodeNum ∧ parseInt32 arg.Val.Val = none))) ∧
    (∀ sel1, compileArgID z sel arg = .ok sel1 →
      sel1 =
        { sel with
          Singular := true
          Where :=
            { Exp :=
                .node
                  { z with
                    Op := .OpEquals
                    Left := { z.Left with Col := sel.Ti.PrimaryCol }
                    Right :=
                      { z.Right with ValType := idValType arg.Val.Type_, Val := arg.Val.Val } }
                  [] } }) := by
  by_cases h1 : sel.ParentID ≠ -1
  · simp [compileArgID, h1]
  by_cases h3 : sel.Ti.PrimaryCol.Name = ""
  · cases ht : arg.Val.Type_ <;> simp [compileArgID, h1, h3, ht]
  cases ht : arg.Val.Type_
  case neg.NodeNum =>
    cases hp : parseInt32 arg.Val.Val with
    | none => simp [compileArgID, h1, h3, ht, hp]
    | some v =>
      simp only [compileArgID, h1, h3, ht, hp, idValType]
      simp
  case neg.NodeStr =>
    simp only [compileArgID, h1, h3, ht, idValType]
    simp
  case neg.NodeVar =>
    simp only [compileArgID, h1, h3, ht, idValType]
    simp
  all_goals simp [compileArgID, h1, h3, ht]

/-- Witness for C20: `users(id: 5)` on a root selector whose table has the
primary key `id`. -/
theorem compileArgID_rule_witness :
    ∃ sel1, compileArgID {} usersSelect idFive = .ok sel1 ∧
      sel1 =
        { usersSelect with
          Singular := true
          Where :=
            { Exp :=
                .node
                  { Op := .OpEquals
                    Left := { Col := { Name := "id", Table := "users" } }
                    Right := { ValType := .ValNum, Val := "5" } }
                  [] } } :=
  ⟨_, rfl, (compileArgID_rule {} usersSelect idFive).2 _ rfl⟩

theorem compileSelectorDirectives1_head (dirs : List Directive) :
    ∀ sel sel1 : Select, compileSelectorDirectives1 sel dirs = .ok sel1 →
      sel1.head = sel.head := by
  induction dirs with
  | nil =>
    intro sel sel1 h
    simp only [compileSelectorDirectives1, Except.ok.injEq] at h
    rw [h]
  | cons d rest ih =>
    intro sel sel1 h
    have step : ∀ s2 : Select, s2.head = sel.head →
        compileSelectorDirectives1 s2 rest = .ok sel1 → sel1.head = sel.head :=
      fun s2 h2 h3 => (ih s2 sel1 h3).trans h2
    simp only [compileSelectorDirectives1] at h
    split at h
    · cases h
    · rename_i sel2 hr
      refine step sel2 ?_ h
      split_ifs at hr
      · simp only [compileDirectiveSchema] at hr
        split at hr
        · cases hr
        · split_ifs at hr
          simp only [Except.ok.injEq] at hr
          rw [← hr]
          rfl
      · simp only [compileDirectiveNotRelated, Except.ok.injEq] at hr
        rw [← hr]
        rfl
      · simp only [compileDirectiveThrough] at hr
        split at hr
        · cases hr
        · split_ifs at hr <;> simp only [Except.ok.injEq] at hr <;> rw [← hr] <;> rfl
      · simp only [Except.ok.injEq] at hr
        rw [hr]

theorem compileAndSetFilter_head (z : ExpNode) (cao : ArgObjCompiler) (sel : Select)
    (selID : Int) (fil : Filter) (arg : Arg) (role : String) (r : Select × Filter)
    (h : compileAndSetFilter z cao sel selID fil arg role = .ok r) : r.1.head = sel.head := by
  simp only [compileAndSetFilter] at h
  split at h
  · cases h
  · simp only [Except.ok.injEq] at h
    rw [← h]
    split_ifs <;> rfl

theorem compileSkipIncludeFilter_head (z : ExpNode) (cao : ArgObjCompiler) (skip : Bool)
    (sel : Select) (selID : Int) (fil : Filter) (arg : Arg) (role : String)
    (r : Select × Filter)
    (h : compileSkipIncludeFilter z cao skip sel selID fil arg role = .ok r) :
    r.1.head = sel.head := by
  simp only [compileSkipIncludeFilter] at h
  split_ifs at h
  all_goals first
    | exact compileAndSetFilter_head z cao sel selID _ arg role r h
    | (simp only [Except.ok.injEq] at h
       rw [← h])

theorem compileSkipIncludeArgs_head (z : ExpNode) (cao : ArgObjCompiler) (skip : Bool)
    (selID : Int) (role : String) (args : List Arg) :
    ∀ (sel : Select) (fil : Filter) (r : Select × Filter × Bool),
      compileSkipIncludeArgs z cao skip selID role sel fil args = .ok r →
      r.1.head = sel.head := by
  induction args with
  | nil =>
    intro sel fil r h
    simp only [compileSkipIncludeArgs, Except.ok.injEq] at h
    rw [← h]
  | cons arg rest ih =>
    intro sel fil r h
    simp only [compileSkipIncludeArgs] at h
    split_ifs at h
    · split at h
      · cases h
      · rename_i r1 h1
        exact (ih r1.1 r1.2 r h).trans
          (compileSkipIncludeFilter_head z cao skip sel selID fil arg role r1 h1)
    · simp only [Except.ok.injEq] at h
      rw [← h]

theorem compileSelectDirectiveSkipInclude_head (z : ExpNode) (cao : ArgObjCompiler)
    (skip : Bool) (sel : Select) (d : Directive) (role : String) (sel1 : Select)
    (h : compileSelectDirectiveSkipInclude z cao skip sel d role = .ok sel1) :
    sel1.head = sel.head := by
  simp only [compileSelectDirectiveSkipInclude, compileSkipInclude] at h
  split at h
  · cases h
  · rename_i r hr
    split_ifs at hr
    have h1 := compileSkipIncludeArgs_head z cao skip (-1) role d.Args sel sel.Where r hr
    split_ifs at h <;> simp only [Except.ok.injEq] at h <;> rw [← h] <;> exact h1

theorem compileSelectorDirectives2_head (z : ExpNode) (cao : ArgObjCompiler) (role : String)
    (dirs : List Directive) :
    ∀ sel sel1 : Select, compileSelectorDirectives2 z cao role sel dirs = .ok sel1 →
      sel1.head = sel.head := by
  induction dirs with
  | nil =>
    intro sel sel1 h
    simp only [compileSelectorDirectives2, Except.ok.injEq] at h
    rw [h]
  | cons d rest ih =>
    intro sel sel1 h
    simp only [compileSelectorDirectives2] at h
    split at h
    · cases h
    · rename_i sel2 hr
      refine (ih sel2 sel1 h).trans ?_
      split_ifs at hr
      · simp only [Except.ok.injEq] at hr
        rw [hr]
      · exact compileSelectDirectiveSkipInclude_head z cao true sel d role sel2 hr
      · exact compileSelectDirectiveSkipInclude_head z cao false sel d role sel2 hr
      · simp only [Except.ok.injEq] at hr
        rw [← hr]
        rfl

theorem setSelectorRoleConfig_head (tr : trval) (role fieldName : String) (qc : QCode)
    (sel sel1 : Select) (h : setSelectorRoleConfig tr role fieldName qc sel = .ok sel1) :
    sel1.head = sel.head := by
  simp only [setSelectorRoleConfig] at h
  split_ifs at h <;> simp only [Except.ok.injEq] at h <;> rw [← h] <;> rfl

theorem setLimit_head (dl : Int) (tr : trval) (qc : QCode) (sel : Select) :
    (setLimit dl tr qc sel).head = sel.head := by
  simp only [setLimit]
  split_ifs <;> rfl

theorem roleFilterStep_head (z : ExpNode) (qc : QCode) (sel : Select) (tr : trval)
    (role : String) : (roleFilterStep z qc sel tr role).head = sel.head := by
  simp only [roleFilterStep]
  split_ifs <;> rfl

theorem cursorStep_head (z : ExpNode) (tie : Select → Except String (List OrderBy))
    (sel sel1 : Select) (h : cursorStep z tie sel = .ok sel1) : sel1.head = sel.head := by
  simp only [cursorStep] at h
  by_cases hc : sel.Paging.Cursor = true
  · cases ht : tie sel with
    | error e => simp [hc, ht] at h
    | ok obs =>
      by_cases hp : sel.Paging.Type_ = .PTOffset
      · simp [hc, ht, hp] at h
        rw [← h]
        rfl
      · simp [hc, ht, hp] at h
        rw [← h]
        rfl
  · simp [hc] at h
    rw [h]

theorem heads_set_children (qc : QCode) (i : Nat) (psel : Select) (cs : List Int)
    (h : qc.Selects[i]? = some psel) :
    ({ qc with Selects := qc.Selects.set i { psel with Children := cs } } : QCode).heads =
      qc.heads := by
  simp only [QCode.heads, List.map_set]
  apply List.ext_getElem?
  intro j
  by_cases hj : i = j
  · subst hj
    have hlt : i < qc.Selects.length := by
      rcases Nat.lt_or_ge i qc.Selects.length with hl | hl
      · exact hl
      · rw [List.getElem?_eq_none hl] at h
        cases h
    rw [List.getElem?_set_self (by simpa using hlt), List.getElem?_map, h]
    rfl
  · rw [List.getElem?_set_ne hj]

theorem addRelInfoHead_frame (op : Operation) (qc : QCode) (sel : Select) (field : GField)
    (qc1 : QCode) (h : addRelInfoHead op qc sel field = .ok qc1) :
    qc1.heads = qc.heads ∧
      ((sel.ParentID = -1 ∧ qc1.Roots = qc.Roots ++ [sel.ID]) ∨
        (sel.ParentID ≠ -1 ∧ 0 ≤ sel.ParentID ∧ sel.ParentID.toNat < qc.Selects.length ∧
          qc1.Roots = qc.Roots)) := by
  simp only [addRelInfoHead] at h
  by_cases hp : sel.ParentID = -1
  · simp only [hp, if_true, Except.ok.injEq] at h
    rw [← h]
    exact ⟨rfl, Or.inl ⟨hp, rfl⟩⟩
  · simp only [hp, if_false] at h
    by_cases hneg : sel.ParentID < 0
    · simp [hneg] at h
    · simp only [hneg, if_false] at h
      cases hps : qc.Selects[sel.ParentID.toNat]? with
      | none => simp [hps] at h
      | some psel =>
        simp only [hps] at h
        by_cases hfn : field.ParentID < 0
        · simp [hfn] at h
        · simp only [hfn, if_false] at h
          cases hpf : op.Fields[field.ParentID.toNat]? with
          | none => simp [hpf] at h
          | some pf =>
            simp only [hpf, Except.ok.injEq] at h
            have hlt : sel.ParentID.toNat < qc.Selects.length := by
              rcases Nat.lt_or_ge sel.ParentID.toNat qc.Selects.length with hl | hl
              · exact hl
              · rw [List.getElem?_eq_none hl] at hps
                cases hps
            rw [← h]
            exact ⟨heads_set_children qc _ psel _ hps, Or.inr ⟨hp, by omega, hlt, rfl⟩⟩

/-- What the first stage of the loop body does to the selector sequence: the
new selector has the given id and parent id; a root is appended to the root
list; for any other selector the parent id is the index of a stored selector. -/
theorem selectorStage1_frame (env : Env) (hf : env.Frame) (op : Operation) (qc : QCode)
    (id : Nat) (pid : Int) (f0 : GField) (r : GField × QCode × Select)
    (h : selectorStage1 env op qc id pid f0 = .ok r) :
    r.2.2.head = ((id : Int), pid) ∧ r.2.1.heads = qc.heads ∧
      ((pid = -1 ∧ r.2.1.Roots = qc.Roots ++ [(id : Int)]) ∨
        (pid ≠ -1 ∧ 0 ≤ pid ∧ pid.toNat < qc.Selects.length ∧ r.2.1.Roots = qc.Roots)) := by
  simp only [selectorStage1] at h
  split at h
  · cases h
  · rename_i sel1 h1
    have hd1 := compileSelectorDirectives1_head _ _ _ h1
    have hid : sel1.ID = id := congrArg Prod.fst hd1
    have hpid : sel1.ParentID = pid := congrArg Prod.snd hd1
    split at h
    · cases h
    · rename_i qc1 h2
      split at h
      · cases h
      · rename_i r3 h3
        simp only [Except.ok.injEq] at h
        obtain ⟨hh, hr, hhs⟩ := hf.relInfo _ _ _ _ r3.1 r3.2 h3
        obtain ⟨g1, g2⟩ := addRelInfoHead_frame _ _ _ _ _ h2
        rw [hid, hpid] at g2
        rw [← h]
        refine ⟨hh.trans hd1, hhs.trans g1, ?_⟩
        rcases g2 with ⟨hp, hr2⟩ | ⟨hp, h0, hlt, hr2⟩
        · exact Or.inl ⟨hp, hr.trans hr2⟩
        · exact Or.inr ⟨hp, h0, hlt, hr.trans hr2⟩

theorem selectorStage2_frame (env : Env) (hf : env.Frame) (op : Operation) (role : String)
    (st : List Nat) (qc : QCode) (sel : Select) (field : GField)
    (r : trval × List Nat × QCode × Select)
    (h : selectorStage2 env op role st qc sel field = .ok r) :
    r.2.2.2.head = sel.head ∧ r.2.2.1.Roots = qc.Roots ∧ r.2.2.1.heads = qc.heads := by
  simp only [selectorStage2] at h
  split at h
  · cases h
  · rename_i sel1 h1
    split at h
    · cases h
    · rename_i sel2 h2
      split at h
      · cases h
      · rename_i sel3 h3
        split at h
        · cases h
        · rename_i r4 h4
          simp only [Except.ok.injEq] at h
          obtain ⟨hh, hr, hhs⟩ := hf.compileFields _ _ _ _ _ _ _ r4.1 r4.2.1 r4.2.2 h4
          rw [← h]
          refine ⟨?_, hr, hhs⟩
          simp only
          rw [hh, hf.compileArgs _ _ _ _ h3, setLimit_head,
            setSelectorRoleConfig_head _ _ _ _ _ _ h2,
            compileSelectorDirectives2_head _ _ _ _ _ _ h1]

theorem selectorStage3_frame (env : Env) (hf : env.Frame) (role : String) (qc : QCode)
    (sel : Select) (tr : trval) (sel1 : Select)
    (h : selectorStage3 env role qc sel tr = .ok sel1) : sel1.head = sel.head := by
  simp only [selectorStage3] at h
  split at h
  · cases h
  · rename_i s1 h1
    split at h
    · cases h
    · simp only [Except.ok.injEq] at h
      rw [← h, hf.setRelFilters, cursorStep_head _ _ _ _ h1, roleFilterStep_head]

/-- What the loop body does to the selector sequence. -/
theorem selectorBody_frame (env : Env) (hf : env.Frame) (op : Operation) (role : String)
    (st : List Nat) (qc : QCode) (id : Nat) (pid : Int) (f0 : GField)
    (r : List Nat × QCode × Select)
    (h : selectorBody env op role st qc id pid f0 = .ok r) :
    r.2.2.head = ((id : Int), pid) ∧ r.2.1.heads = qc.heads ∧
      ((pid = -1 ∧ r.2.1.Roots = qc.Roots ++ [(id : Int)]) ∨
        (pid ≠ -1 ∧ 0 ≤ pid ∧ pid.toNat < qc.Selects.length ∧ r.2.1.Roots = qc.Roots)) := by
  simp only [selectorBody] at h
  split at h
  · cases h
  · rename_i r1 h1
    split at h
    · cases h
    · rename_i r2 h2
      split at h
      · cases h
      · rename_i sel3 h3
        simp only [Except.ok.injEq] at h
        obtain ⟨a1, a2, a3⟩ := selectorStage1_frame env hf op qc id pid f0 r1 h1
        obtain ⟨b1, b2, b3⟩ := selectorStage2_frame env hf op role st _ _ _ r2 h2
        have c1 := selectorStage3_frame env hf role _ _ _ sel3 h3
        rw [← h]
        refine ⟨c1.trans (b1.trans a1), b3.trans a2, ?_⟩
        rcases a3 with ⟨hp, hr⟩ | ⟨hp, h0, hlt, hr⟩
        · exact Or.inl ⟨hp, b2.trans hr⟩
        · exact Or.inr ⟨hp, h0, hlt, b2.trans hr⟩

theorem topology_nil : Topology [] [] :=
  { ids := by intro i h hi; simp at hi
    parents := by intro i h hi; simp at hi
    rootsEq := rfl
    bounded := by intro r hr; cases hr
    increasing := List.Pairwise.nil }

theorem getElem?_snoc {α : Type} (l : List α) (x : α) (i : Nat) (h : α)
    (hi : (l ++ [x])[i]? = some h) : l[i]? = some h ∨ (i = l.length ∧ h = x) := by
  rcases Nat.lt_or_ge i l.length with hlt | hge
  · rw [List.getElem?_append_left hlt] at hi
    exact Or.inl hi
  · rw [List.getElem?_append_right hge] at hi
    rcases Nat.eq_or_lt_of_le hge with heq | hgt
    · right
      rw [← heq] at hi
      simp at hi
      exact ⟨heq.symm, hi.symm⟩
    · have : i - l.length = (i - l.length - 1) + 1 := by omega
      rw [this] at hi
      simp at hi

theorem topology_push_root (hs : List (Int × Int)) (rs : List Int) (t : Topology hs rs) :
    Topology (hs ++ [((hs.length : Int), -1)]) (rs ++ [(hs.length : Int)]) :=
  { ids := by
      intro i h hi
      rcases getElem?_snoc _ _ _ _ hi with h1 | ⟨h1, h2⟩
      · exact t.ids i h h1
      · rw [h2, h1]
    parents := by
      intro i h hi
      rcases getElem?_snoc _ _ _ _ hi with h1 | ⟨_, h2⟩
      · exact t.parents i h h1
      · rw [h2]
        exact Or.inl rfl
    rootsEq := by
      rw [List.filter_append, List.map_append, ← t.rootsEq]
      simp
    bounded := by
      intro r hr
      rw [List.length_append, List.length_singleton]
      rcases List.mem_append.1 hr with h1 | h1
      · have := t.bounded r h1
        push_cast
        omega
      · rw [List.mem_singleton] at h1
        rw [h1]
        push_cast
        omega
    increasing := by
      rw [List.pairwise_append]
      refine ⟨t.increasing, List.pairwise_singleton _ _, ?_⟩
      intro a ha b hb
      rw [List.mem_singleton] at hb
      rw [hb]
      exact t.bounded a ha }

theorem topology_push_child (hs : List (Int × Int)) (rs : List Int) (pid : Int)
    (t : Topology hs rs) (hne : pid ≠ -1) (h0 : 0 ≤ pid) (hlt : pid < (hs.length : Int)) :
    Topology (hs ++ [((hs.length : Int), pid)]) rs :=
  { ids := by
      intro i h hi
      rcases getElem?_snoc _ _ _ _ hi with h1 | ⟨h1, h2⟩
      · exact t.ids i h h1
      · rw [h2, h1]
    parents := by
      intro i h hi
      rcases getElem?_snoc _ _ _ _ hi with h1 | ⟨h1, h2⟩
      · exact t.parents i h h1
      · rw [h2, h1]
        exact Or.inr ⟨h0, hlt⟩
    rootsEq := by
      rw [List.filter_append, List.map_append, ← t.rootsEq]
      simp [hne]
    bounded := by
      intro r hr
      have := t.bounded r hr
      rw [List.length_append, List.length_singleton]
      push_cast
      omega
    increasing := t.increasing }

theorem heads_append (qc : QCode) (sel : Select) :
    ({ qc with Selects := qc.Selects ++ [sel] } : QCode).heads = qc.heads ++ [sel.head] := by
  simp [QCode.heads]

theorem heads_length (qc : QCode) : qc.heads.length = qc.Selects.length := by
  simp [QCode.heads]

/-- The loop invariant: the selectors stored so far have the topology, there
are `id` of them, and `id` is at most the cap.  It is kept by every pass, so
it holds of the result. -/
theorem compileQueryLoop_invariant (env : Env) (hf : env.Frame) (op : Operation)
    (role : String) (fuel : Nat) :
    ∀ (s : LoopState) (qc1 : QCode), Topology s.qc.heads s.qc.Roots →
      s.qc.Selects.length = s.id → s.id ≤ maxSelectors →
      compileQueryLoop env op role fuel s = some (.ok qc1) →
      Topology qc1.heads qc1.Roots ∧ 1 ≤ qc1.Selects.length ∧
        qc1.Selects.length ≤ maxSelectors := by
  induction fuel with
  | zero => intro s qc1 _ _ _ h; simp [compileQueryLoop] at h
  | succ fuel ih =>
    intro s qc1 ht hlen hcap h
    rw [compileQueryLoop] at h
    cases hst : s.st with
    | nil =>
      simp only [hst] at h
      by_cases h0 : s.id = 0
      · simp [h0] at h
      · simp only [h0, if_false, Option.some.injEq, Except.ok.injEq] at h
        rw [← h]
        exact ⟨ht, by omega, by omega⟩
    | cons val st1 =>
      simp only [hst] at h
      by_cases hge : s.id ≥ maxSelectors
      · simp [hge] at h
      · simp only [hge, if_false] at h
        cases hfield : op.Fields[val &&& 0xFFFF]? with
        | none => simp [hfield] at h
        | some field =>
          simp only [hfield] at h
          by_cases hk : field.Type_ = .FieldKeyword
          · simp only [hk, if_true] at h
            exact ih { s with st := st1 } qc1 ht hlen hcap h
          · simp only [hk, if_false] at h
            split at h
            · simp at h
            · rename_i r hr
              obtain ⟨a1, a2, a3⟩ :=
                selectorBody_frame env hf op role st1 s.qc s.id _ field r hr
              refine ih _ qc1 ?_ ?_ ?_ h
              · simp only [heads_append, a1, a2]
                have hl : s.qc.heads.length = s.id := by rw [heads_length, hlen]
                rcases a3 with ⟨hp, hroots⟩ | ⟨hp, hp0, hplt, hroots⟩
                · rw [hp, hroots, ← hl]
                  exact topology_push_root _ _ ht
                · rw [hroots, ← hl]
                  refine topology_push_child _ _ _ ht hp hp0 ?_
                  rw [heads_length]
                  omega
              · have := congrArg List.length a2
                simp only [heads_length] at this
                simp [this, hlen]
              · simp only [maxSelectors] at hge ⊢
                omega

theorem setActionVar_roots (qc : QCode) (arg : Arg) (qc1 : QCode)
    (h : setActionVar qc arg = .ok qc1) : qc1.Roots = qc.Roots := by
  simp only [setActionVar] at h
  split_ifs at h
  · split at h
    · cases h
    · cases h
    · simp only [Except.ok.injEq] at h
      rw [← h]
  · simp only [Except.ok.injEq] at h
    rw [← h]

theorem setMutationArg_roots (qc : QCode) (arg : Arg) (qc1 : QCode)
    (h : setMutationArg qc arg = .ok qc1) : qc1.Roots = qc.Roots := by
  simp only [setMutationArg] at h
  split_ifs at h
  · have h1 := setActionVar_roots _ _ _ h
    exact h1
  · have h1 := setActionVar_roots _ _ _ h
    exact h1
  · have h1 := setActionVar_roots _ _ _ h
    exact h1
  · simp only [Except.ok.injEq] at h
    rw [← h]
  · simp only [Except.ok.injEq] at h
    rw [h]

theorem setMutationArgs_roots (args : List Arg) :
    ∀ qc qc1 : QCode, setMutationArgs qc args = .ok qc1 → qc1.Roots = qc.Roots := by
  induction args with
  | nil =>
    intro qc qc1 h
    simp only [setMutationArgs, Except.ok.injEq] at h
    rw [h]
  | cons arg rest ih =>
    intro qc qc1 h
    simp only [setMutationArgs] at h
    split at h
    · cases h
    · rename_i qc2 h2
      exact (ih qc2 qc1 h).trans (setMutationArg_roots _ _ _ h2)

theorem setMutationType_roots (qc : QCode) (op : Operation) (qc1 : QCode)
    (h : setMutationType qc op = .ok qc1) : qc1.Roots = qc.Roots := by
  simp only [setMutationType] at h
  split at h
  · cases h
  · split at h
    · cases h
    · rename_i qc2 h2
      split_ifs at h
      simp only [Except.ok.injEq] at h
      rw [← h]
      exact setMutationArgs_roots _ _ _ h2

theorem compileOpDirectives_roots (tyName : ParserType → String) (dirs : List Directive) :
    ∀ qc qc1 : QCode, compileOpDirectives tyName qc dirs = .ok qc1 →
      qc1.Roots = qc.Roots := by
  induction dirs with
  | nil =>
    intro qc qc1 h
    simp only [compileOpDirectives, Except.ok.injEq] at h
    rw [h]
  | cons d rest ih =>
    intro qc qc1 h
    simp only [compileOpDirectives] at h
    split at h
    · cases h
    · rename_i qc2 h2
      refine (ih qc2 qc1 h).trans ?_
      split_ifs at h2
      · simp only [compileDirectiveCacheControl] at h2
        split at h2
        · cases h2
        · split_ifs at h2 <;> simp only [Except.ok.injEq] at h2 <;> rw [← h2]
      · simp only [compileDirectiveScript] at h2
        split at h2
        · cases h2
        · split_ifs at h2 <;> simp only [Except.ok.injEq] at h2 <;> rw [← h2]
      · simp only [compileDirectiveConstraint] at h2
        split at h2
        · cases h2
        · split_ifs at h2 <;> simp only [Except.ok.injEq] at h2 <;> rw [← h2]
      · simp only [compileDirectiveValidation] at h2
        split_ifs at h2
        split at h2
        · cases h2
        · split_ifs at h2
          simp only [Except.ok.injEq] at h2
          rw [← h2]

theorem pushRoots_frame (op : Operation) (fs : List GField) :
    ∀ s : QCode × List Nat,
      (pushRoots op fs s).1.Roots = s.1.Roots ∧ (pushRoots op fs s).1.Selects = s.1.Selects := by
  induction fs with
  | nil => intro s; exact ⟨rfl, rfl⟩
  | cons f rest ih =>
    intro s
    simp only [pushRoots]
    split_ifs
    · exact ih _
    · exact ih _
    · exact ih _

/-- The state in which `compileQuery` enters the selector loop. -/
theorem compileQuery_enters_loop (env : Env) (fuel : Nat) (qc : QCode) (op : Operation)
    (role : String) (qc1 : QCode) (h : compileQuery env fuel qc op role = some (.ok qc1)) :
    ∃ s : LoopState, s.id = 0 ∧ s.qc.Selects = [] ∧ s.qc.Roots = qc.Roots ∧
      compileQueryLoop env op role fuel s = some (.ok qc1) := by
  simp only [compileQuery] at h
  by_cases hlen : op.Fields.length = 0
  · simp [hlen] at h
  · simp only [hlen, if_false] at h
    split at h
    · simp at h
    · rename_i qc2 h2
      split at h
      · simp at h
      · rename_i qc3 h3
        have hr3 := compileOpDirectives_roots _ _ _ _ h3
        have hr2 : qc2.Roots = qc.Roots := by
          split_ifs at h2
          · exact setMutationType_roots _ _ _ h2
          · simp only [Except.ok.injEq] at h2
            rw [h2]
        obtain ⟨p1, p2⟩ := pushRoots_frame op op.Fields ({ qc3 with Selects := [] }, [])
        exact ⟨_, rfl, p2, p1.trans (hr3.trans hr2), h⟩

/-- C14: selector topology.  Whenever `compileQuery` succeeds (the functions
taken as parameters keeping ids, parent ids and the root list, and the root
list being empty at entry as `Compile` leaves it), the `i`-th selector has id
`i`, its parent id is `-1` or an id strictly smaller than `i`, and the root
list holds exactly the ids of the selectors with parent id `-1`, in
increasing order. -/
theorem selector_topology (env : Env) (hf : env.Frame) (fuel : Nat) (qc : QCode)
    (op : Operation) (role : String) (qc1 : QCode) (hr : qc.Roots = [])
    (h : compileQuery env fuel qc op role = some (.ok qc1)) :
    (∀ (i : Nat) (s : Select), qc1.Selects[i]? = some s →
      s.ID = i ∧ (s.ParentID = -1 ∨ (0 ≤ s.ParentID ∧ s.ParentID < i))) ∧
    qc1.Roots = (qc1.Selects.filter fun s => s.ParentID == -1).map (fun s => s.ID) ∧
    qc1.Roots.Pairwise (· < ·) := by
  obtain ⟨s, hid, hsel, hroots, hloop⟩ := compileQuery_enters_loop env fuel qc op role qc1 h
  have ht0 : Topology s.qc.heads s.qc.Roots := by
    rw [QCode.heads, hsel, hroots, hr]
    exact topology_nil
  obtain ⟨ht, _, _⟩ := compileQueryLoop_invariant env hf op role fuel s qc1 ht0
    (by rw [hsel, hid]; rfl) (by rw [hid]; exact Nat.zero_le _) hloop
  refine ⟨?_, ?_, ht.increasing⟩
  · intro i sel hi
    have hh : qc1.heads[i]? = some sel.head := by
      simp [QCode.heads, List.getElem?_map, hi]
    exact ⟨ht.ids i _ hh, ht.parents i _ hh⟩
  · rw [ht.rootsEq, QCode.heads, List.filter_map, List.map_map]
    rfl

theorem demoEnv_frame : demoEnv.Frame :=
  { relInfo := by
      intro op qc sel f qc1 sel1 h
      simp only [demoEnv, Except.ok.injEq, Prod.mk.injEq] at h
      obtain ⟨h1, h2⟩ := h
      rw [← h1, ← h2]
      exact ⟨rfl, rfl, rfl⟩
    compileArgs := by
      intro sel args role sel1 h
      simp only [demoEnv, Except.ok.injEq] at h
      rw [h]
    compileFields := by
      intro st op qc sel f tr role st1 qc1 sel1 h
      simp only [demoEnv, Except.ok.injEq, Prod.mk.injEq] at h
      obtain ⟨_, h1, h2⟩ := h
      rw [← h1, ← h2]
      exact ⟨rfl, rfl, rfl⟩
    setRelFilters := by
      intro qc sel
      rfl }

/-- Witness for C14: `query q { users { posts } products }` compiles to the
selectors `products` (0, root), `users` (1, root), `posts` (2, child of 1). -/
theorem selector_topology_witness :
    ∃ qc1, compileQuery demoEnv 10 (compileInit (fun _ => .QTQuery) demoOp) demoOp "user" =
        some (.ok qc1) ∧
      qc1.heads = [(0, -1), (1, -1), (2, 1)] ∧
      ((∀ (i : Nat) (s : Select), qc1.Selects[i]? = some s →
        s.ID = i ∧ (s.ParentID = -1 ∨ (0 ≤ s.ParentID ∧ s.ParentID < i))) ∧
      qc1.Roots = (qc1.Selects.filter fun s => s.ParentID == -1).map (fun s => s.ID) ∧
      qc1.Roots.Pairwise (· < ·)) :=
  ⟨_, rfl, rfl,
    selector_topology demoEnv demoEnv_frame 10 (compileInit (fun _ => .QTQuery) demoOp) demoOp
      "user" _ rfl rfl⟩

/-- The count part of the loop invariant: there are `id` selectors stored and
`id` is at most the cap. -/
theorem compileQueryLoop_count (env : Env) (hf : env.Frame) (op : Operation) (role : String)
    (fuel : Nat) :
    ∀ (s : LoopState) (qc1 : QCode), s.qc.Selects.length = s.id → s.id ≤ maxSelectors →
      compileQueryLoop env op role fuel s = some (.ok qc1) →
      1 ≤ qc1.Selects.length ∧ qc1.Selects.length ≤ maxSelectors := by
  induction fuel with
  | zero => intro s qc1 _ _ h; simp [compileQueryLoop] at h
  | succ fuel ih =>
    intro s qc1 hlen hcap h
    rw [compileQueryLoop] at h
    cases hst : s.st with
    | nil =>
      simp only [hst] at h
      by_cases h0 : s.id = 0
      · simp [h0] at h
      · simp only [h0, if_false, Option.some.injEq, Except.ok.injEq] at h
        rw [← h]
        exact ⟨by omega, by omega⟩
    | cons val st1 =>
      simp only [hst] at h
      by_cases hge : s.id ≥ maxSelectors
      · simp [hge] at h
      · simp only [hge, if_false] at h
        cases hfield : op.Fields[val &&& 0xFFFF]? with
        | none => simp [hfield] at h
        | some field =>
          simp only [hfield] at h
          by_cases hk : field.Type_ = .FieldKeyword
          · simp only [hk, if_true] at h
            exact ih { s with st := st1 } qc1 hlen hcap h
          · simp only [hk, if_false] at h
            split at h
            · simp at h
            · rename_i r hr
              obtain ⟨_, a2, _⟩ := selectorBody_frame env hf op role st1 s.qc s.id _ field r hr
              refine ih _ qc1 ?_ ?_ h
              · have := congrArg List.length a2
                simp only [heads_length] at this
                simp [this, hlen]
              · simp only [maxSelectors] at hge ⊢
                omega

/-- C15: bounded size.  Whenever `compileQuery` succeeds (the functions taken
as parameters keeping the number of stored selectors), the `QCode` holds at
least 1 and at most 100 selectors; and whenever 100 selectors have been
produced and the work list is not empty, the next pass of the loop fails with
exactly the message `selector limit reached (100)`. -/
theorem selector_count_bounded (env : Env) (hf : env.Frame) (op : Operation) (role : String) :
    (∀ (fuel : Nat) (qc qc1 : QCode), compileQuery env fuel qc op role = some (.ok qc1) →
      1 ≤ qc1.Selects.length ∧ qc1.Selects.length ≤ 100) ∧
    (∀ (fuel : Nat) (s : LoopState), 100 ≤ s.id → s.st ≠ [] →
      compileQueryLoop env op role (fuel + 1) s =
        some (.error (.error "selector limit reached (100)"))) := by
  constructor
  · intro fuel qc qc1 h
    obtain ⟨s, hid, hsel, _, hloop⟩ := compileQuery_enters_loop env fuel qc op role qc1 h
    exact compileQueryLoop_count env hf op role fuel s qc1 (by rw [hsel, hid]; rfl)
      (by rw [hid]; exact Nat.zero_le _) hloop
  · intro fuel s hid hst
    rw [compileQueryLoop]
    cases h : s.st with
    | nil => exact absurd h hst
    | cons val st1 =>
      have hge : s.id ≥ maxSelectors := hid
      simp [hge]

/-- Witness for C15: the run of `query q { users { posts } products }` stores
three selectors, and a loop state with 100 selectors and one work item fails
with the limit message. -/
theorem selector_count_bounded_witness :
    (∃ qc1, compileQuery demoEnv 10 (compileInit (fun _ => .QTQuery) demoOp) demoOp "user" =
        some (.ok qc1) ∧ qc1.Selects.length = 3 ∧
      1 ≤ qc1.Selects.length ∧ qc1.Selects.length ≤ 100) ∧
    compileQueryLoop demoEnv demoOp "user" (0 + 1) { st := [rootItem {}], id := 100, qc := {} } =
      some (.error (.error "selector limit reached (100)")) :=
  ⟨⟨_, rfl, rfl,
      (selector_count_bounded demoEnv demoEnv_frame demoOp "user").1 10
        (compileInit (fun _ => .QTQuery) demoOp) _ rfl⟩,
    (selector_count_bounded demoEnv demoEnv_frame demoOp "user").2 0
      { st := [rootItem {}], id := 100, qc := {} } (Nat.le_refl _) (by simp)⟩

/-- The selector loop ends: from every state some number of passes gives a
result. -/
theorem compileQueryLoop_total (env : Env) (op : Operation) (role : String) :
    ∀ (k : Nat) (st : List Nat) (id : Nat) (qc : QCode), maxSelectors - id ≤ k →
      ∃ fuel,
        (compileQueryLoop env op role fuel { st := st, id := id, qc := qc }).isSome = true := by
  have hnil : ∀ (id : Nat) (qc : QCode),
      (compileQueryLoop env op role 1 { st := [], id := id, qc := qc }).isSome = true := by
    intro id qc
    rw [compileQueryLoop]
    by_cases h0 : id = 0 <;> simp [h0]
  have hcap : ∀ (val : Nat) (st1 : List Nat) (id : Nat) (qc : QCode), id ≥ maxSelectors →
      (compileQueryLoop env op role 1 { st := val :: st1, id := id, qc := qc }).isSome = true := by
    intro val st1 id qc hge
    rw [compileQueryLoop]
    simp [hge]
  intro k
  induction k with
  | zero =>
    intro st id qc hk
    cases st with
    | nil => exact ⟨1, hnil id qc⟩
    | cons val st1 => exact ⟨1, hcap val st1 id qc (by omega)⟩
  | succ k ihk =>
    intro st
    induction st with
    | nil => intro id qc _; exact ⟨1, hnil id qc⟩
    | cons val st1 ihst =>
      intro id qc hk
      by_cases hge : id ≥ maxSelectors
      · exact ⟨1, hcap val st1 id qc hge⟩
      · cases hfield : op.Fields[val &&& 0xFFFF]? with
        | none =>
          refine ⟨1, ?_⟩
          rw [compileQueryLoop]
          simp [hge, hfield]
        | some field =>
          by_cases hkw : field.Type_ = .FieldKeyword
          · obtain ⟨f, hr⟩ := ihst id qc hk
            refine ⟨f + 1, ?_⟩
            rw [compileQueryLoop]
            simp only [hge, if_false, hfield, hkw, if_true]
            exact hr
          · cases hb : selectorBody env op role st1 qc id
                (if field.ParentID = -1 then -1 else (((val >>> 16) &&& 0xFFFF : Nat) : Int))
                field with
            | error e =>
              refine ⟨1, ?_⟩
              rw [compileQueryLoop]
              simp [hge, hfield, hkw, hb]
            | ok r =>
              obtain ⟨f, hr⟩ := ihk r.1 (id + 1)
                { r.2.1 with Selects := r.2.1.Selects ++ [r.2.2] } (by omega)
              refine ⟨f + 1, ?_⟩
              rw [compileQueryLoop]
              simp only [hge, if_false, hfield, hkw, hb]
              exact hr

/-- C16 (as stated, refuted): for the query `query q { users }` with a role
configuration that blocks queries and whose row filter needs the user
identifier, the selector stored for the anonymous role has
`SkipRender = SkipTypeUserNeeded`, not `SkipTypeBlocked`; for any other role
it is `SkipTypeBlocked`. -/
theorem blocked_query_anon_user_needed :
    (compileInit (fun _ => .QTQuery) usersOp).SType = .QTQuery ∧
    blockedUserRole.isBlocked .QTQuery = true ∧
    skipSummary (compileQuery blockedEnv 5 (compileInit (fun _ => .QTQuery) usersOp) usersOp
      "anon") = some [.SkipTypeUserNeeded] ∧
    skipSummary (compileQuery blockedEnv 5 (compileInit (fun _ => .QTQuery) usersOp) usersOp
      "user") = some [.SkipTypeBlocked] := by
  decide

/-- C16 (amended): for every selector of a query-kind operation whose role
configuration is blocked for queries, `setSelectorRoleConfig` returns no error
and sets `SkipRender = SkipTypeBlocked`; `setLimit` and the cursor step leave
it so; `compileAndSetFilter` (the user's where) and the role-filter step leave
it so unless the caller is the anonymous role and the filter needs the user
identifier, in which case they set `SkipTypeUserNeeded`. -/
theorem blocked_query_skip (z : ExpNode) (tr : trval) (role fieldName : String) (qc : QCode)
    (sel : Select) (hb : tr.isBlocked qc.SType = true) (hq : qc.SType = .QTQuery) :
    setSelectorRoleConfig tr role fieldName qc sel =
      .ok { sel with SkipRender := .SkipTypeBlocked } ∧
    (∀ (dl : Int) (s : Select), (setLimit dl tr qc s).SkipRender = s.SkipRender) ∧
    (∀ (tie : Select → Except String (List OrderBy)) (s s1 : Select),
      cursorStep z tie s = .ok s1 → s1.SkipRender = s.SkipRender) ∧
    (∀ (cao : ArgObjCompiler) (s : Select) (selID : Int) (fil : Filter) (arg : Arg)
        (ex : Exp) (nu : Bool) (r : Select × Filter),
      cao s.Table s.Ti arg selID = .ok (ex, nu) →
      compileAndSetFilter z cao s selID fil arg role = .ok r →
      r.1.SkipRender =
        if nu = true ∧ role = "anon" then .SkipTypeUserNeeded else s.SkipRender) ∧
    (∀ s : Select,
      (roleFilterStep z qc s tr role).SkipRender =
        if (addFilters z s.Where (tr.filter qc.SType)).2 = true ∧ role = "anon" then
          .SkipTypeUserNeeded
        else s.SkipRender) := by
  have hb1 : tr.isBlocked .QTQuery = true := by rw [← hq]; exact hb
  refine ⟨by simp [setSelectorRoleConfig, hq, hb1], ?_, ?_, ?_, ?_⟩
  · intro dl s
    simp only [setLimit]
    split_ifs <;> rfl
  · intro tie s s1 h
    simp only [cursorStep] at h
    by_cases hc : s.Paging.Cursor = true
    · cases ht : tie s with
      | error e => simp [hc, ht] at h
      | ok obs =>
        by_cases hp : s.Paging.Type_ = .PTOffset
        · simp [hc, ht, hp] at h
          rw [← h]
        · simp [hc, ht, hp] at h
          rw [← h]
          rfl
    · simp [hc] at h
      rw [h]
  · intro cao s selID fil arg ex nu r hcao h
    simp only [compileAndSetFilter, hcao, Except.ok.injEq] at h
    rw [← h]
    by_cases hn : nu = true ∧ role = "anon"
    · simp [hn.1, hn.2]
    · rw [if_neg hn]
      by_cases h1 : nu = true
      · have h2 : role ≠ "anon" := fun h2 => hn ⟨h1, h2⟩
        simp [h1, h2]
      · simp [h1]
  · intro s
    simp only [roleFilterStep]
    by_cases hn : (addFilters z s.Where (tr.filter qc.SType)).2 = true ∧ role = "anon"
    · simp [hn.1, hn.2]
    · rw [if_neg hn]
      by_cases h1 : (addFilters z s.Where (tr.filter qc.SType)).2 = true
      · have h2 : role ≠ "anon" := fun h2 => hn ⟨h1, h2⟩
        simp [h1, h2]
      · simp [h1]

/-- Witness for the amended C16: the blocked role configuration on a query. -/
theorem blocked_query_skip_witness :
    setSelectorRoleConfig blockedUserRole "user" "users" { SType := .QTQuery } usersSelect =
      .ok { usersSelect with SkipRender := .SkipTypeBlocked } :=
  (blocked_query_skip {} blockedUserRole "user" "users" { SType := .QTQuery } usersSelect rfl
    rfl).1

/-- C30 (fails on the code): the shape check is not total on action values.
For `insert: []`, `update: []` and `upsert: []` the check reads
`v.Children[0]` of a list that has no child: neither success nor the argument
error comes back, and `setMutationType` ends in a run-time fault. -/
theorem empty_action_list_faults :
    setMutationArg {} insertEmpty = .error (.crash "index out of range [0] with length 0") ∧
    setMutationArg {} updateEmpty = .error (.crash "index out of range [0] with length 0") ∧
    setMutationArg {} upsertEmpty = .error (.crash "index out of range [0] with length 0") ∧
    setMutationType (compileInit (fun _ => .QTMutation) mutationEmptyInsert) mutationEmptyInsert =
      .error (.crash "index out of range [0] with length 0") :=
  ⟨rfl, rfl, rfl, rfl⟩

theorem word32_of_small (x : Int) (h0 : 0 ≤ x) (h : x < 4294967296) : word32 x = x.toNat := by
  unfold word32
  rw [Int.emod_eq_of_lt h0 h]

theorem packed_eq_add (hi lo : Nat) (h : lo < 65536) :
    lo ||| (hi <<< 16) = hi * 65536 + lo := by
  have e := Nat.mul_add_lt_is_or (show lo < 2 ^ 16 by simpa using h) hi
  rw [Nat.or_comm, Nat.shiftLeft_eq, Nat.mul_comm hi, ← e]

theorem low16_of_packed (hi lo : Nat) (h : lo < 65536) :
    (lo ||| (hi <<< 16)) &&& 0xFFFF = lo ∧ (lo ||| (hi <<< 16)) >>> 16 = hi := by
  rw [packed_eq_add hi lo h]
  constructor
  · have := Nat.and_pow_two_sub_one_eq_mod (hi * 65536 + lo) 16
    norm_num at this
    rw [this]
    omega
  · rw [Nat.shiftRight_eq_div_pow]
    norm_num
    omega

/-- C29: the packed work item round-trips.  For a field id `f` with
`0 <= f < 65536` and a parent selector id `p` with `0 <= p < 100`, unpacking
the 32-bit word `f | (p << 16)` as the loop of `compileQuery` does
(lines 413-414: `val & 0xFFFF` and `(val >> 16) & 0xFFFF`) gives back `f` and
`p`; unpacking the root word `f | (-1 << 16)` of line 398 gives back `f` as
the field id. -/
theorem work_item_round_trip (f p : Int) (hf0 : 0 ≤ f) (hf : f < 65536) (hp0 : 0 ≤ p)
    (hp : p < 100) :
    ((((word32 f ||| (word32 p <<< 16)) % 4294967296) &&& 0xFFFF : Nat) : Int) = f ∧
    ((((((word32 f ||| (word32 p <<< 16)) % 4294967296) >>> 16) &&& 0xFFFF : Nat)) : Int) = p ∧
    ((rootItem { ID := f } &&& 0xFFFF : Nat) : Int) = f := by
  have wf : word32 f = f.toNat := word32_of_small _ hf0 (by omega)
  have wp : word32 p = p.toNat := word32_of_small _ hp0 (by omega)
  have hfn : f.toNat < 65536 := by omega
  have hpn : p.toNat < 100 := by omega
  obtain ⟨a1, a2⟩ := low16_of_packed p.toNat f.toNat hfn
  have e := packed_eq_add p.toNat f.toNat hfn
  have hsmall : (f.toNat ||| (p.toNat <<< 16)) % 4294967296 = f.toNat ||| (p.toNat <<< 16) := by
    apply Nat.mod_eq_of_lt
    rw [e]
    omega
  have hroot : rootItem { ID := f } &&& 0xFFFF = f.toNat := by
    unfold rootItem
    rw [wf]
    exact (low16_of_packed 0xFFFF f.toNat hfn).1
  refine ⟨?_, ?_, ?_⟩
  · rw [wf, wp, hsmall, a1]
    omega
  · rw [wf, wp, hsmall, a2]
    have hm : p.toNat &&& 0xFFFF = p.toNat := by
      have := Nat.and_pow_two_sub_one_eq_mod p.toNat 16
      norm_num at this
      rw [this]
      omega
    rw [hm]
    omega
  · rw [hroot]
    omega

/-- Witness for C29: field 7 under selector 3 packs to `7 | (3 << 16)` and
unpacks to 7 and 3; the root word of field 7 unpacks to field 7. -/
theorem work_item_round_trip_witness :
    ((((word32 7 ||| (word32 3 <<< 16)) % 4294967296) &&& 0xFFFF : Nat) : Int) = 7 ∧
    ((((((word32 7 ||| (word32 3 <<< 16)) % 4294967296) >>> 16) &&& 0xFFFF : Nat)) : Int) = 3 ∧
    ((rootItem { ID := 7 } &&& 0xFFFF : Nat) : Int) = 7 :=
  work_item_round_trip 7 3 (by decide) (by decide) (by decide) (by decide)

/-- C26 (as stated, refuted): the validator of `oneOf` accepts a bare number
and a bare string, which are not lists. -/
theorem oneOf_accepts_bare_values :
    ∃ v, validators "oneOf" = some v ∧
      oneOfListRule oneOfNumber = false ∧ validateConstraint (fun _ => "") oneOfNumber v = .ok () ∧
      oneOfListRule oneOfString = false ∧ validateConstraint (fun _ => "") oneOfString v = .ok () :=
  ⟨_, rfl, by decide, rfl, by decide, rfl⟩

theorem validateErrText_append (tyName : ParserType → String) (ts : List ParserType) :
    ∀ (i : Nat) (list : Bool) (err : String),
      ∃ rest, validateErrText tyName i list ts err = err ++ rest := by
  induction ts with
  | nil => intro i list err; exact ⟨"", by simp [validateErrText]⟩
  | cons t ts ih =>
    intro i list err
    simp only [validateErrText]
    have h1 : ∃ r1, (if i ≠ 0 then err ++ ", " else err) = err ++ r1 := by
      by_cases hi : i ≠ 0
      · exact ⟨", ", by rw [if_pos hi]⟩
      · exact ⟨"", by rw [if_neg hi, String.append_empty]⟩
    obtain ⟨r1, e1⟩ := h1
    rw [e1]
    have h2 : ∃ r2, (if (!list && t == .NodeList) = true then err ++ r1 ++ "a list of "
        else err ++ r1) = err ++ r2 := by
      by_cases hm : (!list && t == .NodeList) = true
      · exact ⟨r1 ++ "a list of ", by rw [if_pos hm, String.append_assoc]⟩
      · exact ⟨r1, by rw [if_neg hm]⟩
    obtain ⟨r2, e2⟩ := h2
    rw [e2]
    obtain ⟨rest, hr⟩ := ih (i + 1) (list || (!list && t == .NodeList)) (err ++ r2 ++ tyName t)
    exact ⟨r2 ++ (tyName t ++ rest), by rw [hr, String.append_assoc, String.append_assoc]⟩

/-- C26 (amended): `validateConstraint` accepts a `oneOf` argument exactly
when its value is a number, a string, or a non-empty list whose first element
is a number or a string; every other value is rejected with an error starting
"value must be of type: ". -/
theorem oneOf_accept_rule (tyName : ParserType → String) (a : Arg) :
    ∃ v, validators "oneOf" = some v ∧
      (validateConstraint tyName a v = .ok () ↔
        (a.Val.Type_ = .NodeNum ∨ a.Val.Type_ = .NodeStr ∨ oneOfListRule a = true)) ∧
      (validateConstraint tyName a v = .ok () ∨
        ∃ rest, validateConstraint tyName a v = .error ("value must be of type: " ++ rest)) := by
  refine ⟨_, rfl, ?_, ?_⟩
  · obtain ⟨name, val⟩ := a
    obtain ⟨t, n, v, cs⟩ := val
    cases t <;> cases cs <;>
      simp [validateConstraint, validateTypes, ifArgList, ifArg, oneOfListRule, Node.Type_,
        Node.Children]
    all_goals tauto
  · unfold validateConstraint
    split_ifs
    · exact Or.inl rfl
    · obtain ⟨rest, hr⟩ := validateErrText_append tyName
        [.NodeList, .NodeNum, .NodeList, .NodeStr] 0 false "value must be of type: "
      exact Or.inr ⟨rest, by rw [hr]⟩

/-- C21 (as stated, refuted): on a singular selector the cursor arguments do
not enable cursor mode.  For `users(id: 5, first: 2)` the `id` argument makes
the selector singular, and `first` then sets the limit and the scan direction
but leaves `Paging.Cursor` false; likewise for `users(id: 5, after: $cursor)`. -/
theorem first_on_singular_no_cursor :
    pagingSummary (compileArgs {} usersSelect [idFive, firstTwo] "user") =
      some (true, false, 2, .PTOffset, .OrderAsc) ∧
    pagingSummary (compileArgs {} usersSelect [idFive, afterCursorArg] "user") =
      some (true, false, 0, .PTForward, .OrderNone) := by
  decide

theorem compileArgLimit_keeps (dbType : String) (sel s1 : Select) (arg : Arg)
    (h1 : compileArgLimit dbType sel arg = .ok s1) :
    s1.Singular = sel.Singular ∧ s1.Paging.Cursor = sel.Paging.Cursor ∧
      s1.Paging.Type_ = sel.Paging.Type_ := by
  unfold compileArgLimit at h1
  cases ht : arg.Val.Type_ <;> simp only [ht] at h1 <;> simp at h1
  all_goals
    split at h1
    · cases h1
    · simp only [Except.ok.injEq] at h1
      subst h1
      exact ⟨rfl, rfl, rfl⟩

theorem firstLast_shape (dbType : String) (sel sel2 : Select) (arg : Arg) (o : Order)
    (h1 : compileArgFirstLast dbType sel arg o = .ok sel2) :
    ∃ sel1, compileArgLimit dbType sel arg = .ok sel1 ∧
      sel2 =
        { sel1 with
          Paging := { sel1.Paging with Cursor := !sel.Singular || sel.Paging.Cursor }
          order := o } := by
  unfold compileArgFirstLast at h1
  cases hs1 : compileArgLimit dbType sel arg with
  | error e => rw [hs1] at h1; cases h1
  | ok s1 =>
    rw [hs1] at h1
    obtain ⟨k1, k2, _⟩ := compileArgLimit_keeps _ _ _ _ hs1
    refine ⟨s1, rfl, ?_⟩
    injection h1 with h1
    rw [← h1, ← k1, ← k2]
    rcases Bool.eq_false_or_eq_true s1.Singular with hsg | hsg
    · simp [hsg]
    · simp [hsg]

theorem afterBefore_shape (sel sel2 : Select) (arg : Arg) (pt : PagingType)
    (h1 : compileArgAfterBefore sel arg pt = .ok sel2) :
    arg.Val.Type_ = .NodeVar ∧ arg.Val.Val = "cursor" ∧
      sel2 =
        { sel with
          Paging := { sel.Paging with Type_ := pt, Cursor := !sel.Singular || sel.Paging.Cursor } } := by
  unfold compileArgAfterBefore at h1
  dsimp only at h1
  by_cases hc : arg.Val.Type_ ≠ .NodeVar ∨ arg.Val.Val ≠ "cursor"
  · rw [if_pos hc] at h1
    cases h1
  · rw [if_neg hc] at h1
    have hc2 : arg.Val.Type_ = .NodeVar ∧ arg.Val.Val = "cursor" := by
      simpa only [ne_eq, not_or, not_not] using hc
    refine ⟨hc2.1, hc2.2, ?_⟩
    rcases Bool.eq_false_or_eq_true sel.Singular with hsg | hsg
    · simp only [hsg, Bool.not_true, Bool.false_eq_true, if_false] at h1
      injection h1 with h1
      rw [← h1]
      simp [hsg]
    · simp only [hsg, Bool.not_false, if_true] at h1
      injection h1 with h1
      rw [← h1]
      simp [hsg]

theorem liftErr_ok {α : Type} (r : Except String α) (a : α) (h : liftErr r = .ok a) :
    r = .ok a := by
  cases r with
  | error e => simp [liftErr] at h
  | ok b => simpa [liftErr] using h

/-- C21 (amended): a successful `first` or `last` leaves the selector that
`limit` would leave, with the scan direction asc for `first` and desc for
`last`; a successful `after` or `before` sets the paging type to forward for
`after` and backward for `before`, and it succeeds only when the value is the
variable named cursor.  Each of the four sets `Paging.Cursor` to true when the
selector is not singular and leaves `Paging.Cursor` as it was when the
selector is singular. -/
theorem cursor_arguments_rule (env : ArgEnv) (sel sel2 : Select) (arg : Arg) (role : String)
    (hn : arg.Name = "first" ∨ arg.Name = "last" ∨ arg.Name = "after" ∨ arg.Name = "before")
    (h : compileArg env sel arg role = .ok sel2) :
    sel2.Paging.Cursor = (!sel.Singular || sel.Paging.Cursor) ∧
    (arg.Name = "first" ∨ arg.Name = "last" →
      ∃ sel1, compileArgLimit env.dbType sel arg = .ok sel1 ∧
        sel2 =
          { sel1 with
            Paging := { sel1.Paging with Cursor := !sel.Singular || sel.Paging.Cursor }
            order := if arg.Name = "first" then .OrderAsc else .OrderDesc }) ∧
    (arg.Name = "after" ∨ arg.Name = "before" →
      arg.Val.Type_ = .NodeVar ∧ arg.Val.Val = "cursor" ∧
        sel2 =
          { sel with
            Paging :=
              { sel.Paging with
                Type_ := if arg.Name = "after" then .PTForward else .PTBackward
                Cursor := !sel.Singular || sel.Paging.Cursor } }) := by
  obtain ⟨name, val⟩ := arg
  simp only at hn
  rcases hn with rfl | rfl | rfl | rfl
  · have h1 := liftErr_ok _ _ (by simpa [compileArg] using h)
    obtain ⟨sel1, e1, e2⟩ := firstLast_shape _ _ _ _ _ h1
    refine ⟨by rw [e2], fun _ => ⟨sel1, e1, by simpa using e2⟩, fun hx => ?_⟩
    simp at hx
  · have h1 := liftErr_ok _ _ (by simpa [compileArg] using h)
    obtain ⟨sel1, e1, e2⟩ := firstLast_shape _ _ _ _ _ h1
    refine ⟨by rw [e2], fun _ => ⟨sel1, e1, by simpa using e2⟩, fun hx => ?_⟩
    simp at hx
  · have h1 := liftErr_ok _ _ (by simpa [compileArg] using h)
    obtain ⟨e0, e1, e2⟩ := afterBefore_shape _ _ _ _ h1
    refine ⟨by rw [e2], fun hx => ?_, fun _ => ⟨e0, e1, by simpa using e2⟩⟩
    simp at hx
  · have h1 := liftErr_ok _ _ (by simpa [compileArg] using h)
    obtain ⟨e0, e1, e2⟩ := afterBefore_shape _ _ _ _ h1
    refine ⟨by rw [e2], fun hx => ?_, fun _ => ⟨e0, e1, by simpa using e2⟩⟩
    simp at hx

/-- Witness for C21: `users(first: 2)` on a selector that is not singular
sets the limit 2, the scan direction asc and cursor mode. -/
theorem cursor_arguments_rule_witness :
    ∃ sel2, compileArg {} usersSelect firstTwo "user" = .ok sel2 ∧
      sel2.Paging.Cursor = true ∧ sel2.Paging.Limit = 2 ∧ sel2.order = .OrderAsc :=
  ⟨_, rfl,
    (cursor_arguments_rule {} usersSelect _ firstTwo "user" (Or.inl rfl) rfl).1, rfl, rfl⟩

/-- C22: for a one-to-one or one-to-many relationship with left column `L` and
right column `R` and a parent selector id `p`, `buildFilter` returns a single
node: `in` with left `L` and right `(p, R)` when `L` is scalar and `R` an
array; `in` with left `(p, R)` and right `L` when `L` is an array and `R`
scalar; otherwise equality with left `L` and right `(p, R)`.  For the kinds
other than one-to-one, one-to-many and embedded it returns the nil pointer. -/
theorem buildFilter_rule (z : ExpNode) (rel : DBRel) (p : Int) :
    (rel.Type_ = .RelOneToOne ∨ rel.Type_ = .RelOneToMany →
      (rel.Left.Col.Array = false ∧ rel.Right.Col.Array = true →
        (buildFilter z rel p).isRelAtom .OpIn z.Left.ID rel.Left.Col p rel.Right.Col) ∧
      (rel.Left.Col.Array = true ∧ rel.Right.Col.Array = false →
        (buildFilter z rel p).isRelAtom .OpIn p rel.Right.Col z.Right.ID rel.Left.Col) ∧
      (rel.Left.Col.Array = rel.Right.Col.Array →
        (buildFilter z rel p).isRelAtom .OpEquals z.Left.ID rel.Left.Col p rel.Right.Col)) ∧
    (rel.Type_ ≠ .RelOneToOne ∧ rel.Type_ ≠ .RelOneToMany ∧ rel.Type_ ≠ .RelEmbedded →
      buildFilter z rel p = .nil) := by
  constructor
  · intro ht
    refine ⟨fun ⟨hl, hr⟩ => ?_, fun ⟨hl, hr⟩ => ?_, fun he => ?_⟩
    · rcases ht with ht | ht <;> simp only [buildFilter, ht, hl, hr] <;>
        exact ⟨_, rfl, rfl, rfl, rfl, rfl, rfl⟩
    · rcases ht with ht | ht <;> simp only [buildFilter, ht, hl, hr] <;>
        exact ⟨_, rfl, rfl, rfl, rfl, rfl, rfl⟩
    · rcases Bool.eq_false_or_eq_true rel.Right.Col.Array with hr | hr <;>
        rcases ht with ht | ht <;> simp only [buildFilter, ht, he, hr] <;>
        exact ⟨_, rfl, rfl, rfl, rfl, rfl, rfl⟩
  · rintro ⟨h1, h2, h3⟩
    unfold buildFilter
    cases ht : rel.Type_ <;> simp_all

/-- Witness for C22: the one-to-many relationship of `posts.user_id` with
`users.id` under parent selector 0 gives the single equality node
`posts.user_id = users.id` of selector 2; and `setRelFilters` makes that node
(for the parent selector 0) the where of a child selector `posts` that had
none. -/
theorem buildFilter_rule_witness :
    (buildFilter {} postsUsersRel 2).isRelAtom .OpEquals 0 { Name := "user_id", Table := "posts" } 2
      { Name := "id", Table := "users" } ∧
    setRelFilters {} {} { joinedSelect with Joins := [] } =
      .ok { joinedSelect with Joins := [], Where := { Exp := buildFilter {} postsUsersRel 0 } } :=
  ⟨((buildFilter_rule {} postsUsersRel 2).1 (Or.inr rfl)).2.2 rfl, rfl⟩

/-- C23: for a selector with a recursive relationship (left column `L`, right
column `R`), an internal argument `find` and an empty where, `setRelFilters`
sets where to an `and` of exactly three children.  With `L` and `R` neither
or both arrays: for `find = "parents"` they are is_not_null of `L` on table
`__rcte_<right table>`, not-equals of `L` and `R` both on that table, and
equality of the selector's own `R` with `L` on that table; for
`find = "children"` they are is_not_null of `L`, not-equals of `L` and `R`, and
equality of `L` with `R` on `__rcte_<right table>`.  With exactly one of `L`
and `R` an array the second and third operators are not_in and in. -/
theorem recursive_filter_rule (z : ExpNode) (qc : QCode) (sel : Select) (a : QArg)
    (hr : sel.Rel.Type_ = .RelRecursive) (hw : sel.Where.Exp = .nil)
    (hf : sel.GetInternalArg "find" = (a, true))
    (hv : a.Val = "parents" ∨ a.Val = "children") :
    ∃ e1 e2 e3,
      setRelFilters z qc sel =
        .ok { sel with Where := { Exp := .node { z with Op := .OpAnd } [e1, e2, e3] } } ∧
      (a.Val = "parents" → sel.Rel.Left.Col.Array = sel.Rel.Right.Col.Array →
        e1.isTableAtom .OpIsNotNull ("__rcte_" ++ sel.Rel.Right.Ti.Name) sel.Rel.Left.Col
          z.Right.Table z.Right.Col ∧
        e2.isTableAtom .OpNotEquals ("__rcte_" ++ sel.Rel.Right.Ti.Name) sel.Rel.Left.Col
          ("__rcte_" ++ sel.Rel.Right.Ti.Name) sel.Rel.Right.Col ∧
        e3.isTableAtom .OpEquals z.Left.Table sel.Rel.Right.Col
          ("__rcte_" ++ sel.Rel.Right.Ti.Name) sel.Rel.Left.Col) ∧
      (a.Val = "children" → sel.Rel.Left.Col.Array = sel.Rel.Right.Col.Array →
        e1.isTableAtom .OpIsNotNull z.Left.Table sel.Rel.Left.Col z.Right.Table z.Right.Col ∧
        e2.isTableAtom .OpNotEquals z.Left.Table sel.Rel.Left.Col z.Right.Table
          sel.Rel.Right.Col ∧
        e3.isTableAtom .OpEquals z.Left.Table sel.Rel.Left.Col
          ("__rcte_" ++ sel.Rel.Right.Ti.Name) sel.Rel.Right.Col) ∧
      (sel.Rel.Left.Col.Array ≠ sel.Rel.Right.Col.Array →
        e2.op? = some .OpNotIn ∧ e3.op? = some .OpIn) := by
  have hs : setRelFilters z qc sel =
      .ok { sel with Where := { Exp := recursiveFilter z sel } } := by
    unfold setRelFilters
    simp only [hr, setFilter, hw]
  rw [hs]
  have npc : ("parents" : String) ≠ "children" := by decide
  have cnp : ¬(("children" : String) = "parents" ∨ ("children" : String) = "parent") := by decide
  rcases hv with hv | hv <;>
    rcases Bool.eq_false_or_eq_true sel.Rel.Left.Col.Array with hl | hl <;>
    rcases Bool.eq_false_or_eq_true sel.Rel.Right.Col.Array with hr2 | hr2
  all_goals
    simp only [recursiveFilter, hf, hv, true_or, if_true, cnp, if_false, recursiveParents,
      recursiveChildren, hl, hr2]
    refine ⟨_, _, _, rfl, ?_, ?_, ?_⟩
  all_goals first
    | (intro h1 h2
       first
         | exact absurd h1 npc
         | exact absurd h1.symm npc
         | exact absurd h2 (by decide)
         | exact ⟨⟨_, rfl, rfl, rfl, rfl, rfl, rfl⟩, ⟨_, rfl, rfl, rfl, rfl, rfl, rfl⟩,
             ⟨_, rfl, rfl, rfl, rfl, rfl, rfl⟩⟩)
    | (intro h1
       first
         | exact absurd rfl h1
         | exact ⟨rfl, rfl⟩)

/-- Witness for C23: the selector `reply(find: "parents")` with the recursive
relationship of `reply.parent_id` with `reply.id` gets the where
`AND(IsNotNull(__rcte_reply.parent_id), NotEq(__rcte_reply.parent_id,
__rcte_reply.id), Eq(id, __rcte_reply.parent_id))`. -/
theorem recursive_filter_rule_witness :
    setRelFilters {} {} replySelect =
      .ok { replySelect with
            Where :=
              { Exp :=
                  .node { Op := .OpAnd }
                    [.node { Op := .OpIsNotNull
                             Left := { Table := "__rcte_reply", Col := replyRel.Left.Col } } [],
                     .node { Op := .OpNotEquals
                             Left := { Table := "__rcte_reply", Col := replyRel.Left.Col }
                             Right := { Table := "__rcte_reply", Col := replyRel.Right.Col } } [],
                     .node { Op := .OpEquals
                             Left := { Col := replyRel.Right.Col }
                             Right := { Table := "__rcte_reply", Col := replyRel.Left.Col } } []] } } ∧
    ∃ e1 e2 e3,
      setRelFilters {} {} replySelect =
        .ok { replySelect with Where := { Exp := .node { Op := .OpAnd } [e1, e2, e3] } } ∧
      (("parents" : String) = "parents" →
          replySelect.Rel.Left.Col.Array = replySelect.Rel.Right.Col.Array →
        e1.isTableAtom .OpIsNotNull ("__rcte_" ++ replySelect.Rel.Right.Ti.Name)
          replySelect.Rel.Left.Col "" {} ∧
        e2.isTableAtom .OpNotEquals ("__rcte_" ++ replySelect.Rel.Right.Ti.Name)
          replySelect.Rel.Left.Col ("__rcte_" ++ replySelect.Rel.Right.Ti.Name)
          replySelect.Rel.Right.Col ∧
        e3.isTableAtom .OpEquals "" replySelect.Rel.Right.Col
          ("__rcte_" ++ replySelect.Rel.Right.Ti.Name) replySelect.Rel.Left.Col) ∧
      (("parents" : String) = "children" →
          replySelect.Rel.Left.Col.Array = replySelect.Rel.Right.Col.Array →
        e1.isTableAtom .OpIsNotNull "" replySelect.Rel.Left.Col "" {} ∧
        e2.isTableAtom .OpNotEquals "" replySelect.Rel.Left.Col "" replySelect.Rel.Right.Col ∧
        e3.isTableAtom .OpEquals "" replySelect.Rel.Left.Col
          ("__rcte_" ++ replySelect.Rel.Right.Ti.Name) replySelect.Rel.Right.Col) ∧
      (replySelect.Rel.Left.Col.Array ≠ replySelect.Rel.Right.Col.Array →
        e2.op? = some .OpNotIn ∧ e3.op? = some .OpIn) :=
  ⟨rfl,
    recursive_filter_rule {} {} replySelect { Name := "find", Val := "parents" } rfl rfl rfl
      (Or.inl rfl)⟩

/-- C25 (as stated, refuted): a selector that carries joins is not forced
singular.  The selector `posts` is reached over two edges, so it carries a
join; its relationship is one-to-many with a scalar right column (or
polymorphic); with inflection disabled, and also with inflection enabled and a
plural field name, `setSingular` leaves it not singular. -/
theorem joined_selector_not_singular :
    joinedSelect.Rel.Type_ = .RelOneToMany ∧ joinedSelect.Rel.Right.Col.Array = false ∧
    joinedSelect.Joins.length = 1 ∧
    (setSingular false (fun s => s) "posts" joinedSelect).Singular = false ∧
    (setSingular false (fun s => s) "posts"
      { joinedSelect with Rel := { postsUsersRel with Type_ := .RelPolymorphic } }).Singular = false ∧
    (setSingular true (fun _ => "post") "posts" joinedSelect).Singular = false := by
  decide

/-- C25 (amended): for a selector whose resolved relationship is polymorphic,
or one-to-many with a non-array right column: if it carries no joins,
`setSingular` leaves it singular; if it carries joins, it is singular
afterwards exactly when it was singular before or inflection is enabled and
the field name is its own singular form. -/
theorem setSingular_rule (enableInflection : Bool) (singularize : String → String)
    (fieldName : String) (sel : Select)
    (h : sel.Rel.Type_ = .RelPolymorphic ∨
      (sel.Rel.Type_ = .RelOneToMany ∧ sel.Rel.Right.Col.Array = false)) :
    (sel.Joins = [] →
      (setSingular enableInflection singularize fieldName sel).Singular = true) ∧
    (sel.Joins ≠ [] →
      (setSingular enableInflection singularize fieldName sel).Singular =
        (sel.Singular || (enableInflection && singularize fieldName == fieldName))) := by
  unfold setSingular
  constructor
  · intro hj
    rcases Bool.eq_false_or_eq_true sel.Singular with hs | hs
    · simp [hs]
    · rcases h with h | ⟨h1, h2⟩ <;> cases enableInflection <;> simp_all
  · intro hj
    have hl : sel.Joins.length ≠ 0 := by
      intro h0
      exact hj (List.length_eq_zero.mp h0)
    rcases Bool.eq_false_or_eq_true sel.Singular with hs | hs
    · simp [hs]
    · cases enableInflection <;> simp [hs, hl]

/-- Witness for C25: the selector `posts` with the one-to-many relationship of
`posts.user_id` with `users.id` and no joins is left singular. -/
theorem setSingular_rule_witness :
    (setSingular false (fun s => s) "posts" { joinedSelect with Joins := [] }).Singular = true :=
  (setSingular_rule false (fun s => s) "posts" { joinedSelect with Joins := [] }
    (Or.inr ⟨rfl, rfl⟩)).1 rfl

/-- C27 (fails on the code): `compileArgArgs` reads `fn.Inputs[i]` for every
child of the `args` list without comparing `i` with the number of declared
inputs.  For the function table `nearby` with one declared input, `args: [1]`
appends one literal argument of the declared type, and `args: [1, $b]` ends in
an index-out-of-range fault, also when called through `compileArgs`. -/
theorem args_beyond_inputs_faults :
    argsSummary (compileArgArgs (fun ti n => .ok { Name := n, Table := ti.Name }) nearbySelect argsOne) =
      .ok [{ Type_ := .ArgTypeVal, DType := "float8", Val := "1" }] ∧
    argsSummary (compileArgArgs (fun ti n => .ok { Name := n, Table := ti.Name }) nearbySelect argsTwo) =
      .error (.crash "index out of range") ∧
    argsSummary (compileArgs {} nearbySelect [argsTwo] "user") =
      .error (.crash "index out of range") :=
  ⟨rfl, rfl, rfl⟩

/-- C28 (fails on the code): the result of `Compile` depends on the order in
which a `range` visits the map of preconfigured orderings.  For the table
`posts` with the orderings `newest` and `oldest` and the argument
`order_by: $ord`, a run that visits `newest` first and a run that visits
`oldest` first return selectors with different order-by lists. -/
theorem order_by_variable_follows_map_order :
    (List.reverse postsSelect.tc.OrderBy).Perm postsSelect.tc.OrderBy ∧
    orderSummary (compileArgs {} postsSelect [orderByVarArg] "user") =
      some [("newest", "created_at", .OrderDesc), ("oldest", "created_at", .OrderAsc)] ∧
    orderSummary (compileArgs { rangeOrder := List.reverse } postsSelect [orderByVarArg] "user") =
      some [("oldest", "created_at", .OrderAsc), ("newest", "created_at", .OrderDesc)] ∧
    orderSummary (compileArgs {} postsSelect [orderByVarArg] "user") ≠
      orderSummary (compileArgs { rangeOrder := List.reverse } postsSelect [orderByVarArg] "user") :=
  ⟨List.reverse_perm _, by decide, by decide, by decide⟩

theorem validateSelect_findKeyValid (s : Select) (h : validateSelect s = .ok ()) :
    findKeyValid s.findKey := by
  intro hrec
  simp only [Select.findKey] at hrec
  unfold validateSelect at h
  rw [if_pos hrec] at h
  simp only [Select.GetInternalArg] at h
  simp only [Select.findKey]
  cases hfind : s.IArgs.find? (fun v => v.Name == "find") with
  | none => simp [hfind] at h
  | some a =>
    simp only [hfind, Bool.not_true, Bool.false_eq_true, if_false] at h
    refine ⟨a, rfl, ?_⟩
    by_cases hv : a.Val ≠ "parents" ∧ a.Val ≠ "children"
    · rw [if_pos hv] at h
      cases h
    · by_cases hp : a.Val = "parents"
      · exact Or.inl hp
      · by_cases hc : a.Val = "children"
        · exact Or.inr hc
        · exact absurd ⟨hp, hc⟩ hv

theorem findKeys_set_children (qc : QCode) (i : Nat) (psel : Select) (cs : List Int)
    (h : qc.Selects[i]? = some psel) :
    ({ qc with Selects := qc.Selects.set i { psel with Children := cs } } : QCode).findKeys =
      qc.findKeys := by
  simp only [QCode.findKeys, List.map_set]
  apply List.ext_getElem?
  intro j
  by_cases hj : i = j
  · subst hj
    have hlt : i < qc.Selects.length := by
      rcases Nat.lt_or_ge i qc.Selects.length with hl | hl
      · exact hl
      · rw [List.getElem?_eq_none hl] at h
        cases h
    rw [List.getElem?_set_self (by simpa using hlt), List.getElem?_map, h]
    rfl
  · rw [List.getElem?_set_ne hj]

theorem addRelInfoHead_findKeys (op : Operation) (qc : QCode) (sel : Select) (field : GField)
    (qc1 : QCode) (h : addRelInfoHead op qc sel field = .ok qc1) :
    qc1.findKeys = qc.findKeys := by
  simp only [addRelInfoHead] at h
  by_cases hp : sel.ParentID = -1
  · simp only [hp, if_true, Except.ok.injEq] at h
    rw [← h]
    rfl
  · simp only [hp, if_false] at h
    by_cases hneg : sel.ParentID < 0
    · simp [hneg] at h
    · simp only [hneg, if_false] at h
      cases hps : qc.Selects[sel.ParentID.toNat]? with
      | none => simp [hps] at h
      | some psel =>
        simp only [hps] at h
        by_cases hfn : field.ParentID < 0
        · simp [hfn] at h
        · simp only [hfn, if_false] at h
          cases hpf : op.Fields[field.ParentID.toNat]? with
          | none => simp [hpf] at h
          | some pf =>
            simp only [hpf, Except.ok.injEq] at h
            rw [← h]
            exact findKeys_set_children qc _ psel _ hps

/-- What the loop body does to the stored selectors and the new one: the
relationship kinds and internal arguments of the stored selectors are kept,
and the new selector has passed `validateSelect`. -/
theorem selectorBody_findKeys (env : Env) (hk : env.KeepsFind) (op : Operation) (role : String)
    (st : List Nat) (qc : QCode) (id : Nat) (pid : Int) (f0 : GField)
    (r : List Nat × QCode × Select)
    (h : selectorBody env op role st qc id pid f0 = .ok r) :
    r.2.1.findKeys = qc.findKeys ∧ findKeyValid r.2.2.findKey := by
  simp only [selectorBody] at h
  split at h
  · cases h
  · rename_i r1 h1
    split at h
    · cases h
    · rename_i r2 h2
      split at h
      · cases h
      · rename_i sel3 h3
        simp only [Except.ok.injEq] at h
        rw [← h]
        constructor
        · have a1 : r1.2.1.findKeys = qc.findKeys := by
            simp only [selectorStage1] at h1
            split at h1
            · cases h1
            · split at h1
              · cases h1
              · rename_i qc1 hq
                split at h1
                · cases h1
                · rename_i r3 hr3
                  simp only [Except.ok.injEq] at h1
                  rw [← h1]
                  exact (hk.relInfo _ _ _ _ r3.1 r3.2 hr3).trans
                    (addRelInfoHead_findKeys _ _ _ _ _ hq)
          have a2 : r2.2.2.1.findKeys = r1.2.1.findKeys := by
            simp only [selectorStage2] at h2
            split at h2
            · cases h2
            · split at h2
              · cases h2
              · split at h2
                · cases h2
                · split at h2
                  · cases h2
                  · rename_i r4 hr4
                    simp only [Except.ok.injEq] at h2
                    rw [← h2]
                    exact hk.compileFields _ _ _ _ _ _ _ r4.1 r4.2.1 r4.2.2 hr4
          exact a2.trans a1
        · simp only [selectorStage3] at h3
          split at h3
          · cases h3
          · split at h3
            · cases h3
            · rename_i hv
              simp only [Except.ok.injEq] at h3
              rw [← h3]
              exact validateSelect_findKeyValid _ hv

/-- The loop invariant for recursive selectors: every stored selector has a
valid key.  It is kept by every pass, so it holds of the result. -/
theorem compileQueryLoop_findKeys (env : Env) (hk : env.KeepsFind) (op : Operation)
    (role : String) (fuel : Nat) :
    ∀ (s : LoopState) (qc1 : QCode), (∀ k ∈ s.qc.findKeys, findKeyValid k) →
      compileQueryLoop env op role fuel s = some (.ok qc1) →
      ∀ k ∈ qc1.findKeys, findKeyValid k := by
  induction fuel with
  | zero => intro s qc1 _ h; simp [compileQueryLoop] at h
  | succ fuel ih =>
    intro s qc1 hv h
    rw [compileQueryLoop] at h
    cases hst : s.st with
    | nil =>
      simp only [hst] at h
      by_cases h0 : s.id = 0
      · simp [h0] at h
      · simp only [h0, if_false, Option.some.injEq, Except.ok.injEq] at h
        rw [← h]
        exact hv
    | cons val st1 =>
      simp only [hst] at h
      by_cases hge : s.id ≥ maxSelectors
      · simp [hge] at h
      · simp only [hge, if_false] at h
        cases hfield : op.Fields[val &&& 0xFFFF]? with
        | none => simp [hfield] at h
        | some field =>
          simp only [hfield] at h
          by_cases hkw : field.Type_ = .FieldKeyword
          · simp only [hkw, if_true] at h
            exact ih { s with st := st1 } qc1 hv h
          · simp only [hkw, if_false] at h
            split at h
            · simp at h
            · rename_i r hr
              obtain ⟨a1, a2⟩ := selectorBody_findKeys env hk op role st1 s.qc s.id _ field r hr
              refine ih _ qc1 ?_ h
              intro k hmem
              simp only [QCode.findKeys, List.map_append, List.map_cons, List.map_nil,
                List.mem_append, List.mem_singleton] at hmem
              rcases hmem with hmem | hmem
              · exact hv k (by rw [← a1]; exact hmem)
              · rw [hmem]
                exact a2

/-- The state in which `compileQuery` enters the selector loop holds no
selector. -/
theorem compileQuery_enters_empty (env : Env) (fuel : Nat) (qc : QCode) (op : Operation)
    (role : String) (qc1 : QCode) (h : compileQuery env fuel qc op role = some (.ok qc1)) :
    ∃ s : LoopState, s.qc.Selects = [] ∧
      compileQueryLoop env op role fuel s = some (.ok qc1) := by
  simp only [compileQuery] at h
  by_cases hlen : op.Fields.length = 0
  · simp [hlen] at h
  · simp only [hlen, if_false] at h
    split at h
    · simp at h
    · split at h
      · simp at h
      · rename_i qc3 h3
        exact ⟨_, (pushRoots_frame op op.Fields ({ qc3 with Selects := [] }, [])).2, h⟩

/-- C24: whenever `compileQuery` succeeds (the functions taken as parameters
keeping the relationship kind and the internal arguments of the stored
selectors), every selector whose relationship is recursive carries an internal
argument named `find` whose value is `parents` or `children`; and
`compileArgFind` succeeds exactly when the relationship of the selector is
recursive and the value is `parents` or `children`, and then it adds one
internal argument and changes nothing else. -/
theorem recursive_selectors_carry_find (env : Env) (hk : env.KeepsFind) (fuel : Nat)
    (qc : QCode) (op : Operation) (role : String) (qc1 : QCode)
    (h : compileQuery env fuel qc op role = some (.ok qc1)) (sel : Select) (arg : Arg) :
    (∀ s ∈ qc1.Selects, s.Rel.Type_ = .RelRecursive →
      ∃ a, s.GetInternalArg "find" = (a, true) ∧ a.Name = "find" ∧
        (a.Val = "parents" ∨ a.Val = "children")) ∧
    ((∃ sel1, compileArgFind sel arg = .ok sel1) ↔
      (sel.Rel.Type_ = .RelRecursive ∧ (arg.Val.Val = "parents" ∨ arg.Val.Val = "children"))) ∧
    (∀ sel1, compileArgFind sel arg = .ok sel1 →
      sel1 = { sel with IArgs := sel.IArgs ++ [{ Name := arg.Name, Val := arg.Val.Val }] }) := by
  refine ⟨?_, ?_, ?_⟩
  · intro s hs hrec
    obtain ⟨s0, hsel, hloop⟩ := compileQuery_enters_empty env fuel qc op role qc1 h
    have hv := compileQueryLoop_findKeys env hk op role fuel s0 qc1
      (by intro k hmem; simp [QCode.findKeys, hsel] at hmem) hloop s.findKey
      (by simp only [QCode.findKeys]; exact List.mem_map_of_mem _ hs)
    obtain ⟨a, ha, hval⟩ := hv hrec
    simp only [Select.findKey] at ha
    refine ⟨a, ?_, ?_, hval⟩
    · simp only [Select.GetInternalArg, ha]
    · have := List.find?_some ha
      simpa using this
  · unfold compileArgFind
    constructor
    · rintro ⟨sel1, h1⟩
      by_cases hr : sel.Rel.Type_ ≠ .RelRecursive
      · rw [if_pos hr] at h1
        cases h1
      · rw [if_neg hr] at h1
        by_cases hv : arg.Val.Val ≠ "parents" ∧ arg.Val.Val ≠ "children"
        · rw [if_pos hv] at h1
          cases h1
        · refine ⟨not_not.mp hr, ?_⟩
          by_cases hp : arg.Val.Val = "parents"
          · exact Or.inl hp
          · by_cases hc : arg.Val.Val = "children"
            · exact Or.inr hc
            · exact absurd ⟨hp, hc⟩ hv
    · rintro ⟨hr, hv⟩
      have hv2 : ¬(arg.Val.Val ≠ "parents" ∧ arg.Val.Val ≠ "children") := by
        rintro ⟨h1, h2⟩
        rcases hv with hv | hv
        · exact h1 hv
        · exact h2 hv
      rw [if_neg (not_not.mpr hr), if_neg hv2]
      exact ⟨_, rfl⟩
  · intro sel1 h1
    unfold compileArgFind at h1
    by_cases hr : sel.Rel.Type_ ≠ .RelRecursive
    · rw [if_pos hr] at h1
      cases h1
    · rw [if_neg hr] at h1
      by_cases hv : arg.Val.Val ≠ "parents" ∧ arg.Val.Val ≠ "children"
      · rw [if_pos hv] at h1
        cases h1
      · rw [if_neg hv] at h1
        injection h1 with h1
        rw [← h1]
        rfl

theorem recursiveEnv_keepsFind : recursiveEnv.KeepsFind :=
  { relInfo := by
      intro op qc sel f qc1 sel1 h
      simp only [recursiveEnv, Except.ok.injEq, Prod.mk.injEq] at h
      rw [← h.1]
    compileFields := by
      intro st op qc sel f tr role st1 qc1 sel1 h
      simp only [recursiveEnv, demoEnv, Except.ok.injEq, Prod.mk.injEq] at h
      rw [← h.2.1] }

/-- Witness for C24: `query q { reply { reply(find: "parents") } }` compiles to
a root selector and a recursive child that carries `find = "parents"`; without
the `find` argument the same query is rejected. -/
theorem recursive_selectors_carry_find_witness :
    findSummary
        (compileQuery recursiveEnv 10 (compileInit (fun _ => .QTQuery) replyOp) replyOp "user") =
      some (.ok [(.RelNone, []), (.RelRecursive, [("find", "parents")])]) ∧
    findSummary
        (compileQuery recursiveEnv 10 (compileInit (fun _ => .QTQuery) replyNoFindOp)
          replyNoFindOp "user") =
      some (.error (.error "argument 'find' needed for recursive queries")) ∧
    ∃ qc1,
      compileQuery recursiveEnv 10 (compileInit (fun _ => .QTQuery) replyOp) replyOp "user" =
        some (.ok qc1) ∧
      ∀ s ∈ qc1.Selects, s.Rel.Type_ = .RelRecursive →
        ∃ a, s.GetInternalArg "find" = (a, true) ∧ a.Name = "find" ∧
          (a.Val = "parents" ∨ a.Val = "children") :=
  ⟨rfl, rfl, _, rfl,
    (recursive_selectors_carry_find recursiveEnv recursiveEnv_keepsFind 10
      (compileInit (fun _ => .QTQuery) replyOp) replyOp "user" _ rfl replySelect
      { Name := "find", Val := .mk .NodeStr "" "parents" [] }).1⟩

/-- C31: a successful `compileArgID` leaves where equal to exactly the new
primary-key equality node, whatever filter the where held before: with any
other earlier filter the call returns the same selector, so the earlier filter
is replaced, not merged. -/
theorem compileArgID_replaces_where (z : ExpNode) (sel sel1 : Select) (arg : Arg)
    (h : compileArgID z sel arg = .ok sel1) :
    sel1.Where.Exp =
      .node
        { z with
          Op := .OpEquals
          Left := { z.Left with Col := sel.Ti.PrimaryCol }
          Right := { z.Right with ValType := idValType arg.Val.Type_, Val := arg.Val.Val } }
        [] ∧
    (∀ fil : Filter, compileArgID z { sel with Where := fil } arg = .ok sel1) := by
  by_cases h1 : sel.ParentID ≠ -1
  · simp [compileArgID, h1] at h
  by_cases h3 : sel.Ti.PrimaryCol.Name = ""
  · cases ht : arg.Val.Type_ <;> simp [compileArgID, h1, h3, ht] at h
  cases ht : arg.Val.Type_
  case neg.NodeNum =>
    cases hp : parseInt32 arg.Val.Val with
    | none => simp [compileArgID, h1, h3, ht, hp] at h
    | some v =>
      simp only [compileArgID, h1, h3, ht, hp, idValType] at h ⊢
      simp at h
      subst h
      exact ⟨rfl, fun _ => by simp⟩
  case neg.NodeStr =>
    simp only [compileArgID, h1, h3, ht, idValType] at h ⊢
    simp at h
    subst h
    exact ⟨rfl, fun _ => by simp⟩
  case neg.NodeVar =>
    simp only [compileArgID, h1, h3, ht, idValType] at h ⊢
    simp at h
    subst h
    exact ⟨rfl, fun _ => by simp⟩
  all_goals simp [compileArgID, h1, h3, ht] at h

/-- Witness for C31: for `users(where: { id: { eq: 1 } }, id: 5)` the where
left by the `where` argument is the node `id = 1`; after the `id` argument the
where is the single node `id = 5`, without children. -/
theorem compileArgID_replaces_where_witness :
    whereSummary (compileArgs { compileArgObj := idEqualsOne } usersSelect [whereIdArg] "user") =
      some (some .OpEquals, "1", 0) ∧
    whereSummary
        (compileArgs { compileArgObj := idEqualsOne } usersSelect [whereIdArg, idFive] "user") =
      some (some .OpEquals, "5", 0) ∧
    ∃ sel1,
      compileArgID {} { usersSelect with Where := { Exp := newExpOp {} .OpFalse } } idFive =
        .ok sel1 ∧
      sel1.Where.Exp =
        .node
          { Op := .OpEquals
            Left := { Col := { Name := "id", Table := "users" } }
            Right := { ValType := .ValNum, Val := "5" } }
          [] :=
  ⟨by decide, by decide, _, rfl,
    (compileArgID_replaces_where {} { usersSelect with Where := { Exp := newExpOp {} .OpFalse } } _
      idFive rfl).1⟩

theorem single_arity_arg (tyName : ParserType → String) (st : ConstraintState) (name : String)
    (b : Node) (hn : name = "required" ∨ name = "unique") (hb : b.Type_ = .NodeBool) :
    constraintArg tyName st { Name := name, Val := b } =
      .ok { st with vals := st.vals ++ [name] } := by
  rcases hn with rfl | rfl <;>
    simp [constraintArg, validators, validateConstraint, validateTypes, ifArg, hb]

theorem constraintArgs_append (tyName : ParserType → String) (pre post : List Arg) :
    ∀ st : ConstraintState,
      constraintArgs tyName st (pre ++ post) =
        match constraintArgs tyName st pre with
        | .error e => .error e
        | .ok st1 => constraintArgs tyName st1 post := by
  induction pre with
  | nil => intro st; rfl
  | cons a rest ih =>
    intro st
    simp only [List.cons_append, constraintArgs]
    cases constraintArg tyName st a with
    | error e => rfl
    | ok st1 => exact ih st1

/-- C34: for a single-arity validator argument (`required`, `unique`) with a
boolean value, `compileDirectiveConstraint` emits the bare canonical name as
the rule token whatever the boolean is: two directives that differ only in the
boolean of such an argument compile to the same result. -/
theorem single_arity_token_ignores_value (tyName : ParserType → String) (name : String)
    (b1 b2 : Node) (hn : name = "required" ∨ name = "unique") (h1 : b1.Type_ = .NodeBool)
    (h2 : b2.Type_ = .NodeBool) :
    (∀ st : ConstraintState,
      constraintArg tyName st { Name := name, Val := b1 } =
          .ok { st with vals := st.vals ++ [name] } ∧
        constraintArg tyName st { Name := name, Val := b2 } =
          .ok { st with vals := st.vals ++ [name] }) ∧
    (∀ (qc : QCode) (dn : String) (pre post : List Arg),
      compileDirectiveConstraint tyName qc
          { Name := dn, Args := pre ++ { Name := name, Val := b1 } :: post } =
        compileDirectiveConstraint tyName qc
          { Name := dn, Args := pre ++ { Name := name, Val := b2 } :: post }) := by
  refine ⟨fun st => ⟨single_arity_arg tyName st name b1 hn h1,
    single_arity_arg tyName st name b2 hn h2⟩, ?_⟩
  intro qc dn pre post
  have key : ∀ st, constraintArgs tyName st (pre ++ { Name := name, Val := b1 } :: post) =
      constraintArgs tyName st (pre ++ { Name := name, Val := b2 } :: post) := by
    intro st
    rw [constraintArgs_append, constraintArgs_append]
    cases constraintArgs tyName st pre with
    | error e => rfl
    | ok st1 =>
      simp only [constraintArgs, single_arity_arg tyName st1 name b1 hn h1,
        single_arity_arg tyName st1 name b2 hn h2]
  simp only [compileDirectiveConstraint, key]

/-- Witness for C34: `@constraint(variable: "x", required: false)` and
`@constraint(variable: "x", required: true)` both pack to `required`. -/
theorem single_arity_token_ignores_value_witness :
    packedFor (fun _ => "") (requiredDirective "false") "x" = some "required" ∧
    packedFor (fun _ => "") (requiredDirective "true") "x" = some "required" ∧
    compileDirectiveConstraint (fun _ => "") {} (requiredDirective "false") =
      compileDirectiveConstraint (fun _ => "") {} (requiredDirective "true") :=
  ⟨by decide, by decide,
    (single_arity_token_ignores_value (fun _ => "") "required" (.mk .NodeBool "" "false" [])
      (.mk .NodeBool "" "true" []) (Or.inl rfl) rfl rfl).2 {} "constraint"
      [{ Name := "variable", Val := .mk .NodeStr "" "x" [] }] []⟩

/-- C32 (fails on the code): after `compileArgs` succeeds a selector can be
both singular and in cursor mode.  For `users(first: 2, id: 5)` the argument
`first` sets `Paging.Cursor` (the selector is not yet singular) and `id` then
sets `Singular` without clearing the cursor flag; likewise for
`users(after: $cursor, id: 5)`.  With the arguments in the other order the
guard `if !sel.Singular` of the cursor arguments keeps the two apart, and so
does every single cursor argument on a selector that is not both already. -/
theorem id_after_cursor_singular_with_cursor :
    pagingSummary (compileArgs {} usersSelect [firstTwo, idFive] "user") =
      some (true, true, 2, .PTOffset, .OrderAsc) ∧
    pagingSummary (compileArgs {} usersSelect [afterCursorArg, idFive] "user") =
      some (true, true, 0, .PTForward, .OrderNone) ∧
    pagingSummary (compileArgs {} usersSelect [idFive, firstTwo] "user") =
      some (true, false, 2, .PTOffset, .OrderAsc) ∧
    (∀ (env : ArgEnv) (sel sel2 : Select) (arg : Arg) (role : String),
      (arg.Name = "first" ∨ arg.Name = "last" ∨ arg.Name = "after" ∨ arg.Name = "before") →
      compileArg env sel arg role = .ok sel2 →
      ¬(sel.Singular = true ∧ sel.Paging.Cursor = true) →
      ¬(sel2.Singular = true ∧ sel2.Paging.Cursor = true)) := by
  refine ⟨by decide, by decide, by decide, ?_⟩
  intro env sel sel2 arg role hn h hno
  obtain ⟨name, val⟩ := arg
  simp only at hn
  have fl : ∀ o, compileArgFirstLast env.dbType sel ⟨name, val⟩ o = .ok sel2 →
      ¬(sel2.Singular = true ∧ sel2.Paging.Cursor = true) := by
    intro o h1
    obtain ⟨s1, e1, e2⟩ := firstLast_shape _ _ _ _ _ h1
    obtain ⟨k1, _, _⟩ := compileArgLimit_keeps _ _ _ _ e1
    rw [e2]
    simp only [k1]
    rcases Bool.eq_false_or_eq_true sel.Singular with hs | hs
    · simp only [hs, true_and] at hno
      simpa [hs] using hno
    · simp [hs]
  have ab : ∀ pt, compileArgAfterBefore sel ⟨name, val⟩ pt = .ok sel2 →
      ¬(sel2.Singular = true ∧ sel2.Paging.Cursor = true) := by
    intro pt h1
    obtain ⟨_, _, e2⟩ := afterBefore_shape _ _ _ _ h1
    rw [e2]
    rcases Bool.eq_false_or_eq_true sel.Singular with hs | hs
    · simp only [hs, true_and] at hno
      simpa [hs] using hno
    · simp [hs]
  rcases hn with rfl | rfl | rfl | rfl
  · exact fl _ (liftErr_ok _ _ (by simpa [compileArg] using h))
  · exact fl _ (liftErr_ok _ _ (by simpa [compileArg] using h))
  · exact ab _ (liftErr_ok _ _ (by simpa [compileArg] using h))
  · exact ab _ (liftErr_ok _ _ (by simpa [compileArg] using h))

theorem orderByObjStep_key (env : ArgEnv) (sel : Select) (cm : List String)
    (obList : List OrderBy) (k : Node) (col : DBColumn)
    (hk : k.Type_ = .NodeStr ∨ k.Type_ = .NodeLabel) (ho : (toOrder k.Val).2 = none)
    (hc : env.getColumn sel.Ti (if env.EnableCamelcase then env.toSnake k.Name else k.Name) =
      .ok col)
    (hn : col.Name ∉ cm) :
    orderByObjStep env sel cm obList k =
      .ok (sel, col.Name :: cm, obList ++ [{ Order := (toOrder k.Val).1, Col := col }]) := by
  rcases hk with hk | hk <;>
    simp [orderByObjStep, orderByObjKind, setOrderByColName, hk, ho, hc, hn]

theorem orderByObjLoop_keys (env : ArgEnv) (sel : Select) :
    ∀ (kc : List (Node × DBColumn)) (cm : List String) (obList : List OrderBy),
      (∀ p ∈ kc, p.1.Type_ = .NodeStr ∨ p.1.Type_ = .NodeLabel) →
      (∀ p ∈ kc, (toOrder p.1.Val).2 = none) →
      (∀ p ∈ kc,
        env.getColumn sel.Ti (if env.EnableCamelcase then env.toSnake p.1.Name else p.1.Name) =
          .ok p.2) →
      (kc.map fun p => p.2.Name).Nodup →
      (∀ p ∈ kc, p.2.Name ∉ cm) →
      orderByObjLoop env sel cm obList (kc.map fun p => p.1) =
        .ok (sel, obList ++ kc.map fun p => { Order := (toOrder p.1.Val).1, Col := p.2 }) := by
  intro kc
  induction kc with
  | nil => intro cm obList _ _ _ _ _; simp [orderByObjLoop]
  | cons p rest ih =>
    intro cm obList hk ho hc hd hn
    simp only [List.map_cons, orderByObjLoop]
    rw [orderByObjStep_key env sel cm obList p.1 p.2 (hk p (List.mem_cons_self _ _))
      (ho p (List.mem_cons_self _ _)) (hc p (List.mem_cons_self _ _))
      (hn p (List.mem_cons_self _ _))]
    simp only
    rw [ih (p.2.Name :: cm) _ (fun q hq => hk q (List.mem_cons_of_mem _ hq))
      (fun q hq => ho q (List.mem_cons_of_mem _ hq))
      (fun q hq => hc q (List.mem_cons_of_mem _ hq))
      (List.nodup_cons.mp hd).2]
    · simp
    · intro q hq hmem
      rcases List.mem_cons.mp hmem with heq | hin
      · have hin : p.2.Name ∈ rest.map fun p => p.2.Name := by
          rw [← heq]
          exact List.mem_map_of_mem (fun p : Node × DBColumn => p.2.Name) hq
        exact (List.nodup_cons.mp hd).1 hin
      · exact hn q (List.mem_cons_of_mem _ hq) hin

theorem orderByObjStep_clash (env : ArgEnv) (sel : Select) (cm : List String)
    (obList : List OrderBy) (k : Node) (col : DBColumn)
    (hk : k.Type_ = .NodeStr ∨ k.Type_ = .NodeLabel) (ho : (toOrder k.Val).2 = none)
    (hc : env.getColumn sel.Ti (if env.EnableCamelcase then env.toSnake k.Name else k.Name) =
      .ok col)
    (hn : col.Name ∈ cm) :
    orderByObjStep env sel cm obList k = .error (.error "can only be defined once") := by
  rcases hk with hk | hk <;>
    simp [orderByObjStep, orderByObjKind, setOrderByColName, hk, ho, hc, hn]

theorem orderByObjLoop_clash (env : ArgEnv) (sel : Select) :
    ∀ (kc : List (Node × DBColumn)) (cm : List String) (obList : List OrderBy),
      (∀ p ∈ kc, p.1.Type_ = .NodeStr ∨ p.1.Type_ = .NodeLabel) →
      (∀ p ∈ kc, (toOrder p.1.Val).2 = none) →
      (∀ p ∈ kc,
        env.getColumn sel.Ti (if env.EnableCamelcase then env.toSnake p.1.Name else p.1.Name) =
          .ok p.2) →
      (∃ p ∈ kc, p.2.Name ∈ cm) →
      ∃ e, orderByObjLoop env sel cm obList (kc.map fun p => p.1) = .error (.error e) := by
  intro kc
  induction kc with
  | nil => intro cm obList _ _ _ h; obtain ⟨p, hp, _⟩ := h; cases hp
  | cons p rest ih =>
    intro cm obList hk ho hc hex
    simp only [List.map_cons, orderByObjLoop]
    by_cases hin : p.2.Name ∈ cm
    · rw [orderByObjStep_clash env sel cm obList p.1 p.2 (hk p (List.mem_cons_self _ _))
        (ho p (List.mem_cons_self _ _)) (hc p (List.mem_cons_self _ _)) hin]
      exact ⟨_, rfl⟩
    · rw [orderByObjStep_key env sel cm obList p.1 p.2 (hk p (List.mem_cons_self _ _))
        (ho p (List.mem_cons_self _ _)) (hc p (List.mem_cons_self _ _)) hin]
      simp only
      refine ih (p.2.Name :: cm) _ (fun q hq => hk q (List.mem_cons_of_mem _ hq))
        (fun q hq => ho q (List.mem_cons_of_mem _ hq))
        (fun q hq => hc q (List.mem_cons_of_mem _ hq)) ?_
      obtain ⟨q, hq, hqc⟩ := hex
      rcases List.mem_cons.mp hq with heq | hq2
      · rw [heq] at hqc
        exact absurd hqc hin
      · exact ⟨q, hq2, List.mem_cons_of_mem _ hqc⟩

theorem orderByObj_ok (env : ArgEnv) (sel : Select) (parent : Node)
    (cm : List String) (kc : List (Node × DBColumn))
    (hch : parent.Children = kc.map fun p => p.1)
    (hk : ∀ p ∈ kc, p.1.Type_ = .NodeStr ∨ p.1.Type_ = .NodeLabel)
    (ho : ∀ p ∈ kc, (toOrder p.1.Val).2 = none)
    (hc : ∀ p ∈ kc,
      env.getColumn sel.Ti (if env.EnableCamelcase then env.toSnake p.1.Name else p.1.Name) =
        .ok p.2)
    (hd : (kc.map fun p => p.2.Name).Nodup)
    (hn : ∀ p ∈ kc, p.2.Name ∉ cm) :
    compileArgOrderByObj env sel parent cm =
      .ok { sel with
            OrderBy :=
              sel.OrderBy ++ kc.map fun p => { Order := (toOrder p.1.Val).1, Col := p.2 } } := by
  unfold compileArgOrderByObj
  rw [hch, ← List.map_reverse]
  rw [orderByObjLoop_keys env sel kc.reverse cm []
    (fun p hp => hk p (List.mem_reverse.mp hp)) (fun p hp => ho p (List.mem_reverse.mp hp))
    (fun p hp => hc p (List.mem_reverse.mp hp))
    (by rw [List.map_reverse]; exact List.nodup_reverse.mpr hd)
    (fun p hp => hn p (List.mem_reverse.mp hp))]
  simp

theorem orderByObj_clash (env : ArgEnv) (sel : Select) (parent : Node)
    (cm : List String) (kc : List (Node × DBColumn))
    (hch : parent.Children = kc.map fun p => p.1)
    (hk : ∀ p ∈ kc, p.1.Type_ = .NodeStr ∨ p.1.Type_ = .NodeLabel)
    (ho : ∀ p ∈ kc, (toOrder p.1.Val).2 = none)
    (hc : ∀ p ∈ kc,
      env.getColumn sel.Ti (if env.EnableCamelcase then env.toSnake p.1.Name else p.1.Name) =
        .ok p.2)
    (hex : ∃ p ∈ kc, p.2.Name ∈ cm) :
    ∃ e, compileArgOrderByObj env sel parent cm = .error (.error e) := by
  unfold compileArgOrderByObj
  rw [hch, ← List.map_reverse]
  obtain ⟨e, he⟩ := orderByObjLoop_clash env sel kc.reverse cm []
    (fun p hp => hk p (List.mem_reverse.mp hp)) (fun p hp => ho p (List.mem_reverse.mp hp))
    (fun p hp => hc p (List.mem_reverse.mp hp))
    (by obtain ⟨p, hp, hpc⟩ := hex; exact ⟨p, List.mem_reverse.mpr hp, hpc⟩)
  exact ⟨e, by rw [he]⟩

/-- C33: `compileArgOrderByObj` preserves key order.  For an order-by object
whose keys `k1..kn` are string or label nodes with valid order keywords, whose
columns are found in the table of the selector and have pairwise distinct
names, and a last-in-first-out work stack (the children are popped from last
to first): whenever the call succeeds, the entries appended to the order-by
list of the selector are those of `k1..kn` in that same order, each with the
order of its keyword.  The call succeeds when none of the columns is already
ordered by (is in the set `cm`), and fails otherwise. -/
theorem orderByObj_keeps_key_order (env : ArgEnv) (sel : Select) (parent : Node)
    (cm : List String) (kc : List (Node × DBColumn))
    (hch : parent.Children = kc.map fun p => p.1)
    (hk : ∀ p ∈ kc, p.1.Type_ = .NodeStr ∨ p.1.Type_ = .NodeLabel)
    (ho : ∀ p ∈ kc, (toOrder p.1.Val).2 = none)
    (hc : ∀ p ∈ kc,
      env.getColumn sel.Ti (if env.EnableCamelcase then env.toSnake p.1.Name else p.1.Name) =
        .ok p.2)
    (hd : (kc.map fun p => p.2.Name).Nodup) :
    (∀ r, compileArgOrderByObj env sel parent cm = .ok r →
      r = { sel with
            OrderBy :=
              sel.OrderBy ++ kc.map fun p => { Order := (toOrder p.1.Val).1, Col := p.2 } }) ∧
    ((∀ p ∈ kc, p.2.Name ∉ cm) →
      compileArgOrderByObj env sel parent cm =
        .ok { sel with
              OrderBy :=
                sel.OrderBy ++ kc.map fun p => { Order := (toOrder p.1.Val).1, Col := p.2 } }) ∧
    ((∃ p ∈ kc, p.2.Name ∈ cm) →
      ∃ e, compileArgOrderByObj env sel parent cm = .error (.error e)) := by
  refine ⟨fun r hr => ?_, orderByObj_ok env sel parent cm kc hch hk ho hc hd,
    orderByObj_clash env sel parent cm kc hch hk ho hc⟩
  by_cases hex : ∃ p ∈ kc, p.2.Name ∈ cm
  · obtain ⟨e, he⟩ := orderByObj_clash env sel parent cm kc hch hk ho hc hex
    rw [he] at hr
    cases hr
  · have hn : ∀ p ∈ kc, p.2.Name ∉ cm := fun p hp hin => hex ⟨p, hp, hin⟩
    rw [orderByObj_ok env sel parent cm kc hch hk ho hc hd hn] at hr
    injection hr with hr
    exact hr.symm

/-- Witness for C33: `users(order_by: { title: asc, id: desc })` appends the
entries of `title` (asc) and `id` (desc), in that order. -/
theorem orderByObj_keeps_key_order_witness :
    orderSummary (compileArgs {} usersSelect [orderByTitleId] "user") =
      some [("", "title", .OrderAsc), ("", "id", .OrderDesc)] ∧
    compileArgOrderByObj {} usersSelect orderByTitleId.Val [] =
      .ok { usersSelect with
            OrderBy :=
              usersSelect.OrderBy ++
                [(Node.mk .NodeLabel "title" "asc" [], ({ Name := "title", Table := "users" } : DBColumn)),
                  (Node.mk .NodeLabel "id" "desc" [], ({ Name := "id", Table := "users" } : DBColumn))].map
                  fun p => { Order := (toOrder p.1.Val).1, Col := p.2 } } :=
  ⟨by decide,
    (orderByObj_keeps_key_order {} usersSelect orderByTitleId.Val []
      [(.mk .NodeLabel "title" "asc" [], { Name := "title", Table := "users" }),
        (.mk .NodeLabel "id" "desc" [], { Name := "id", Table := "users" })]
      rfl
      (by intro p hp; simp at hp; rcases hp with rfl | rfl <;> exact Or.inr rfl)
      (by intro p hp; simp at hp; rcases hp with rfl | rfl <;> rfl)
      (by intro p hp; simp at hp; rcases hp with rfl | rfl <;> rfl)
      (by decide)).2.1
      (by intro p _; exact List.not_mem_nil _)⟩

end Qcode
